import Mathlib

/-!
# Host association lowering (flang/lib/Lower/HostAssociations.cpp)

A shallow embedding of the capture dispatcher `walkCaptureCategories`, of the
members `getType`, `instantiateHostTuple` and `getFromTuple` of the six
`CapturedXXX` classes, and of the `HostAssociations` members
`addSymbolsToBind`, `getArgumentType`, `hostProcedureBindings` and
`internalProcedureBindings`. The code generated is a list of operations whose
values are terms; its run-time meaning, where a property needs it, is given by
an evaluation of the values and an execution of the operations on a memory.

The semantic-analysis layer, the MLIR type system and the `AbstractConverter`
are collaborators of this file whose sources are elsewhere: a symbol is
represented by the answers it gives to the queries made here, an MLIR type by
a term of `MlirType`, and the converter by a record of its query functions.
Fatal exits (`TODO`, `assert`, `fir::emitFatalError`) are values of `Failure`
returned through `Except`.

# Legalization of ArmSVE for the LLVM export
(mlir/lib/Dialect/ArmSVE/Transforms/LegalizeForLLVMExport.cpp)

A shallow embedding of the rewrite patterns `CreateMaskOpLowering` and
`SvboolConversionOpLowering`: a pattern takes the matched operation and the
rewriter, and returns its `LogicalResult` with the rewriter, which records the
operations created and the value that replaces the matched operation. The
functions `populateArmSVELegalizeForLLVMExportPatterns` and
`configureArmSVELegalizeForExportTarget` are embedded through the patterns
that the first adds and the legality actions that the second sets.
-/

namespace ArmSVE

/-! ## Vector types, values and the rewriter -/

/-- An `mlir::VectorType`: the sizes of the dimensions, which of them are
scalable, and the element type. -/
structure VectorType where
  shape : List Int
  scalableDims : List Bool
  elementType : String := "i1"
  deriving DecidableEq, Repr

namespace VectorType

/-- The member `VectorType::getRank`. -/
def getRank (type : VectorType) : Nat := type.shape.length

/-- The member `VectorType::isScalable`: is one of the dimensions scalable ? -/
def isScalable (type : VectorType) : Bool := type.scalableDims.any (fun dim => dim)

/-- The member `VectorType::getDimSize`. -/
def getDimSize (type : VectorType) (idx : Nat) : Int := type.shape.getD idx 0

/-- The call `VectorType::Builder(type).setDim(pos, val)`. -/
def setDim (type : VectorType) (pos : Nat) (val : Int) : VectorType :=
  { type with shape := type.shape.set pos val }

end VectorType

/-- The type of a value: a vector type, or a type that is not one. -/
inductive Ty where
  | vector (type : VectorType)
  | scalar (name : String)
  deriving DecidableEq, Repr

/-- The two intrinsics of the conversions to and from `svbool`. -/
inductive SvboolIntrOp where
  | ConvertToSvboolIntrOp
  | ConvertFromSvboolIntrOp
  deriving DecidableEq, Repr

/-- An `mlir::Value`: a value defined outside of the rewrite, or the result of
an operation created by a pattern, given by the operation and its operands. -/
inductive Value where
  /-- A value defined outside of the rewrite, such as an operand of the
  matched operation. -/
  | operand (name : String) (type : Ty)
  /-- The result of `llvm.mlir.zero`. -/
  | zero (type : Ty)
  /-- The result of `arm_sve.intr.whilelt`. -/
  | whilelt (type : VectorType) (base n : Value)
  /-- The result of `arith.constant` with the zero attribute of the type. -/
  | constant (type : VectorType)
  /-- The result of `vector.extract source[position]`. -/
  | extract (source : Value) (position : List Int)
  /-- The result of `arm_sve.intr.convert.to.svbool` or
  `arm_sve.intr.convert.from.svbool`. -/
  | convert (intrinsic : SvboolIntrOp) (type : VectorType) (source : Value)
  /-- The result of `vector.insert valueToStore, dest[position]`. -/
  | insert (valueToStore dest : Value) (position : List Int)
  deriving DecidableEq, Repr

/-- The type of what `vector.extract` takes out of a value of type `type` at a
position: the vector of the remaining dimensions, or the element when the
position has an index for every dimension. -/
def extractType (type : Ty) (position : List Int) : Ty :=
  match type with
  | .vector vectorType =>
    if position.length < vectorType.getRank then
      .vector { vectorType with
                shape := vectorType.shape.drop position.length
                scalableDims := vectorType.scalableDims.drop position.length }
    else
      .scalar vectorType.elementType
  | .scalar name => .scalar name

/-- The member `Value::getType`. -/
def Value.getType : Value → Ty
  | .operand _ type => type
  | .zero type => type
  | .whilelt type _ _ => .vector type
  | .constant type => .vector type
  | .extract source position => extractType source.getType position
  | .convert _ type _ => .vector type
  | .insert _ dest _ => dest.getType

/-- The result of a pattern. -/
inductive LogicalResult where
  | success
  | failure
  deriving DecidableEq, Repr

/-- A failed `assert` of the support library. -/
inductive Failure where
  | assertion (msg : String)
  deriving DecidableEq, Repr

/-- The `ConversionPatternRewriter`, through what a pattern does with it: the
operations created, in order, each given by its result, and the value that
replaces the matched operation (none while the operation is in place). -/
structure ConversionPatternRewriter where
  created : List Value := []
  replaced : Option Value := none
  deriving DecidableEq, Repr

namespace ConversionPatternRewriter

/-- The creation of an operation with the result `result`. -/
def create (rewriter : ConversionPatternRewriter) (result : Value) :
    ConversionPatternRewriter :=
  { rewriter with created := rewriter.created ++ [result] }

/-- The member `replaceOp(op, result)` for the matched operation. -/
def replaceOp (rewriter : ConversionPatternRewriter) (result : Value) :
    ConversionPatternRewriter :=
  { rewriter with replaced := some result }

end ConversionPatternRewriter

/-! ## The lowering of `vector.create_mask` -/

/-- A `vector::CreateMaskOp`, with its result type. -/
structure CreateMaskOp where
  getVectorType : VectorType
  deriving DecidableEq, Repr

/-- The function `llvm::isPowerOf2_32`, on the value of a `uint32_t`. -/
def isPowerOf2_32 (value : Nat) : Bool :=
  value != 0 && (value &&& (value - 1)) == 0

/-- The conversion `uint32_t(value)` of an `int64_t`. -/
def toUInt32 (value : Int) : Nat := (value % 2 ^ 32).toNat

/-- Converts `vector.create_mask` ops that match the size of an SVE predicate
to the `whilelt` intrinsic. The operands of the adaptor are the converted
operands of the operation; `getOperands()[0]` asserts that there is one. -/
def CreateMaskOpLowering.matchAndRewrite (createMaskOp : CreateMaskOp)
    (adaptorOperands : List Value) (rewriter : ConversionPatternRewriter) :
    Except Failure (LogicalResult × ConversionPatternRewriter) :=
  let maskType := createMaskOp.getVectorType
  if maskType.getRank != 1 || !maskType.isScalable then
    .ok (.failure, rewriter) -- "not 1-D and scalable"
  else
    let maskBaseSize := maskType.getDimSize 0
    if decide (maskBaseSize < 2) || decide (maskBaseSize > 16) ||
        !isPowerOf2_32 (toUInt32 maskBaseSize) then
      .ok (.failure, rewriter) -- "not SVE predicate-sized"
    else
      let zero := Value.zero (.scalar "i64")
      let rewriter := rewriter.create zero
      match adaptorOperands[0]? with
      | none => .error (.assertion "Invalid index!")
      | some operand =>
        let whilelt := Value.whilelt maskType zero operand
        .ok (.success, (rewriter.create whilelt).replaceOp whilelt)

/-! ## The unrolling of the conversions to and from `svbool` -/

/-- The function `llvm::divideCeil`. -/
def divideCeil (numerator denominator : Int) : Int :=
  (numerator + denominator - 1) / denominator

/-- Modelled from the spec: the range `mlir::StaticTileOffsetRange(shape,
tileShape)`, whose source (mlir/Dialect/Utils/IndexingUtils.h) is not part of
this file. It is the list of the offsets of the tiles of shape `tileShape`
that cover `shape`, in lexicographic order: the offset in the last dimension
varies fastest. -/
def StaticTileOffsetRange : List Int → List Int → List (List Int)
  | size :: shape, tile :: tileShape =>
    (List.range (divideCeil size tile).toNat).flatMap
      (fun k => (StaticTileOffsetRange shape tileShape).map (fun rest => (k * tile) :: rest))
  | _, _ => [[]]

/-- An `arm_sve.convert_to_svbool` or `arm_sve.convert_from_svbool`, with its
source and its result type. -/
structure SvboolConversionOp where
  getSource : Value
  getResultType : VectorType
  deriving DecidableEq, Repr

/-- The body of the loop of `SvboolConversionOpLowering::matchAndRewrite`, for
one tile offset `index`: the slice of the source is extracted, converted and
inserted in the result. The `llvm::cast<VectorType>` asserts that the slice is
a vector. -/
def SvboolConversionOpLowering.body (IntrOp : SvboolIntrOp) (source : Value)
    (resultType : VectorType) (state : Value × ConversionPatternRewriter)
    (index : List Int) : Except Failure (Value × ConversionPatternRewriter) :=
  let (result, rewriter) := state
  let extractOrInsertPosition := index.dropLast
  let sourceVector := Value.extract source extractOrInsertPosition
  let rewriter := rewriter.create sourceVector
  match sourceVector.getType with
  | .scalar _ => .error (.assertion "cast<Ty>() argument of incompatible type!")
  | .vector sourceVectorType =>
    let convertedType := sourceVectorType.setDim 0 (resultType.shape.getLastD 0)
    let convertedVector := Value.convert IntrOp convertedType sourceVector
    let rewriter := rewriter.create convertedVector
    let result := Value.insert convertedVector result extractOrInsertPosition
    .ok (result, rewriter.create result)

/-- A loop over a range whose body may fail an assertion. -/
def forEach {σ α : Type} (body : σ → α → Except Failure σ) : List α → σ → Except Failure σ
  | [], state => .ok state
  | x :: rest, state =>
    match body state x with
    | .error failure => .error failure
    | .ok state => forEach body rest state

/-- Unrolls a conversion to/from equivalent vector types, to allow using a
conversion intrinsic that only supports 1-D vector types. The source is a
vector (`VectorType sourceType = source.getType()`). -/
def SvboolConversionOpLowering.matchAndRewrite (IntrOp : SvboolIntrOp)
    (convertOp : SvboolConversionOp) (rewriter : ConversionPatternRewriter) :
    Except Failure (LogicalResult × ConversionPatternRewriter) :=
  let source := convertOp.getSource
  match source.getType with
  | .scalar _ => .error (.assertion "cast<Ty>() argument of incompatible type!")
  | .vector sourceType =>
    let resultType := convertOp.getResultType
    let result := Value.constant resultType
    let rewriter := rewriter.create result
    -- We want to iterate over the input vector in steps of the trailing
    -- dimension. So this creates tile shape where all leading dimensions are
    -- 1, and the trailing dimension step is the size of the dimension.
    let tileShape := (List.replicate sourceType.getRank (1 : Int)).set
      (sourceType.getRank - 1) (sourceType.shape.getLastD 0)
    -- Iterate over all scalable mask/predicate slices of the source vector.
    match forEach (SvboolConversionOpLowering.body IntrOp source resultType)
        (StaticTileOffsetRange sourceType.shape tileShape) (result, rewriter) with
    | .error failure => .error failure
    | .ok (result, rewriter) => .ok (.success, rewriter.replaceOp result)

/-- The coordinates of the leading dimensions of sizes `sizes`, in the words of
the specification: every tuple with an index below the size in each dimension,
in lexicographic order. -/
def leadingCoordinates : List Int → List (List Int)
  | [] => [[]]
  | size :: sizes =>
    (List.range size.toNat).flatMap
      (fun k => (leadingCoordinates sizes).map (fun rest => (k : Int) :: rest))

/-- The position of the slice that an intrinsic conversion converts, for a
value that is the result of one. -/
def Value.convertedPosition? : Value → Option (List Int)
  | .convert _ _ (.extract _ position) => some position
  | _ => none

/-- Is the value the result of an intrinsic conversion ? -/
def Value.isIntrinsicConversion : Value → Bool
  | .convert _ _ _ => true
  | _ => false

/-- The type of the slice of a vector of type `sourceType` at a position. -/
def sliceType (sourceType : VectorType) (position : List Int) : VectorType :=
  { sourceType with
    shape := sourceType.shape.drop position.length
    scalableDims := sourceType.scalableDims.drop position.length }

/-- The intrinsic conversion of the slice of the source at a position, to the
type of the slice with the trailing size of the result type. -/
def convertedSlice (IntrOp : SvboolIntrOp) (source : Value) (sourceType resultType : VectorType)
    (position : List Int) : Value :=
  .convert IntrOp ((sliceType sourceType position).setDim 0 (resultType.shape.getLastD 0))
    (.extract source position)

/-- The operations that the unrolling creates for the slices at the coordinates
given, in the words of the specification: for each coordinate in order, the
slice is extracted from the source, converted with the intrinsic, and the
converted slice is inserted at the same coordinate in the result reassembled
so far, which is `result` for the first coordinate. -/
def unrolledSlices (IntrOp : SvboolIntrOp) (source : Value) (sourceType resultType : VectorType) :
    List (List Int) → Value → List Value
  | [], _ => []
  | coordinate :: rest, result =>
    Value.extract source coordinate ::
      convertedSlice IntrOp source sourceType resultType coordinate ::
      Value.insert (convertedSlice IntrOp source sourceType resultType coordinate) result
        coordinate ::
      unrolledSlices IntrOp source sourceType resultType rest
        (Value.insert (convertedSlice IntrOp source sourceType resultType coordinate) result
          coordinate)

/-- The result reassembled from the converted slices at the coordinates given,
in the words of the specification: each converted slice is inserted at its
coordinate in the result of the insertions before it, starting from
`result`. -/
def reassembled (IntrOp : SvboolIntrOp) (source : Value) (sourceType resultType : VectorType) :
    List (List Int) → Value → Value
  | [], result => result
  | coordinate :: rest, result =>
    reassembled IntrOp source sourceType resultType rest
      (Value.insert (convertedSlice IntrOp source sourceType resultType coordinate) result
        coordinate)

/-- The conversion of the documentation of `SvboolConversionOpLowering`:
`%result = arm_sve.convert_to_svbool %source : vector<2x[4]xi1>`. -/
def Sample.convertOp : SvboolConversionOp where
  getSource := .operand "source"
    (.vector { shape := [2, 4], scalableDims := [false, true] })
  getResultType := { shape := [2, 16], scalableDims := [false, true] }

/-! ## The patterns and the conversion target of the legalization -/

/-- The operations that the legalization names: the operations of the ArmSVE
dialect that a pattern lowers, the intrinsic operations of the dialect, and
the operations of other dialects that a pattern matches or creates
(`vector::CreateMaskOp`, `arith::ConstantOp`, `arith::IndexCastOp`,
`vector::ExtractOp`, `vector::InsertOp`, `LLVM::ZeroOp`). -/
inductive OperationName where
  | ConvertFromSvboolOp
  | ConvertToSvboolOp
  | DupQLaneOp
  | PselOp
  | ScalableMaskedAddFOp
  | ScalableMaskedAddIOp
  | ScalableMaskedDivFOp
  | ScalableMaskedMulFOp
  | ScalableMaskedMulIOp
  | ScalableMaskedSDivIOp
  | ScalableMaskedSubFOp
  | ScalableMaskedSubIOp
  | ScalableMaskedUDivIOp
  | SmmlaOp
  | UdotOp
  | UmmlaOp
  | UsmmlaOp
  | ZipX2Op
  | ZipX4Op
  | SdotOp
  | BfmmlaOp
  | ConvertFromSvboolIntrOp
  | ConvertToSvboolIntrOp
  | DupQLaneIntrOp
  | PselIntrOp
  | ScalableMaskedAddFIntrOp
  | ScalableMaskedAddIIntrOp
  | ScalableMaskedDivFIntrOp
  | ScalableMaskedMulFIntrOp
  | ScalableMaskedMulIIntrOp
  | ScalableMaskedSDivIIntrOp
  | ScalableMaskedSubFIntrOp
  | ScalableMaskedSubIIntrOp
  | ScalableMaskedUDivIIntrOp
  | SmmlaIntrOp
  | UdotIntrOp
  | UmmlaIntrOp
  | UsmmlaIntrOp
  | WhileLTIntrOp
  | ZipX2IntrOp
  | ZipX4IntrOp
  | SdotIntrOp
  | CreateMaskOp
  | ConstantOp
  | IndexCastOp
  | ExtractOp
  | InsertOp
  | ZeroOp
  deriving DecidableEq, Repr, Fintype

/-- Is the operation one of the intrinsic operations, the classes whose name
ends in `IntrOp` ? -/
def OperationName.isIntrOp : OperationName → Bool
  | .ConvertFromSvboolIntrOp | .ConvertToSvboolIntrOp | .DupQLaneIntrOp | .PselIntrOp
  | .ScalableMaskedAddFIntrOp | .ScalableMaskedAddIIntrOp | .ScalableMaskedDivFIntrOp
  | .ScalableMaskedMulFIntrOp | .ScalableMaskedMulIIntrOp | .ScalableMaskedSDivIIntrOp
  | .ScalableMaskedSubFIntrOp | .ScalableMaskedSubIIntrOp | .ScalableMaskedUDivIIntrOp
  | .SmmlaIntrOp | .UdotIntrOp | .UmmlaIntrOp | .UsmmlaIntrOp | .WhileLTIntrOp
  | .ZipX2IntrOp | .ZipX4IntrOp | .SdotIntrOp => true
  | _ => false

/-- The class of the intrinsic of a conversion to or from `svbool`. -/
def SvboolIntrOp.getOperationName : SvboolIntrOp → OperationName
  | .ConvertToSvboolIntrOp => .ConvertToSvboolIntrOp
  | .ConvertFromSvboolIntrOp => .ConvertFromSvboolIntrOp

/-- The class of the operation that defines a value, for a value created by a
pattern. -/
def Value.getOperationName : Value → Option OperationName
  | .operand _ _ => none
  | .zero _ => some .ZeroOp
  | .whilelt _ _ _ => some .WhileLTIntrOp
  | .constant _ => some .ConstantOp
  | .extract _ _ => some .ExtractOp
  | .convert intrinsic _ _ => some intrinsic.getOperationName
  | .insert _ _ _ => some .InsertOp

/-- A conversion pattern, through what the legalization decides with it: the
class of the operations that it matches and the classes of the operations that
its `matchAndRewrite` creates. -/
structure Pattern where
  name : String
  root : OperationName
  creates : List OperationName
  deriving DecidableEq, Repr

/-- Modelled from the spec: the template
`OneToOneConvertToLLVMPattern<SourceOp, TargetOp>`, whose source
(mlir/Conversion/LLVMCommon/Pattern.h) is not part of this file: a one-to-one
mapping of the source operation to the target intrinsic operation. -/
def OneToOneConvertToLLVMPattern (name : String) (SourceOp TargetOp : OperationName) :
    Pattern :=
  { name := name, root := SourceOp, creates := [TargetOp] }

/-- The pattern `SvboolConversionOpLowering<Op, IntrOp>`: its `matchAndRewrite`
creates an `arith.constant` and, for each slice, a `vector.extract`, the
intrinsic and a `vector.insert`. -/
def SvboolConversionOpLowering (name : String) (Op : OperationName) (IntrOp : SvboolIntrOp) :
    Pattern :=
  { name := name, root := Op,
    creates := [.ConstantOp, .ExtractOp, IntrOp.getOperationName, .InsertOp] }

/-- The alias `SdotOpLowering` of the source. -/
def SdotOpLowering : Pattern :=
  OneToOneConvertToLLVMPattern "SdotOpLowering" .SdotOp .SdotIntrOp

/-- The alias `SmmlaOpLowering` of the source. -/
def SmmlaOpLowering : Pattern :=
  OneToOneConvertToLLVMPattern "SmmlaOpLowering" .SmmlaOp .SmmlaIntrOp

/-- The alias `UdotOpLowering` of the source. -/
def UdotOpLowering : Pattern :=
  OneToOneConvertToLLVMPattern "UdotOpLowering" .UdotOp .UdotIntrOp

/-- The alias `UmmlaOpLowering` of the source. -/
def UmmlaOpLowering : Pattern :=
  OneToOneConvertToLLVMPattern "UmmlaOpLowering" .UmmlaOp .UmmlaIntrOp

/-- The alias `UsmmlaOpLowering` of the source. -/
def UsmmlaOpLowering : Pattern :=
  OneToOneConvertToLLVMPattern "UsmmlaOpLowering" .UsmmlaOp .UsmmlaIntrOp

/-- The alias `DupQLaneLowering` of the source. -/
def DupQLaneLowering : Pattern :=
  OneToOneConvertToLLVMPattern "DupQLaneLowering" .DupQLaneOp .DupQLaneIntrOp

/-- The alias `ScalableMaskedAddIOpLowering` of the source. -/
def ScalableMaskedAddIOpLowering : Pattern :=
  OneToOneConvertToLLVMPattern "ScalableMaskedAddIOpLowering" .ScalableMaskedAddIOp
    .ScalableMaskedAddIIntrOp

/-- The alias `ScalableMaskedAddFOpLowering` of the source. -/
def ScalableMaskedAddFOpLowering : Pattern :=
  OneToOneConvertToLLVMPattern "ScalableMaskedAddFOpLowering" .ScalableMaskedAddFOp
    .ScalableMaskedAddFIntrOp

/-- The alias `ScalableMaskedSubIOpLowering` of the source. -/
def ScalableMaskedSubIOpLowering : Pattern :=
  OneToOneConvertToLLVMPattern "ScalableMaskedSubIOpLowering" .ScalableMaskedSubIOp
    .ScalableMaskedSubIIntrOp

/-- The alias `ScalableMaskedSubFOpLowering` of the source. -/
def ScalableMaskedSubFOpLowering : Pattern :=
  OneToOneConvertToLLVMPattern "ScalableMaskedSubFOpLowering" .ScalableMaskedSubFOp
    .ScalableMaskedSubFIntrOp

/-- The alias `ScalableMaskedMulIOpLowering` of the source. -/
def ScalableMaskedMulIOpLowering : Pattern :=
  OneToOneConvertToLLVMPattern "ScalableMaskedMulIOpLowering" .ScalableMaskedMulIOp
    .ScalableMaskedMulIIntrOp

/-- The alias `ScalableMaskedMulFOpLowering` of the source. -/
def ScalableMaskedMulFOpLowering : Pattern :=
  OneToOneConvertToLLVMPattern "ScalableMaskedMulFOpLowering" .ScalableMaskedMulFOp
    .ScalableMaskedMulFIntrOp

/-- The alias `ScalableMaskedSDivIOpLowering` of the source. -/
def ScalableMaskedSDivIOpLowering : Pattern :=
  OneToOneConvertToLLVMPattern "ScalableMaskedSDivIOpLowering" .ScalableMaskedSDivIOp
    .ScalableMaskedSDivIIntrOp

/-- The alias `ScalableMaskedUDivIOpLowering` of the source. -/
def ScalableMaskedUDivIOpLowering : Pattern :=
  OneToOneConvertToLLVMPattern "ScalableMaskedUDivIOpLowering" .ScalableMaskedUDivIOp
    .ScalableMaskedUDivIIntrOp

/-- The alias `ScalableMaskedDivFOpLowering` of the source. -/
def ScalableMaskedDivFOpLowering : Pattern :=
  OneToOneConvertToLLVMPattern "ScalableMaskedDivFOpLowering" .ScalableMaskedDivFOp
    .ScalableMaskedDivFIntrOp

/-- The alias `ConvertToSvboolOpLowering` of the source. -/
def ConvertToSvboolOpLowering : Pattern :=
  SvboolConversionOpLowering "ConvertToSvboolOpLowering" .ConvertToSvboolOp
    .ConvertToSvboolIntrOp

/-- The alias `ConvertFromSvboolOpLowering` of the source. -/
def ConvertFromSvboolOpLowering : Pattern :=
  SvboolConversionOpLowering "ConvertFromSvboolOpLowering" .ConvertFromSvboolOp
    .ConvertFromSvboolIntrOp

/-- The alias `ZipX2OpLowering` of the source. -/
def ZipX2OpLowering : Pattern :=
  OneToOneConvertToLLVMPattern "ZipX2OpLowering" .ZipX2Op .ZipX2IntrOp

/-- The alias `ZipX4OpLowering` of the source. -/
def ZipX4OpLowering : Pattern :=
  OneToOneConvertToLLVMPattern "ZipX4OpLowering" .ZipX4Op .ZipX4IntrOp

/-- Lower `arm_sve.psel` to LLVM intrinsics. This is almost a 1-to-1 conversion
but first input (P1) and result predicates need conversion to/from svbool: the
pattern creates a `ConvertToSvboolIntrOp`, an `arith::IndexCastOp`, a
`PselIntrOp` and a `ConvertFromSvboolIntrOp`. -/
def PselOpLowering : Pattern :=
  { name := "PselOpLowering", root := .PselOp,
    creates := [.ConvertToSvboolIntrOp, .IndexCastOp, .PselIntrOp,
      .ConvertFromSvboolIntrOp] }

/-- The pattern `CreateMaskOpLowering`, on `vector::CreateMaskOp`: its
`matchAndRewrite` creates an `LLVM::ZeroOp` and a `WhileLTIntrOp`. -/
def CreateMaskOpLowering : Pattern :=
  { name := "CreateMaskOpLowering", root := .CreateMaskOp,
    creates := [.ZeroOp, .WhileLTIntrOp] }

/-- A pattern of a `RewritePatternSet`, with the benefit given when it was
added, if one was given. -/
structure RegisteredPattern where
  pattern : Pattern
  benefit : Option Nat
  deriving DecidableEq, Repr

/-- A `RewritePatternSet`: the patterns added, in order. -/
abbrev RewritePatternSet := List RegisteredPattern

/-- The member `RewritePatternSet::add<Ts...>(converter)` and, with a benefit,
`add<T>(converter, benefit)`. -/
def RewritePatternSet.add (patterns : RewritePatternSet) (added : List Pattern)
    (benefit : Option Nat) : RewritePatternSet :=
  patterns ++ added.map (fun pattern => { pattern := pattern, benefit := benefit })

/-- Populate the given list with patterns that convert from ArmSVE to LLVM. -/
def populateArmSVELegalizeForLLVMExportPatterns (patterns : RewritePatternSet) :
    RewritePatternSet :=
  -- Populate conversion patterns
  let patterns := patterns.add
    [ConvertFromSvboolOpLowering,
     ConvertToSvboolOpLowering,
     DupQLaneLowering,
     PselOpLowering,
     ScalableMaskedAddFOpLowering,
     ScalableMaskedAddIOpLowering,
     ScalableMaskedDivFOpLowering,
     ScalableMaskedMulFOpLowering,
     ScalableMaskedMulIOpLowering,
     ScalableMaskedSDivIOpLowering,
     ScalableMaskedSubFOpLowering,
     ScalableMaskedSubIOpLowering,
     ScalableMaskedUDivIOpLowering,
     SmmlaOpLowering,
     UdotOpLowering,
     UmmlaOpLowering,
     UsmmlaOpLowering,
     ZipX2OpLowering,
     ZipX4OpLowering,
     SdotOpLowering] none
  -- Add vector.create_mask conversion with a high benefit as it produces much
  -- nicer code than the generic lowering.
  patterns.add [CreateMaskOpLowering] (some 4096)

/-- The legality that a conversion target gives to an operation. -/
inductive LegalizationAction where
  | Legal
  | Illegal
  deriving DecidableEq, Repr

/-- An `LLVMConversionTarget`, through the legality actions set on operations,
in the order of the calls. -/
structure LLVMConversionTarget where
  actions : List (OperationName × LegalizationAction) := []
  deriving DecidableEq, Repr

namespace LLVMConversionTarget

/-- The member `ConversionTarget::addLegalOp<OpTs...>()`. -/
def addLegalOp (target : LLVMConversionTarget) (ops : List OperationName) :
    LLVMConversionTarget :=
  { actions := target.actions ++ ops.map (fun op => (op, .Legal)) }

/-- The member `ConversionTarget::addIllegalOp<OpTs...>()`. -/
def addIllegalOp (target : LLVMConversionTarget) (ops : List OperationName) :
    LLVMConversionTarget :=
  { actions := target.actions ++ ops.map (fun op => (op, .Illegal)) }

/-- The member `ConversionTarget::getOpAction`: the action set last on the
operation, if one was set. -/
def getOpAction (target : LLVMConversionTarget) (op : OperationName) :
    Option LegalizationAction :=
  (target.actions.reverse.find? (fun entry => decide (entry.1 = op))).map (fun entry => entry.2)

end LLVMConversionTarget

/-- The function `configureArmSVELegalizeForExportTarget`. -/
def configureArmSVELegalizeForExportTarget (target : LLVMConversionTarget) :
    LLVMConversionTarget :=
  let target := target.addLegalOp
    [.BfmmlaOp,
     .ConvertFromSvboolIntrOp,
     .ConvertToSvboolIntrOp,
     .DupQLaneIntrOp,
     .PselIntrOp,
     .ScalableMaskedAddFIntrOp,
     .ScalableMaskedAddIIntrOp,
     .ScalableMaskedDivFIntrOp,
     .ScalableMaskedMulFIntrOp,
     .ScalableMaskedMulIIntrOp,
     .ScalableMaskedSDivIIntrOp,
     .ScalableMaskedSubFIntrOp,
     .ScalableMaskedSubIIntrOp,
     .ScalableMaskedUDivIIntrOp,
     .SmmlaIntrOp,
     .UdotIntrOp,
     .UmmlaIntrOp,
     .UsmmlaIntrOp,
     .WhileLTIntrOp,
     .ZipX2IntrOp,
     .ZipX4IntrOp,
     .SdotIntrOp]
  target.addIllegalOp
    [.ConvertFromSvboolOp,
     .ConvertToSvboolOp,
     .DupQLaneOp,
     .PselOp,
     .ScalableMaskedAddFOp,
     .ScalableMaskedAddIOp,
     .ScalableMaskedDivFOp,
     .ScalableMaskedMulFOp,
     .ScalableMaskedMulIOp,
     .ScalableMaskedSDivIOp,
     .ScalableMaskedSubFOp,
     .ScalableMaskedSubIOp,
     .ScalableMaskedUDivIOp,
     .SmmlaOp,
     .UdotOp,
     .UmmlaOp,
     .UsmmlaOp,
     .ZipX2Op,
     .ZipX4Op,
     .SdotOp]

end ArmSVE

namespace Flang

/-! ## MLIR types and locations -/

mutual
/-- The `mlir::Type` values that this file builds or inspects. -/
inductive MlirType where
  /-- The null type `mlir::Type{}`: converts to `false` in a condition. -/
  | null
  /-- Any type without structure of interest here (`i32`, `f32`, a function
  type, a record type), identified by its printed form. -/
  | base (name : String)
  /-- The type `fir.char<kind, len>` (`fir::CharacterType`). -/
  | char (kind : Nat) (len : Option Nat)
  /-- The type `fir.boxchar<kind>` (`fir::BoxCharType`). -/
  | boxchar (kind : Nat)
  /-- The type `fir.array<extents x ele>` (`fir::SequenceType`). -/
  | seq (extents : List (Option Nat)) (ele : MlirType)
  /-- The type `fir.ref<ele>` (`fir::ReferenceType`). -/
  | ref (ele : MlirType)
  /-- The type `fir.llvm_ptr<ele>` (`fir::LLVMPointerType`). -/
  | llvmPtr (ele : MlirType)
  /-- The type `fir.box<ele>` (`fir::BoxType`). -/
  | box (ele : MlirType)
  /-- The type `fir.class<ele>` (`fir::ClassType`). -/
  | cls (ele : MlirType)
  /-- The type `tuple<...>` (`mlir::TupleType`). -/
  | tuple (types : TypeList)
  deriving DecidableEq, Repr
/-- The field types of a tuple type, in field order. -/
inductive TypeList where
  | nil
  | cons (head : MlirType) (tail : TypeList)
  deriving DecidableEq, Repr
end

/-- The field list holding the types of `tys`, in the same order. -/
def TypeList.ofList : List MlirType → TypeList
  | [] => .nil
  | ty :: tys => .cons ty (TypeList.ofList tys)

/-- The field types as a list. -/
def TypeList.toList : TypeList → List MlirType
  | .nil => []
  | .cons ty tys => ty :: tys.toList

/-- The call `mlir::TupleType::get(ctxt, tupleTys)`. -/
def MlirType.tupleOf (tupleTys : List MlirType) : MlirType :=
  .tuple (TypeList.ofList tupleTys)

/-- The conversion of an `mlir::Type` to `bool`: true unless the type is null. -/
def MlirType.isSet : MlirType → Bool
  | .null => false
  | _ => true

/-- The test `mlir::isa<fir::SequenceType>(type)`. -/
def MlirType.isSequenceType : MlirType → Bool
  | .seq _ _ => true
  | _ => false

/-- The test `mlir::isa<fir::ClassType>(type)`. -/
def MlirType.isClassType : MlirType → Bool
  | .cls _ => true
  | _ => false

/-- An `mlir::Location`, identified by the source name it was generated for. -/
structure Location where
  source : String
  deriving DecidableEq, Repr

/-- The ways in which the lowering code stops instead of returning. -/
inductive Failure where
  /-- The macro call `TODO(loc, msg)`: the fatal "not yet implemented" exit. -/
  | todo (loc : Location) (msg : String)
  /-- A failed `assert(cond && msg)`. -/
  | assertion (msg : String)
  /-- The call `fir::emitFatalError(loc, msg)`. -/
  | fatalError (loc : Location) (msg : String)
  deriving DecidableEq, Repr

/-! ## Symbols, as seen through the queries of this file -/

/-- A `DerivedTypeSpec`, with the answer of `CountLenParameters`. -/
structure DerivedTypeSpec where
  name : String
  lenParameters : Nat
  deriving DecidableEq, Repr

/-- A `DeclTypeSpec`: the declared type of a symbol. -/
inductive DeclTypeSpec where
  | Numeric
  | Logical
  | Character
  | Derived (derived : DerivedTypeSpec)
  deriving DecidableEq, Repr

/-- The member `DeclTypeSpec::AsDerived`: the derived type, if the type is one. -/
def DeclTypeSpec.AsDerived : DeclTypeSpec → Option DerivedTypeSpec
  | .Derived derived => some derived
  | _ => none

/-- The function `Fortran::semantics::CountLenParameters`. -/
def CountLenParameters (derived : DerivedTypeSpec) : Nat :=
  derived.lenParameters

/-- The flags of `Symbol::Flag` that this file tests. -/
inductive Flag where
  | CrayPointee
  | OmpThreadprivate
  deriving DecidableEq, Repr

/-- What the semantic analysis knows about one symbol table entry: the answers
to the queries that the host association lowering makes on it. -/
structure SymbolDetails where
  /-- The answer of `Symbol::name`. -/
  name : String
  /-- The answer of `Symbol::GetType` (absent for a subroutine, for example). -/
  type : Option DeclTypeSpec := none
  /-- The answer of `Symbol::Rank`. -/
  rank : Nat := 0
  /-- The answer of `Fortran::evaluate::IsAssumedRank`. -/
  assumedRank : Bool := false
  /-- The answer of `Fortran::semantics::IsProcedure`. -/
  procedure : Bool := false
  /-- The attribute `ALLOCATABLE`. -/
  allocatable : Bool := false
  /-- The attribute `POINTER`. -/
  pointer : Bool := false
  /-- The answer of `Fortran::semantics::IsOptional`. -/
  optional : Bool := false
  /-- The answer of `Fortran::semantics::IsPolymorphic`. -/
  polymorphic : Bool := false
  /-- The flags set on the symbol. -/
  flags : List Flag := []
  /-- The answer of `Fortran::lower::symbolIsGlobal`. -/
  global : Bool := false
  /-- The answer of `Fortran::evaluate::IsSimplyContiguous`. -/
  simplyContiguous : Bool := false
  /-- The answer of `Fortran::semantics::IsAssumedLengthCharacter`. -/
  assumedLengthCharacter : Bool := false
  /-- Whether every declared lower bound is the constant one. -/
  lboundIsAllOnes : Bool := false
  /-- Whether all the declared bounds are constants. -/
  staticArray : Bool := false
  /-- The declared lower bounds, when they are constants. -/
  staticLBound : List Int := []
  /-- The declared character length, when it is a constant. -/
  charLenConst : Option Int := none
  /-- Whether the character length is declared by an expression. -/
  charLenExpr : Bool := false
  deriving DecidableEq, Repr

/-- A symbol table entry. A symbol either stands for itself or is associated
(by use or host association) with a symbol of another scope; the addresses
`const Symbol *` held by the sets of this file are the terms of this type. -/
inductive Symbol where
  | entity (details : SymbolDetails)
  | associated (details : SymbolDetails) (target : Symbol)
  deriving DecidableEq, Repr

namespace Symbol

/-- The details of the symbol itself (not of the symbol it is associated with). -/
def details : Symbol → SymbolDetails
  | .entity details => details
  | .associated details _ => details

/-- The member `Symbol::GetUltimate`: follows the associations to their end. -/
def GetUltimate : Symbol → Symbol
  | .entity details => .entity details
  | .associated _ target => target.GetUltimate

/-- The member `Symbol::name`. -/
def name (sym : Symbol) : String := sym.details.name

/-- The member `Symbol::GetType`. -/
def GetType (sym : Symbol) : Option DeclTypeSpec := sym.details.type

/-- The member `Symbol::Rank`. -/
def Rank (sym : Symbol) : Nat := sym.details.rank

/-- The member `Symbol::test`, on the flags of the symbol itself. -/
def test (sym : Symbol) (flag : Flag) : Bool := decide (flag ∈ sym.details.flags)

end Symbol

/-- The query `Fortran::semantics::IsProcedure`. -/
def IsProcedure (sym : Symbol) : Bool := sym.details.procedure

/-- The query `Fortran::semantics::IsPointer`. -/
def IsPointer (sym : Symbol) : Bool := sym.details.pointer

/-- The query `Fortran::semantics::IsAllocatable`. -/
def IsAllocatable (sym : Symbol) : Bool := sym.details.allocatable

/-- The query `Fortran::semantics::IsAllocatableOrPointer`. -/
def IsAllocatableOrPointer (sym : Symbol) : Bool :=
  IsPointer sym || IsAllocatable sym

/-- The query `Fortran::semantics::IsPolymorphic`. -/
def IsPolymorphic (sym : Symbol) : Bool := sym.details.polymorphic

/-- The query `Fortran::semantics::IsOptional`. -/
def IsOptional (sym : Symbol) : Bool := sym.details.optional

/-- The query `Fortran::evaluate::IsAssumedRank`. -/
def IsAssumedRank (sym : Symbol) : Bool := sym.details.assumedRank

/-- The query `Fortran::lower::symbolIsGlobal`. -/
def symbolIsGlobal (sym : Symbol) : Bool := sym.details.global

/-- The query `Fortran::evaluate::IsSimplyContiguous`, on the symbol as an
expression. -/
def IsSimplyContiguous (sym : Symbol) : Bool := sym.details.simplyContiguous

/-- The query `Fortran::semantics::IsAssumedLengthCharacter`. -/
def IsAssumedLengthCharacter (sym : Symbol) : Bool := sym.details.assumedLengthCharacter

/-- Is `sym` a derived type entity with length parameters ? -/
def isDerivedWithLenParameters (sym : Symbol) : Bool :=
  match sym.GetType with
  | some declTy =>
    match declTy.AsDerived with
    | some derived => CountLenParameters derived != 0
    | none => false
  | none => false

/-! ## Shape analysis -/

/-- The result of `Fortran::lower::BoxAnalyzer`, through the three queries made
by the dispatcher and the queries made by the capture classes. The default
value is the freshly constructed analyzer, on which no analysis has run: it
answers no to all three and knows no bound and no length. -/
structure BoxAnalyzer where
  isTrivial : Bool := false
  isChar : Bool := false
  isArray : Bool := false
  lboundIsAllOnes : Bool := false
  isStaticArray : Bool := false
  staticLBound : List Int := []
  getCharLenConst : Option Int := none
  getCharLenExpr : Bool := false
  deriving DecidableEq, Repr

/-- Modelled from the spec: the member `BoxAnalyzer::analyze`, whose source
(flang/Lower/BoxAnalyzer.h) is not part of this file. The analysis reports an
array for rank > 0 and for assumed rank, a character for an entity of character
type, and a trivial scalar for what is neither; the bounds and the character
length it knows are the declared ones. -/
def BoxAnalyzer.analyze (_ba : BoxAnalyzer) (sym : Symbol) : BoxAnalyzer :=
  let isArray := decide (sym.Rank > 0) || IsAssumedRank sym
  let isChar := decide (sym.GetType = some DeclTypeSpec.Character)
  { isTrivial := !isArray && !isChar, isChar := isChar, isArray := isArray,
    lboundIsAllOnes := sym.details.lboundIsAllOnes,
    isStaticArray := sym.details.staticArray,
    staticLBound := sym.details.staticLBound,
    getCharLenConst := sym.details.charLenConst,
    getCharLenExpr := sym.details.charLenExpr }

/-! ## Values of the generated code -/

/-- The type `i1`. -/
def MlirType.i1 : MlirType := .base "i1"

/-- The type `i32`. -/
def MlirType.i32 : MlirType := .base "i32"

/-- The type `index`. -/
def MlirType.index : MlirType := .base "index"

/-- The function `fir::dyn_cast_ptrEleTy`: the pointee of a reference like
type, the null type otherwise. -/
def dyn_cast_ptrEleTy : MlirType → MlirType
  | .ref ele => ele
  | .llvmPtr ele => ele
  | _ => .null

/-- The function `fir::isa_ref_type`. -/
def isa_ref_type : MlirType → Bool
  | .ref _ => true
  | .llvmPtr _ => true
  | _ => false

/-- An `mlir::Value`: a block argument, a value defined by code generated
elsewhere, or the result of an operation created by this file, given by the
operation and its operands. -/
inductive Value where
  /-- The argument number `index` of the entry block of the function. -/
  | blockArgument (index : Nat) (type : MlirType)
  /-- A value defined by code generated elsewhere, such as the address of a
  host variable. -/
  | external (name : String) (type : MlirType)
  /-- The result of `fir.alloca`. -/
  | alloca (inType : MlirType)
  /-- The result of `FirOpBuilder::createIntegerConstant`. -/
  | constant (type : MlirType) (value : Int)
  /-- The result of `fir.coordinate_of`. -/
  | coordinate_of (type : MlirType) (ref coor : Value)
  /-- The result of `fir.convert`. -/
  | convert (type : MlirType) (value : Value)
  /-- The result of `fir.load`. -/
  | load (memref : Value)
  /-- The result of `fir.is_present`. -/
  | is_present (val : Value)
  /-- The result of `fir.box_addr`. -/
  | box_addr (type : MlirType) (box : Value)
  /-- The result of `FirOpBuilder::genIsNotNullAddr`. -/
  | isNotNullAddr (addr : Value)
  /-- The result of `fir.absent`. -/
  | absent (type : MlirType)
  /-- The result of `arith.select`. -/
  | select (condition trueValue falseValue : Value)
  /-- The result number `result` of `fir.box_dims`: lower bound, extent and
  stride of the dimension `dim` of `box`. -/
  | box_dims (box dim : Value) (result : Nat)
  /-- The result of `CharacterExprHelper::createEmbox`. -/
  | emboxchar (type : MlirType) (addr len : Value)
  /-- The result number `result` of `CharacterExprHelper::createUnboxChar`:
  address and length. -/
  | unboxchar (boxchar : Value) (result : Nat)
  /-- The result of `fir::factory::createUnallocatedBox` without non deferred
  parameters. -/
  | unallocatedBox (type : MlirType)
  /-- The result of `Fortran::lower::getAssumedCharAllocatableOrPointerLen`. -/
  | assumedCharLen (sym : Symbol) (box : Value)
  /-- The character length read from a box by `fir::factory::readBoxValue`. -/
  | readCharLen (box : Value)
  deriving DecidableEq, Repr

/-- The type of the result number `result` of the unpacking of a value of type
`boxcharTy`: the address of a character of the same kind, and the length. -/
def unboxcharType (boxcharTy : MlirType) (result : Nat) : MlirType :=
  match boxcharTy, result with
  | .boxchar kind, 0 => .ref (.char kind none)
  | _, _ => .index

/-- The member `Value::getType`. -/
def Value.getType : Value → MlirType
  | .blockArgument _ type => type
  | .external _ type => type
  | .alloca inType => .ref inType
  | .constant type _ => type
  | .coordinate_of type _ _ => type
  | .convert type _ => type
  | .load memref => dyn_cast_ptrEleTy memref.getType
  | .is_present _ => .i1
  | .box_addr type _ => type
  | .isNotNullAddr _ => .i1
  | .absent type => type
  | .select _ trueValue _ => trueValue.getType
  | .box_dims _ _ _ => .index
  | .emboxchar type _ _ => type
  | .unboxchar boxchar result => unboxcharType boxchar.getType result
  | .unallocatedBox type => type
  | .assumedCharLen _ _ => .index
  | .readCharLen _ => .index

/-- A `fir::ExtendedValue`: a value with the properties needed to use it as a
Fortran entity. -/
inductive ExtendedValue where
  | UnboxedValue (base : Value)
  | CharBoxValue (addr len : Value)
  | ArrayBoxValue (addr : Value) (extents lbounds : List Value)
  | CharArrayBoxValue (addr len : Value) (extents lbounds : List Value)
  | ProcBoxValue (addr host : Value)
  | BoxValue (box : Value) (lbounds explicitParams : List Value)
  | MutableBoxValue (addr : Value) (lenParams : List Value)
  | PolymorphicValue (addr sourceBox : Value)
  deriving DecidableEq, Repr

/-- The function `fir::getBase`. -/
def getBase : ExtendedValue → Value
  | .UnboxedValue base => base
  | .CharBoxValue addr _ => addr
  | .ArrayBoxValue addr _ _ => addr
  | .CharArrayBoxValue addr _ _ _ => addr
  | .ProcBoxValue addr _ => addr
  | .BoxValue box _ _ => box
  | .MutableBoxValue addr _ => addr
  | .PolymorphicValue addr _ => addr

/-- The member `ExtendedValue::getCharBox`: the address and the length, when
the value is a `CharBoxValue`. -/
def ExtendedValue.getCharBox : ExtendedValue → Option (Value × Value)
  | .CharBoxValue addr len => some (addr, len)
  | _ => none

/-- The test `getBoxOf<fir::BoxValue>()`. -/
def ExtendedValue.isBoxValue : ExtendedValue → Bool
  | .BoxValue _ _ _ => true
  | _ => false

/-- The test `getBoxOf<fir::MutableBoxValue>()`. -/
def ExtendedValue.isMutableBoxValue : ExtendedValue → Bool
  | .MutableBoxValue _ _ => true
  | _ => false

/-- A `Fortran::lower::SymMap`: the symbols bound so far with their values,
in the order of the bindings. -/
abbrev SymMap := List (Symbol × ExtendedValue)

/-- The member `SymMap::addSymbol`. -/
def SymMap.addSymbol (symMap : SymMap) (sym : Symbol) (val : ExtendedValue) : SymMap :=
  symMap ++ [(sym, val)]

/-! ## The converter -/

/-- The services of the lowering bridge that do not change while a procedure
is lowered: the members `genType`, `genLocation`, `getCurrentLocation` and
`getSymbolExtendedValue` of `Fortran::lower::AbstractConverter`, its lowering
option `getLowerToHighLevelFIR`, and the helpers
`Fortran::lower::getDummyProcedureType` and
`Fortran::lower::getCrayPointeeBoxType`. -/
structure AbstractConverter where
  genType : Symbol → MlirType
  genLocation : String → Location
  getDummyProcedureType : Symbol → MlirType
  getCrayPointeeBoxType : MlirType → MlirType
  getLowerToHighLevelFIR : Bool
  getCurrentLocation : Location
  getSymbolExtendedValue : Symbol → SymMap → ExtendedValue

/-! ## The capture classes and their slot types -/

/-- The classes `CapturedXXX` defining how one kind of variable is captured. -/
inductive SymbolCategory where
  | CapturedSimpleScalars
  | CapturedProcedure
  | CapturedCharacterScalars
  | CapturedPolymorphicScalar
  | CapturedAllocatableAndPointer
  | CapturedArrays
  deriving DecidableEq, Repr, Fintype

/-- Simple scalars are captured as `!fir.ref<T>`. -/
def CapturedSimpleScalars.getType (converter : AbstractConverter) (sym : Symbol) :
    MlirType :=
  .ref (converter.genType sym)

/-- Dummy procedures are captured by their function type, procedure pointers
by a reference to it. -/
def CapturedProcedure.getType (converter : AbstractConverter) (sym : Symbol) :
    MlirType :=
  let funTy := converter.getDummyProcedureType sym
  if IsPointer sym then .ref funTy else funTy

/-- Character scalars are passed as `!fir.boxchar<kind>` in the tuple. The
`mlir::cast<fir::CharacterType>` asserts that the generated type is a
character type. -/
def CapturedCharacterScalars.getType (converter : AbstractConverter) (sym : Symbol) :
    Except Failure MlirType :=
  match converter.genType sym with
  | .char kind _ => .ok (.boxchar kind)
  | _ => .error (.assertion "cast<Ty>() argument of incompatible type!")

/-- Polymorphic scalars are always boxed as a `fir.class` box. -/
def CapturedPolymorphicScalar.getType (converter : AbstractConverter) (sym : Symbol) :
    MlirType :=
  converter.genType sym

/-- Allocatables and pointers are captured by the address of their box. -/
def CapturedAllocatableAndPointer.getType (converter : AbstractConverter)
    (sym : Symbol) : MlirType :=
  let baseType := converter.genType sym
  if sym.GetUltimate.test Flag.CrayPointee then
    .ref (converter.getCrayPointeeBoxType baseType)
  else
    .ref baseType

/-- Arrays are captured via a `fir.box<fir.array<T>>` descriptor, polymorphic
arrays via their `fir.class` type. -/
def CapturedArrays.getType (converter : AbstractConverter) (sym : Symbol) :
    Except Failure MlirType :=
  let type := converter.genType sym
  let isPolymorphic := IsPolymorphic sym
  if !(type.isSequenceType || (isPolymorphic && type.isClassType)) then
    .error (.assertion "must be a sequence type")
  else if isPolymorphic then
    .ok type
  else
    .ok (.box type)

/-- The static member `SymbolCategory::getType` of the class `SymbolCategory`. -/
def SymbolCategory.getType (category : SymbolCategory) (converter : AbstractConverter)
    (sym : Symbol) : Except Failure MlirType :=
  match category with
  | .CapturedSimpleScalars => .ok (CapturedSimpleScalars.getType converter sym)
  | .CapturedProcedure => .ok (CapturedProcedure.getType converter sym)
  | .CapturedCharacterScalars => CapturedCharacterScalars.getType converter sym
  | .CapturedPolymorphicScalar => .ok (CapturedPolymorphicScalar.getType converter sym)
  | .CapturedAllocatableAndPointer =>
    .ok (CapturedAllocatableAndPointer.getType converter sym)
  | .CapturedArrays => CapturedArrays.getType converter sym

/-! ## Visitors and the dispatcher -/

/-- Base class that must be inherited with CRTP by classes defining how host
association is implemented for a type of symbol. It simply dispatches visit()
calls to the implementations according to the argument type. An instance for
`T` makes `T` a visitor type of `walkCaptureCategories`: it gives the result
type `T::Result` and, for each class `SymbolCategory`, the overload of
`CapturedSymbols<SymbolCategory>::visit` that takes a `T`. -/
class CapturedSymbols (T : Type) where
  /-- The member type `T::Result`. -/
  Result : Type
  /-- The overload `CapturedSymbols<SymbolCategory>::visit(const T &, ...)`. -/
  visit : SymbolCategory → T → AbstractConverter → Symbol → BoxAnalyzer →
    Except Failure Result

/-- Struct to be used as argument in walkCaptureCategories when building the
tuple element type for a host associated variable. -/
structure GetTypeInTuple where
  deriving DecidableEq, Repr

/-- The overload of `visit` for `GetTypeInTuple` returns
`SymbolCategory::getType(converter, sym)`; walkCaptureCategories must return a
type. -/
instance : CapturedSymbols GetTypeInTuple where
  Result := MlirType
  visit SymbolCategory _ converter sym _ := SymbolCategory.getType converter sym

/-- A visitor that carries no argument and whose `visit` reports which class
received the call and with which shape analysis. It makes the dispatch
decision of `walkCaptureCategories` a value. -/
structure DispatchProbe where
  deriving DecidableEq, Repr

instance : CapturedSymbols DispatchProbe where
  Result := SymbolCategory × BoxAnalyzer
  visit SymbolCategory _ _ _ ba := .ok (SymbolCategory, ba)

/-- Dispatch `visitor` to the CapturedSymbols which is handling how host
association is implemented for this kind of symbols. This ensures the same
dispatch decision is taken when building the tuple type, when creating the
tuple, and when instantiating host associated variables from it. -/
def walkCaptureCategories {T : Type} [CapturedSymbols T] (visitor : T)
    (converter : AbstractConverter) (sym : Symbol) : Except Failure (CapturedSymbols.Result T) :=
  if isDerivedWithLenParameters sym then
    -- Should be boxed.
    .error (.todo (converter.genLocation sym.name)
      "host associated derived type with length parameters")
  else
    let ba : BoxAnalyzer := {}
    -- Do not analyze procedures, they may be subroutines with no types that
    -- would crash the analysis.
    if IsProcedure sym then
      CapturedSymbols.visit .CapturedProcedure visitor converter sym ba
    else
      let ba := ba.analyze sym
      if IsAllocatableOrPointer sym || sym.GetUltimate.test Flag.CrayPointee then
        CapturedSymbols.visit .CapturedAllocatableAndPointer visitor converter sym ba
      else if ba.isArray then -- include assumed-ranks.
        CapturedSymbols.visit .CapturedArrays visitor converter sym ba
      else if IsPolymorphic sym then
        CapturedSymbols.visit .CapturedPolymorphicScalar visitor converter sym ba
      else if ba.isChar then
        CapturedSymbols.visit .CapturedCharacterScalars visitor converter sym ba
      else if !ba.isTrivial then
        .error (.assertion "must be trivial scalar")
      else
        CapturedSymbols.visit .CapturedSimpleScalars visitor converter sym ba

/-! ## Operations and the builder -/

/-- A `Fortran::lower::pft::Variable` of a scope, through the queries
`isAggregateStore`, `isGlobal`, `hasSymbol` and `getSymbol`. -/
structure Variable where
  isAggregateStore : Bool := false
  isGlobal : Bool := false
  symbol : Option Symbol := none
  deriving DecidableEq, Repr

/-- What this file adds to the code being generated: the operations it
creates, and the calls it makes to code generators defined elsewhere. -/
inductive Operation where
  /-- The operation, or the call of a builder helper, that produces `result`
  (for an operation with several results, the first of them). -/
  | define (result : Value)
  /-- The operation `fir.store value to memref`. -/
  | store (value memref : Value)
  /-- The operation `fir.if` with its two regions. -/
  | fir_if (condition : Value) (thenRegion elseRegion : List Operation)
  /-- The call `fir::factory::associateMutableBox(builder, loc, box, source, lbounds)`. -/
  | associateMutableBox (box source : ExtendedValue) (lbounds : List Value)
  /-- The call `fir::factory::disassociateMutableBox(builder, loc, box)`. -/
  | disassociateMutableBox (box : ExtendedValue)
  /-- The call `fir::factory::readBoxValue(builder, loc, box)`. -/
  | readBoxValue (box : ExtendedValue)
  /-- The call `Fortran::lower::genDeclareSymbol` with the flag `host_assoc`. -/
  | genDeclareSymbol (sym : Symbol) (val : ExtendedValue)
  /-- The call `Fortran::lower::instantiateVariable`. -/
  | instantiateVariable (var : Variable)
  /-- The call `Fortran::lower::genThreadprivateOp`. -/
  | genThreadprivateOp (var : Variable)

/-- The function being generated, through its input types and the arguments of
its entry block. -/
structure FuncOp where
  inputs : List MlirType := []
  arguments : List Value := []

/-- A `fir::FirOpBuilder`: the operations created so far at the insertion
point, in order, and the function that is being built. -/
structure FirOpBuilder where
  ops : List Operation := []
  getFunction : FuncOp := {}

namespace FirOpBuilder

/-- Adds an operation at the insertion point. -/
def create (builder : FirOpBuilder) (op : Operation) : FirOpBuilder :=
  { builder with ops := builder.ops ++ [op] }

/-- The member `FirOpBuilder::createIntegerConstant`. -/
def createIntegerConstant (builder : FirOpBuilder) (type : MlirType) (value : Int) :
    Value × FirOpBuilder :=
  (.constant type value, builder.create (.define (.constant type value)))

/-- Modelled from the spec: the member
`FirOpBuilder::createConvertWithVolatileCast`, whose source is not part of this
file. The value is converted to the type `toTy`; the conversion of a value
that has the type already is the identity and creates no operation. -/
def createConvertWithVolatileCast (builder : FirOpBuilder) (toTy : MlirType)
    (val : Value) : Value × FirOpBuilder :=
  if val.getType = toTy then (val, builder)
  else (.convert toTy val, builder.create (.define (.convert toTy val)))

/-- The member `FirOpBuilder::genIsNotNullAddr`. -/
def genIsNotNullAddr (builder : FirOpBuilder) (addr : Value) : Value × FirOpBuilder :=
  (.isNotNullAddr addr, builder.create (.define (.isNotNullAddr addr)))

/-- The chain `genIfThenElse(loc, cdt).genThen(...).genElse(...).end()`: the
two generators fill the regions of a `fir.if`, which is created at the
insertion point. -/
def genIfThenElse (builder : FirOpBuilder) (condition : Value)
    (genThen genElse : FirOpBuilder → FirOpBuilder) : FirOpBuilder :=
  let thenRegion := (genThen { builder with ops := [] }).ops
  let elseRegion := (genElse { builder with ops := [] }).ops
  builder.create (.fir_if condition thenRegion elseRegion)

end FirOpBuilder

/-- The creation of a `fir.store`. -/
def StoreOp.create (builder : FirOpBuilder) (value memref : Value) : FirOpBuilder :=
  builder.create (.store value memref)

/-- The creation of a `fir.load`. -/
def LoadOp.create (builder : FirOpBuilder) (memref : Value) : Value × FirOpBuilder :=
  (.load memref, builder.create (.define (.load memref)))

/-- The creation of a `fir.alloca`. -/
def AllocaOp.create (builder : FirOpBuilder) (inType : MlirType) : Value × FirOpBuilder :=
  (.alloca inType, builder.create (.define (.alloca inType)))

/-- The creation of a `fir.coordinate_of`. -/
def CoordinateOp.create (builder : FirOpBuilder) (type : MlirType) (ref coor : Value) :
    Value × FirOpBuilder :=
  (.coordinate_of type ref coor, builder.create (.define (.coordinate_of type ref coor)))

/-- The creation of a `fir.is_present`, of result type `i1`. -/
def IsPresentOp.create (builder : FirOpBuilder) (val : Value) : Value × FirOpBuilder :=
  (.is_present val, builder.create (.define (.is_present val)))

/-- The creation of a `fir.box_addr`. -/
def BoxAddrOp.create (builder : FirOpBuilder) (type : MlirType) (box : Value) :
    Value × FirOpBuilder :=
  (.box_addr type box, builder.create (.define (.box_addr type box)))

/-- The creation of a `fir.absent`. -/
def AbsentOp.create (builder : FirOpBuilder) (type : MlirType) : Value × FirOpBuilder :=
  (.absent type, builder.create (.define (.absent type)))

/-- The creation of an `arith.select`. -/
def SelectOp.create (builder : FirOpBuilder) (condition trueValue falseValue : Value) :
    Value × FirOpBuilder :=
  (.select condition trueValue falseValue,
    builder.create (.define (.select condition trueValue falseValue)))

/-- The creation of a `fir.box_dims`; the value returned is its first result,
the lower bound (`dims.getResult(0)`). -/
def BoxDimsOp.create (builder : FirOpBuilder) (box dim : Value) : Value × FirOpBuilder :=
  (.box_dims box dim 0, builder.create (.define (.box_dims box dim 0)))

/-- The kind of the character type behind an address or a character type. -/
def getCharacterKind : MlirType → Nat
  | .char kind _ => kind
  | .ref (.char kind _) => kind
  | _ => 1

/-- The member `CharacterExprHelper::createEmbox`: packs an address and a
length as a `fir.boxchar`. -/
def CharacterExprHelper.createEmbox (builder : FirOpBuilder) (charBox : Value × Value) :
    Value × FirOpBuilder :=
  let boxchar := Value.emboxchar (.boxchar (getCharacterKind charBox.1.getType))
    charBox.1 charBox.2
  (boxchar, builder.create (.define boxchar))

/-- The member `CharacterExprHelper::createUnboxChar`: unpacks a `fir.boxchar`
as an address and a length. -/
def CharacterExprHelper.createUnboxChar (builder : FirOpBuilder) (boxchar : Value) :
    (Value × Value) × FirOpBuilder :=
  ((.unboxchar boxchar 0, .unboxchar boxchar 1),
    builder.create (.define (.unboxchar boxchar 0)))

/-- The call `fir::factory::createUnallocatedBox(builder, loc, boxType, {})`. -/
def createUnallocatedBox (builder : FirOpBuilder) (boxType : MlirType) :
    Value × FirOpBuilder :=
  (.unallocatedBox boxType, builder.create (.define (.unallocatedBox boxType)))

/-- The call `fir::factory::associateMutableBox`. -/
def associateMutableBox (builder : FirOpBuilder) (box source : ExtendedValue)
    (lbounds : List Value) : FirOpBuilder :=
  builder.create (.associateMutableBox box source lbounds)

/-- The call `fir::factory::disassociateMutableBox`. -/
def disassociateMutableBox (builder : FirOpBuilder) (box : ExtendedValue) : FirOpBuilder :=
  builder.create (.disassociateMutableBox box)

/-- The call `Fortran::lower::getAssumedCharAllocatableOrPointerLen`. -/
def getAssumedCharAllocatableOrPointerLen (builder : FirOpBuilder) (sym : Symbol)
    (box : Value) : Value × FirOpBuilder :=
  (.assumedCharLen sym box, builder.create (.define (.assumedCharLen sym box)))

/-- The element type of a `fir::BaseBoxType` (a `fir.box` or a `fir.class`),
when the type is one. -/
def MlirType.getBoxEleTy : MlirType → Option MlirType
  | .box ele => some ele
  | .cls ele => some ele
  | _ => none

/-- Modelled from the spec: the function `fir::factory::readBoxValue`, whose
source is not part of this file. The descriptor is read into the simpler
address plus bounds form: the base address of the descriptor, for an array
the extent of each dimension of the descriptor and the lower bounds that the
`BoxValue` carries, for a character its length. -/
def readBoxValue (builder : FirOpBuilder) (box : Value) (lbounds : List Value) :
    ExtendedValue × FirOpBuilder :=
  let builder := builder.create (.readBoxValue (.BoxValue box lbounds []))
  let eleTy := (box.getType.getBoxEleTy).getD .null
  match eleTy with
  | .seq shape ele =>
    let addr := Value.box_addr (.ref eleTy) box
    let extents := (List.range shape.length).map
      (fun (dim : Nat) => Value.box_dims box (.constant .index (dim : Int)) 1)
    match ele with
    | .char _ _ => (.CharArrayBoxValue addr (.readCharLen box) extents lbounds, builder)
    | _ => (.ArrayBoxValue addr extents lbounds, builder)
  | .char _ _ => (.CharBoxValue (.box_addr (.ref eleTy) box) (.readCharLen box), builder)
  | _ => (.UnboxedValue (.box_addr (.ref eleTy) box), builder)

/-- What changes while a procedure is lowered: the builder of the converter,
the symbol map of the procedure, and the host tuple recorded by
`AbstractConverter::bindHostAssocTuple`. -/
structure LoweringState where
  builder : FirOpBuilder := {}
  symMap : SymMap := []
  hostAssocTuple : Option Value := none

/-- The member `AbstractConverter::bindHostAssocTuple`. -/
def LoweringState.bindHostAssocTuple (state : LoweringState) (val : Value) :
    LoweringState :=
  { state with hostAssocTuple := some val }

/-- Modelled from the spec: the function `Fortran::lower::genDeclareSymbol`,
whose source is not part of this file. It generates the `hlfir.declare` of the
variable and maps the symbol to the declared value. -/
def genDeclareSymbol (state : LoweringState) (sym : Symbol) (val : ExtendedValue) :
    LoweringState :=
  { state with
    builder := state.builder.create (.genDeclareSymbol sym val)
    symMap := state.symMap.addSymbol sym val }

/-- Map the extracted fir::ExtendedValue for a host associated variable inside
and internal procedure to its symbol. Generates an hlfir.declare in HLFIR. -/
def bindCapturedSymbol (sym : Symbol) (val : ExtendedValue)
    (converter : AbstractConverter) (state : LoweringState) : LoweringState :=
  if converter.getLowerToHighLevelFIR then
    genDeclareSymbol state sym val
  else
    { state with symMap := state.symMap.addSymbol sym val }

/-! ## Creating the tuple and instantiating the variables from it -/

/-- Struct to be used as argument in walkCaptureCategories when building the
tuple element value for a host associated variable. -/
structure InstantiateHostTuple where
  /-- Value of the variable inside the host procedure. -/
  hostValue : ExtendedValue
  /-- Address of the tuple element of the variable. -/
  addrInTuple : Value
  loc : Location

/-- Struct to be used as argument in walkCaptureCategories when instantiating a
host associated variables from its tuple element value. The symbol map inside
the internal procedure, which the struct refers to, is the one of the lowering
state. -/
structure GetFromTuple where
  /-- Value of the tuple element for the host associated variable. -/
  valueInTuple : Value
  loc : Location

/-- The store of the host value, converted to the type of the tuple element:
the body shared by the `instantiateHostTuple` of simple scalars, of procedures
and of allocatables and pointers. -/
def storeInTuple (args : InstantiateHostTuple) (builder : FirOpBuilder) :
    Except Failure FirOpBuilder :=
  let typeInTuple := dyn_cast_ptrEleTy args.addrInTuple.getType
  if !typeInTuple.isSet then
    .error (.assertion "addrInTuple must be an address")
  else
    let (castBox, builder) :=
      builder.createConvertWithVolatileCast typeInTuple (getBase args.hostValue)
    .ok (StoreOp.create builder castBox args.addrInTuple)

namespace CapturedSimpleScalars

/-- The member `CapturedSimpleScalars::instantiateHostTuple`. -/
def instantiateHostTuple (args : InstantiateHostTuple) (_converter : AbstractConverter)
    (_sym : Symbol) (builder : FirOpBuilder) : Except Failure FirOpBuilder :=
  storeInTuple args builder

/-- The member `CapturedSimpleScalars::getFromTuple`. -/
def getFromTuple (args : GetFromTuple) (converter : AbstractConverter) (sym : Symbol)
    (_ba : BoxAnalyzer) (state : LoweringState) : Except Failure LoweringState :=
  .ok (bindCapturedSymbol sym (.UnboxedValue args.valueInTuple) converter state)

end CapturedSimpleScalars

namespace CapturedProcedure

/-- The member `CapturedProcedure::instantiateHostTuple`. -/
def instantiateHostTuple (args : InstantiateHostTuple) (_converter : AbstractConverter)
    (_sym : Symbol) (builder : FirOpBuilder) : Except Failure FirOpBuilder :=
  storeInTuple args builder

/-- The member `CapturedProcedure::getFromTuple`. -/
def getFromTuple (args : GetFromTuple) (converter : AbstractConverter) (sym : Symbol)
    (_ba : BoxAnalyzer) (state : LoweringState) : Except Failure LoweringState :=
  .ok (bindCapturedSymbol sym (.UnboxedValue args.valueInTuple) converter state)

end CapturedProcedure

namespace CapturedCharacterScalars

/-- The member `CapturedCharacterScalars::instantiateHostTuple`. -/
def instantiateHostTuple (args : InstantiateHostTuple) (_converter : AbstractConverter)
    (_sym : Symbol) (builder : FirOpBuilder) : Except Failure FirOpBuilder :=
  match args.hostValue.getCharBox with
  | none => .error (.assertion "host value must be a fir::CharBoxValue")
  | some charBox =>
    let (boxchar, builder) := CharacterExprHelper.createEmbox builder charBox
    .ok (StoreOp.create builder boxchar args.addrInTuple)

/-- The member `CapturedCharacterScalars::getFromTuple`. -/
def getFromTuple (args : GetFromTuple) (converter : AbstractConverter) (sym : Symbol)
    (_ba : BoxAnalyzer) (state : LoweringState) : Except Failure LoweringState :=
  let (unboxchar, builder) :=
    CharacterExprHelper.createUnboxChar state.builder args.valueInTuple
  .ok (bindCapturedSymbol sym (.CharBoxValue unboxchar.1 unboxchar.2) converter
    { state with builder := builder })

end CapturedCharacterScalars

/-- The replacement of a box by the absent box when its address is null, made
for an optional entity by the `getFromTuple` of polymorphic scalars and of
arrays: if this is an optional that is absent, the fir.box needs to be an
AbsentOp result, otherwise it will not work properly with IsPresentOp. -/
def selectAbsentBox (builder : FirOpBuilder) (box : Value) :
    Except Failure (Value × FirOpBuilder) :=
  let boxTy := box.getType
  match boxTy.getBoxEleTy with
  | none => .error (.assertion "cast<Ty>() argument of incompatible type!")
  | some eleTy =>
    let eleTy := if !isa_ref_type eleTy then MlirType.ref eleTy else eleTy
    let (addr, builder) := BoxAddrOp.create builder eleTy box
    let (isPresent, builder) := builder.genIsNotNullAddr addr
    let (absentBox, builder) := AbsentOp.create builder boxTy
    .ok (SelectOp.create builder isPresent box absentBox)

namespace CapturedPolymorphicScalar

/-- The member `CapturedPolymorphicScalar::instantiateHostTuple`. -/
def instantiateHostTuple (args : InstantiateHostTuple) (_converter : AbstractConverter)
    (sym : Symbol) (builder : FirOpBuilder) : Except Failure FirOpBuilder :=
  let typeInTuple := dyn_cast_ptrEleTy args.addrInTuple.getType
  if !typeInTuple.isSet then
    .error (.assertion "addrInTuple must be an address")
  else
    let (castBox, builder) :=
      builder.createConvertWithVolatileCast typeInTuple (getBase args.hostValue)
    if IsOptional sym then
      let (isPresent, builder) := IsPresentOp.create builder castBox
      .ok (builder.genIfThenElse isPresent
        (fun builder => StoreOp.create builder castBox args.addrInTuple)
        (fun builder =>
          let (null, builder) := createUnallocatedBox builder typeInTuple
          StoreOp.create builder null args.addrInTuple))
    else
      .ok (StoreOp.create builder castBox args.addrInTuple)

/-- The member `CapturedPolymorphicScalar::getFromTuple`. -/
def getFromTuple (args : GetFromTuple) (converter : AbstractConverter) (sym : Symbol)
    (_ba : BoxAnalyzer) (state : LoweringState) : Except Failure LoweringState :=
  let box := args.valueInTuple
  if IsOptional sym then
    match selectAbsentBox state.builder box with
    | .error failure => .error failure
    | .ok (box, builder) =>
      .ok (bindCapturedSymbol sym (.UnboxedValue box) converter
        { state with builder := builder })
  else
    .ok (bindCapturedSymbol sym (.UnboxedValue box) converter state)

end CapturedPolymorphicScalar

namespace CapturedAllocatableAndPointer

/-- The member `CapturedAllocatableAndPointer::instantiateHostTuple`. -/
def instantiateHostTuple (args : InstantiateHostTuple) (_converter : AbstractConverter)
    (_sym : Symbol) (builder : FirOpBuilder) : Except Failure FirOpBuilder :=
  if !args.hostValue.isMutableBoxValue then
    .error (.assertion "host value must be a fir::MutableBoxValue")
  else
    storeInTuple args builder

/-- The member `CapturedAllocatableAndPointer::getFromTuple`. -/
def getFromTuple (args : GetFromTuple) (converter : AbstractConverter) (sym : Symbol)
    (ba : BoxAnalyzer) (state : LoweringState) : Except Failure LoweringState :=
  -- Non deferred type parameters impact the semantics of some statements
  -- where allocatables/pointer can appear. So it is important to keep track
  -- of the non deferred parameters here.
  let bind := fun (nonDeferredLenParams : List Value) (builder : FirOpBuilder) =>
    bindCapturedSymbol sym (.MutableBoxValue args.valueInTuple nonDeferredLenParams)
      converter { state with builder := builder }
  if ba.isChar then
    match ba.getCharLenConst with
    | some len =>
      let (lenValue, builder) := state.builder.createIntegerConstant .index len
      .ok (bind [lenValue] builder)
    | none =>
      if IsAssumedLengthCharacter sym || ba.getCharLenExpr then
        let (lenValue, builder) :=
          getAssumedCharAllocatableOrPointerLen state.builder sym args.valueInTuple
        .ok (bind [lenValue] builder)
      else
        .ok (bind [] state.builder)
  else if isDerivedWithLenParameters sym then
    .error (.todo args.loc
      "host associated derived type allocatable or pointer with length parameters")
  else
    .ok (bind [] state.builder)

end CapturedAllocatableAndPointer

namespace CapturedArrays

/-- Can the fir.box from the host link be read into simpler values ?
Later, without the symbol information, it might not be possible
to tell if the fir::BoxValue from the host link is contiguous. The
polymorphism of the declared type is the answer of `IsPolymorphic` on the
symbol. -/
def canReadCapturedBoxValue (_converter : AbstractConverter) (sym : Symbol) : Bool :=
  let isScalarOrContiguous := sym.Rank == 0 || IsSimplyContiguous sym
  let isPolymorphic := IsPolymorphic sym
  isScalarOrContiguous && !isPolymorphic && !isDerivedWithLenParameters sym &&
    !IsAssumedRank sym

/-- The member `CapturedArrays::instantiateHostTuple`. -/
def instantiateHostTuple (args : InstantiateHostTuple) (_converter : AbstractConverter)
    (sym : Symbol) (builder : FirOpBuilder) : Except Failure FirOpBuilder :=
  let boxInTuple := ExtendedValue.MutableBoxValue args.addrInTuple []
  if args.hostValue.isBoxValue && IsOptional sym then
    -- The assumed shape optional case need some care because it is illegal to
    -- read the incoming box if it is absent (this would cause segfaults).
    -- Pointer association requires reading the target box, so it can only be
    -- done on present optional. For absent optionals, simply create a
    -- disassociated pointer.
    let (isPresent, builder) := IsPresentOp.create builder (getBase args.hostValue)
    .ok (builder.genIfThenElse isPresent
      (fun builder => associateMutableBox builder boxInTuple args.hostValue [])
      (fun builder => disassociateMutableBox builder boxInTuple))
  else
    .ok (associateMutableBox builder boxInTuple args.hostValue [])

/-- The lower bounds created from the constants of the shape analysis. -/
def staticLBounds (builder : FirOpBuilder) :
    List Int → List Value → List Value × FirOpBuilder
  | [], lbounds => (lbounds, builder)
  | lb :: rest, lbounds =>
    let (value, builder) := builder.createIntegerConstant .index lb
    staticLBounds builder rest (lbounds ++ [value])

/-- The lower bounds read from the box, for the dimensions from `dim` on,
`count` of them. -/
def boxLBounds (builder : FirOpBuilder) (box : Value) :
    Nat → Nat → List Value → List Value × FirOpBuilder
  | 0, _, lbounds => (lbounds, builder)
  | count + 1, dim, lbounds =>
    let (dimVal, builder) := builder.createIntegerConstant .index dim
    let (lb, builder) := BoxDimsOp.create builder box dimVal
    boxLBounds builder box count (dim + 1) (lbounds ++ [lb])

/-- The lower bounds recovered by `CapturedArrays::getFromTuple`. -/
def getLBounds (builder : FirOpBuilder) (sym : Symbol) (ba : BoxAnalyzer) (box : Value) :
    List Value × FirOpBuilder :=
  if !ba.lboundIsAllOnes && !IsAssumedRank sym then
    if ba.isStaticArray then
      staticLBounds builder ba.staticLBound []
    else
      -- Cannot re-evaluate specification expressions here.
      -- Operands values may have changed. Get value from fir.box
      boxLBounds builder box sym.Rank 0 []
  else
    ([], builder)

/-- The member `CapturedArrays::getFromTuple`. -/
def getFromTuple (args : GetFromTuple) (converter : AbstractConverter) (sym : Symbol)
    (ba : BoxAnalyzer) (state : LoweringState) : Except Failure LoweringState :=
  let box := args.valueInTuple
  let (lbounds, builder) := getLBounds state.builder sym ba box
  if canReadCapturedBoxValue converter sym then
    let (value, builder) := readBoxValue builder box lbounds
    .ok (bindCapturedSymbol sym value converter { state with builder := builder })
  else
    -- Keep variable as a fir.box/fir.class.
    if IsOptional sym then
      match selectAbsentBox builder box with
      | .error failure => .error failure
      | .ok (box, builder) =>
        .ok (bindCapturedSymbol sym (.BoxValue box lbounds []) converter
          { state with builder := builder })
    else
      .ok (bindCapturedSymbol sym (.BoxValue box lbounds []) converter
        { state with builder := builder })

end CapturedArrays

/-- The static member `SymbolCategory::instantiateHostTuple` of the class
`SymbolCategory`. -/
def SymbolCategory.instantiateHostTuple (category : SymbolCategory)
    (args : InstantiateHostTuple) (converter : AbstractConverter) (sym : Symbol)
    (builder : FirOpBuilder) : Except Failure FirOpBuilder :=
  match category with
  | .CapturedSimpleScalars =>
    CapturedSimpleScalars.instantiateHostTuple args converter sym builder
  | .CapturedProcedure => CapturedProcedure.instantiateHostTuple args converter sym builder
  | .CapturedCharacterScalars =>
    CapturedCharacterScalars.instantiateHostTuple args converter sym builder
  | .CapturedPolymorphicScalar =>
    CapturedPolymorphicScalar.instantiateHostTuple args converter sym builder
  | .CapturedAllocatableAndPointer =>
    CapturedAllocatableAndPointer.instantiateHostTuple args converter sym builder
  | .CapturedArrays => CapturedArrays.instantiateHostTuple args converter sym builder

/-- The static member `SymbolCategory::getFromTuple` of the class
`SymbolCategory`. -/
def SymbolCategory.getFromTuple (category : SymbolCategory) (args : GetFromTuple)
    (converter : AbstractConverter) (sym : Symbol) (ba : BoxAnalyzer)
    (state : LoweringState) : Except Failure LoweringState :=
  match category with
  | .CapturedSimpleScalars => CapturedSimpleScalars.getFromTuple args converter sym ba state
  | .CapturedProcedure => CapturedProcedure.getFromTuple args converter sym ba state
  | .CapturedCharacterScalars =>
    CapturedCharacterScalars.getFromTuple args converter sym ba state
  | .CapturedPolymorphicScalar =>
    CapturedPolymorphicScalar.getFromTuple args converter sym ba state
  | .CapturedAllocatableAndPointer =>
    CapturedAllocatableAndPointer.getFromTuple args converter sym ba state
  | .CapturedArrays => CapturedArrays.getFromTuple args converter sym ba state

/-- The overload of `visit` for `InstantiateHostTuple` calls
`SymbolCategory::instantiateHostTuple(args, converter, sym)`;
walkCaptureCategories returns nothing: the result is the effect of the call on
the builder of the converter. -/
instance : CapturedSymbols InstantiateHostTuple where
  Result := FirOpBuilder → Except Failure FirOpBuilder
  visit SymbolCategory args converter sym _ :=
    .ok (SymbolCategory.instantiateHostTuple args converter sym)

/-- The overload of `visit` for `GetFromTuple` calls
`SymbolCategory::getFromTuple(args, converter, sym, ba)`; walkCaptureCategories
returns nothing: the result is the effect of the call on the builder and on the
symbol map. -/
instance : CapturedSymbols GetFromTuple where
  Result := LoweringState → Except Failure LoweringState
  visit SymbolCategory args converter sym ba :=
    .ok (SymbolCategory.getFromTuple args converter sym ba)

/-- The decision order of the classifier in the words of the specification,
for a symbol that is not a procedure and has no length parameters: allocatable,
pointer or Cray pointee (on the ultimate symbol), then array shape (rank > 0 or
assumed rank), then polymorphic, then character, otherwise simple. -/
def specDecisionOrder (sym : Symbol) : SymbolCategory :=
  if sym.details.allocatable = true ∨ sym.details.pointer = true ∨
      Flag.CrayPointee ∈ sym.GetUltimate.details.flags then
    .CapturedAllocatableAndPointer
  else if 0 < sym.details.rank ∨ sym.details.assumedRank = true then
    .CapturedArrays
  else if sym.details.polymorphic = true then
    .CapturedPolymorphicScalar
  else if sym.details.type = some DeclTypeSpec.Character then
    .CapturedCharacterScalars
  else
    .CapturedSimpleScalars

/-! ## The host association instance -/

/-- An `llvm::SetVector`: a set that remembers the order of insertion,
represented by the vector of its elements. -/
abbrev SetVector (α : Type) := List α

/-- The member `SetVector::insert`: appends the element unless it is present. -/
def SetVector.insert {α : Type} [DecidableEq α] (set : SetVector α) (x : α) :
    SetVector α :=
  if x ∈ set then set else set ++ [x]

/-- The member `SetVector::empty`. -/
def SetVector.empty {α : Type} (set : SetVector α) : Bool := set.isEmpty

/-- A `Fortran::semantics::Scope`, identified by its name, with the answer of
`Fortran::lower::pft::getScopeVariableList` for it. -/
structure Scope where
  name : String
  variableList : List Variable := []
  deriving DecidableEq, Repr

/-- The data members of `Fortran::lower::HostAssociations`. A new instance has
empty sets, a null argument type and no host scope. -/
structure HostAssociations where
  /-- Canonical vector of host associated local symbols. -/
  tupleSymbols : SetVector Symbol := []
  /-- Canonical vector of host associated global symbols. -/
  globalSymbols : SetVector Symbol := []
  /-- The type of the extra argument to be added to each internal procedure. -/
  argType : MlirType := .null
  /-- Scope of the parent procedure if addSymbolsToBind was called. -/
  hostScope : Option Scope := none
  deriving DecidableEq, Repr

namespace HostAssociations

/-- The body of the loop of `addSymbolsToBind`, for one symbol `s`. -/
def addSymbolsToBind.step (self : HostAssociations) (s : Symbol) : HostAssociations :=
  -- GlobalOp are created for non-global threadprivate variable,
  --  so considering them as globals.
  if symbolIsGlobal s || s.test Flag.OmpThreadprivate then
    -- The ultimate symbol is stored here so that global symbols from the
    -- host scope can later be searched in this set.
    { self with globalSymbols := self.globalSymbols.insert s.GetUltimate }
  else
    { self with tupleSymbols := self.tupleSymbols.insert s }

/-- The member `HostAssociations::addSymbolsToBind`. -/
def addSymbolsToBind (self : HostAssociations) (symbols : SetVector Symbol)
    (hostScope : Scope) : Except Failure HostAssociations :=
  if !(self.tupleSymbols.empty && self.globalSymbols.empty) then
    .error (.assertion "must be initially empty")
  else
    let self := { self with hostScope := some hostScope }
    .ok (symbols.foldl addSymbolsToBind.step self)

/-- The loop of `getArgumentType`: walks the symbols in order and creates their
types, appending each to `tupleTys`. Next to the types it returns the symbols
on which `walkCaptureCategories` was run, in the order of the calls. -/
def getArgumentType.walk (converter : AbstractConverter) :
    List Symbol → List MlirType → List Symbol →
      Except Failure (List MlirType × List Symbol)
  | [], tupleTys, walked => .ok (tupleTys, walked)
  | sym :: rest, tupleTys, walked =>
    match walkCaptureCategories GetTypeInTuple.mk converter sym with
    | .error failure => .error failure
    | .ok ty => getArgumentType.walk converter rest (tupleTys ++ [ty]) (walked ++ [sym])

/-- The member `HostAssociations::getArgumentType`. It returns the type, the
instance after the call, and the symbols on which the call has run
`walkCaptureCategories`. -/
def getArgumentType (self : HostAssociations) (converter : AbstractConverter) :
    Except Failure (MlirType × HostAssociations × List Symbol) :=
  if self.tupleSymbols.empty then
    .ok (.null, self, [])
  else if self.argType.isSet then
    .ok (self.argType, self, [])
  else
    -- Walk the list of Symbols and create their types. Wrap them in a
    -- reference to a tuple.
    match getArgumentType.walk converter self.tupleSymbols [] [] with
    | .error failure => .error failure
    | .ok (tupleTys, walked) =>
      let argType := MlirType.ref (MlirType.tupleOf tupleTys)
      .ok (argType, { self with argType := argType }, walked)

end HostAssociations

/-- The member `mlir::TupleType::getType(index)`, which asserts that the
index is one of a field. -/
def TypeList.getType : TypeList → Nat → Except Failure MlirType
  | .nil, _ => .error (.assertion "invalid index for tuple type")
  | .cons head _, 0 => .ok head
  | .cons _ tail, index + 1 => tail.getType index

/-- `t` should be the result of getArgumentType, which has a type of
`!fir.ref<tuple<...>>`. The fields of the tuple type are returned; the
`mlir::cast<mlir::TupleType>` asserts that the pointee is a tuple type. -/
def unwrapTupleTy (t : MlirType) : Except Failure TypeList :=
  match dyn_cast_ptrEleTy t with
  | .tuple types => .ok types
  | _ => .error (.assertion "cast<Ty>() argument of incompatible type!")

/-- The test `mlir::isa<fir::ReferenceType>(varTy)`. -/
def MlirType.isReferenceType : MlirType → Bool
  | .ref _ => true
  | _ => false

/-- The address of a field of the tuple. -/
def genTupleCoor (builder : FirOpBuilder) (varTy : MlirType) (tupleArg offset : Value) :
    Value × FirOpBuilder :=
  -- fir.ref<fir.ref> and fir.ptr<fir.ref> are forbidden. Use
  -- fir.llvm_ptr if needed.
  let ty := if varTy.isReferenceType then MlirType.llvmPtr varTy else MlirType.ref varTy
  CoordinateOp.create builder ty tupleArg offset

namespace HostAssociations

/-- The first statements of the body of the loop of `hostProcedureBindings`,
for the tupled symbol `s` at `indexInTuple`: the offset, the type and the
address of the field, and the visitor built from them. -/
def hostProcedureBindings.visitor (converter : AbstractConverter) (symMap : SymMap)
    (tupTy : TypeList) (hostTuple : Value) (loc : Location) (builder : FirOpBuilder)
    (indexInTuple : Nat) (s : Symbol) : Except Failure (InstantiateHostTuple × FirOpBuilder) :=
  let (off, builder) := builder.createIntegerConstant .i32 indexInTuple
  match tupTy.getType indexInTuple with
  | .error failure => .error failure
  | .ok varTy =>
    let (eleOff, builder) := genTupleCoor builder varTy hostTuple off
    .ok ({ hostValue := converter.getSymbolExtendedValue s symMap,
           addrInTuple := eleOff, loc := loc }, builder)

/-- The body of the loop of `hostProcedureBindings`. -/
def hostProcedureBindings.body (converter : AbstractConverter) (symMap : SymMap)
    (tupTy : TypeList) (hostTuple : Value) (loc : Location) (builder : FirOpBuilder)
    (s : Nat × Symbol) : Except Failure FirOpBuilder :=
  match hostProcedureBindings.visitor converter symMap tupTy hostTuple loc builder s.1 s.2 with
  | .error failure => .error failure
  | .ok (instantiateHostTuple, builder) =>
    match walkCaptureCategories instantiateHostTuple converter s.2 with
    | .error failure => .error failure
    | .ok instantiate => instantiate builder

/-- A loop over a range whose body may stop the lowering: the body is run on
the elements in order, from the state left by the previous one. -/
def forEach {σ α : Type} (body : σ → α → Except Failure σ) : List α → σ → Except Failure σ
  | [], state => .ok state
  | x :: rest, state =>
    match body state x with
    | .error failure => .error failure
    | .ok state => forEach body rest state

/-- The member `HostAssociations::hostProcedureBindings`. -/
def hostProcedureBindings (self : HostAssociations) (converter : AbstractConverter)
    (state : LoweringState) : Except Failure (HostAssociations × LoweringState) :=
  if self.tupleSymbols.empty then
    .ok (self, state)
  else
    -- Create the tuple variable.
    match self.getArgumentType converter with
    | .error failure => .error failure
    | .ok (argType, self, _) =>
      match unwrapTupleTy argType with
      | .error failure => .error failure
      | .ok tupTy =>
        let loc := converter.getCurrentLocation
        let (hostTuple, builder) := AllocaOp.create state.builder (.tuple tupTy)
        -- Walk the list of tupleSymbols and update the pointers in the tuple.
        match forEach (hostProcedureBindings.body converter state.symMap tupTy hostTuple loc)
            self.tupleSymbols.enum builder with
        | .error failure => .error failure
        | .ok builder =>
          .ok (self, { state with builder := builder }.bindHostAssocTuple hostTuple)

/-- The body of the first loop of `internalProcedureBindings`, for one variable
of the host scope. -/
def internalProcedureBindings.instantiate (self : HostAssociations)
    (builder : FirOpBuilder) (hostVariable : Variable) : FirOpBuilder :=
  if (hostVariable.isAggregateStore && hostVariable.isGlobal) ||
      (match hostVariable.symbol with
        | some symbol => decide (symbol.GetUltimate ∈ self.globalSymbols)
        | none => false) then
    let builder := builder.create (.instantiateVariable hostVariable)
    -- Generate threadprivate Op for host associated variables.
    if (match hostVariable.symbol with
        | some symbol => symbol.test Flag.OmpThreadprivate
        | none => false) then
      builder.create (.genThreadprivateOp hostVariable)
    else
      builder
  else
    builder

/-- The first part of `internalProcedureBindings`: the instantiation of the
global symbols. -/
def internalProcedureBindings.globals (self : HostAssociations) (builder : FirOpBuilder) :
    Except Failure FirOpBuilder :=
  if !self.globalSymbols.empty then
    match self.hostScope with
    | none => .error (.assertion "host scope must have been set")
    | some hostScope =>
      -- The host scope variable list is required to deal with host variables
      -- that are equivalenced and requires instantiating the right global
      -- AggregateStore.
      .ok (hostScope.variableList.foldl (internalProcedureBindings.instantiate self) builder)
  else
    .ok builder

/-- Find the argument with the tuple type. The argument ought to be appended:
the pairs of input type and argument are searched from the last one. -/
def internalProcedureBindings.findTupleArg (func : FuncOp) (argTy : MlirType) :
    Option Value :=
  ((func.inputs.zip func.arguments).reverse.find? (fun pair => decide (pair.1 = argTy))).map
    (fun pair => pair.2)

/-- The first statements of the body of the second loop of
`internalProcedureBindings`, for the tupled symbol `s` at `index`: the offset,
the type and the address of the field, the load of the field, and the visitor
built from it. -/
def internalProcedureBindings.visitor (tupTy : TypeList) (tupleArg : Value)
    (loc : Location) (builder : FirOpBuilder) (index : Nat) :
    Except Failure (GetFromTuple × FirOpBuilder) :=
  let (off, builder) := builder.createIntegerConstant .i32 index
  match tupTy.getType index with
  | .error failure => .error failure
  | .ok varTy =>
    let (eleOff, builder) := genTupleCoor builder varTy tupleArg off
    let (valueInTuple, builder) := LoadOp.create builder eleOff
    .ok ({ valueInTuple := valueInTuple, loc := loc }, builder)

/-- The body of the second loop of `internalProcedureBindings`. -/
def internalProcedureBindings.body (converter : AbstractConverter) (tupTy : TypeList)
    (tupleArg : Value) (loc : Location) (state : LoweringState) (s : Nat × Symbol) :
    Except Failure LoweringState :=
  match internalProcedureBindings.visitor tupTy tupleArg loc state.builder s.1 with
  | .error failure => .error failure
  | .ok (getFromTuple, builder) =>
    match walkCaptureCategories getFromTuple converter s.2 with
    | .error failure => .error failure
    | .ok bind => bind { state with builder := builder }

/-- The member `HostAssociations::internalProcedureBindings`. -/
def internalProcedureBindings (self : HostAssociations) (converter : AbstractConverter)
    (state : LoweringState) : Except Failure (HostAssociations × LoweringState) :=
  match internalProcedureBindings.globals self state.builder with
  | .error failure => .error failure
  | .ok builder =>
    let state := { state with builder := builder }
    if self.tupleSymbols.empty then
      .ok (self, state)
    else
      -- Find the argument with the tuple type. The argument ought to be appended.
      match self.getArgumentType converter with
      | .error failure => .error failure
      | .ok (argTy, self, _) =>
        match unwrapTupleTy argTy with
        | .error failure => .error failure
        | .ok tupTy =>
          let loc := converter.getCurrentLocation
          match internalProcedureBindings.findTupleArg state.builder.getFunction argTy with
          | none => .error (.fatalError loc "no host association argument found")
          | some tupleArg =>
            let state := state.bindHostAssocTuple tupleArg
            -- Walk the list and add the bindings to the symbol table.
            match forEach (internalProcedureBindings.body converter tupTy tupleArg loc)
                self.tupleSymbols.enum state with
            | .error failure => .error failure
            | .ok state => .ok (self, state)

end HostAssociations

/-- Is the operation one of the two calls by which `internalProcedureBindings`
instantiates a global variable of the host ? -/
def Operation.isGlobalInstantiation : Operation → Bool
  | .instantiateVariable _ => true
  | .genThreadprivateOp _ => true
  | _ => false

/-- The elements of a list in the order of their first occurrence, without
duplicates, in the words of the specification: an element is kept where it
occurs first and dropped from the rest. -/
def firstOccurrences {α : Type} [DecidableEq α] : List α → List α
  | [] => []
  | x :: rest => x :: (firstOccurrences rest).filter (fun y => decide (y ≠ x))

/-! ## The run-time meaning of the generated operations -/

/-- A run-time address. -/
abbrev Addr := Nat

/-- Modelled from the spec: a descriptor (box), whose layout is defined by the
Fortran runtime and is not part of this file: a fat-pointer run-time structure
carrying a base address, null when `none`, and the bounds of each dimension.
The same record describes an entity by its address and its bounds. -/
structure Descriptor where
  base : Option Addr
  lbounds : List Int := []
  extents : List Int := []
  deriving DecidableEq, Repr

/-- Modelled from the spec: what a value of the generated code holds when the
code runs. An absent optional is a null descriptor handle, `box none`, which is
not a descriptor containing a null base address, `box (some d)` with
`d.base = none`. -/
inductive RuntimeValue where
  | undefined
  | integer (value : Int)
  | boolean (value : Bool)
  | address (addr : Option Addr)
  | box (descriptor : Option Descriptor)
  deriving DecidableEq, Repr

namespace RuntimeValue

/-- The optionality test on a run-time value: an address or a descriptor handle
is present when it is not null. -/
def isPresent : RuntimeValue → Option Bool
  | .address addr => some addr.isSome
  | .box descriptor => some descriptor.isSome
  | _ => none

/-- The integer that a run-time value holds, if it holds one. -/
def toInt? : RuntimeValue → Option Int
  | .integer value => some value
  | _ => none

end RuntimeValue

/-- The lower bound (result 0) or the extent (result 1) of the dimension `dim`
of a descriptor. -/
def Descriptor.dims (descriptor : Descriptor) (dim : Int) (result : Nat) : RuntimeValue :=
  if dim < 0 then .undefined
  else
    match result with
    | 0 => (descriptor.lbounds[dim.toNat]?).elim .undefined .integer
    | 1 => (descriptor.extents[dim.toNat]?).elim .undefined .integer
    | _ => .undefined

/-- The state in which the generated code runs: the values of what this file
does not compute (block arguments, values defined elsewhere, allocations,
field addresses and the results of the operations left uninterpreted) and the
contents of the memory. -/
structure Valuation where
  leaf : Value → RuntimeValue
  memory : Addr → RuntimeValue

/-- The memory after a write of `value` at `addr`. -/
def Valuation.write (valuation : Valuation) (addr : Addr) (value : RuntimeValue) :
    Valuation :=
  { valuation with memory := fun other => if other = addr then value else valuation.memory other }

/-- Modelled from the spec: the run-time meaning of the operations of the FIR
dialect that define the values used by this file, whose definitions are not
part of this file. A load reads the memory at its address; a conversion keeps
the value; the presence test tells a null handle from one that is not;
`fir.box_addr` reads the base address of a descriptor; `fir.absent` is the null
handle; the unallocated box is a descriptor whose base address is null;
`fir.box_dims` reads the bounds of a dimension. A value is evaluated in the
state in which its operation runs. -/
def Value.eval (valuation : Valuation) : Value → RuntimeValue
  | .constant _ value => .integer value
  | .convert _ value => value.eval valuation
  | .load memref =>
    match memref.eval valuation with
    | .address (some addr) => valuation.memory addr
    | _ => .undefined
  | .is_present val =>
    match (val.eval valuation).isPresent with
    | some present => .boolean present
    | none => .undefined
  | .box_addr _ box =>
    match box.eval valuation with
    | .box (some descriptor) => .address descriptor.base
    | _ => .undefined
  | .isNotNullAddr addr =>
    match addr.eval valuation with
    | .address addr => .boolean addr.isSome
    | _ => .undefined
  | .absent type => if type.getBoxEleTy.isSome then .box none else .address none
  | .select condition trueValue falseValue =>
    match condition.eval valuation with
    | .boolean true => trueValue.eval valuation
    | .boolean false => falseValue.eval valuation
    | _ => .undefined
  | .box_dims box dim result =>
    match box.eval valuation, dim.eval valuation with
    | .box (some descriptor), .integer dim => descriptor.dims dim result
    | _, _ => .undefined
  | .unallocatedBox _ => .box (some { base := none })
  | .blockArgument index type => valuation.leaf (.blockArgument index type)
  | .external name type => valuation.leaf (.external name type)
  | .alloca inType => valuation.leaf (.alloca inType)
  | .coordinate_of type ref coor => valuation.leaf (.coordinate_of type ref coor)
  | .emboxchar type addr len => valuation.leaf (.emboxchar type addr len)
  | .unboxchar boxchar result => valuation.leaf (.unboxchar boxchar result)
  | .assumedCharLen sym box => valuation.leaf (.assumedCharLen sym box)
  | .readCharLen box => valuation.leaf (.readCharLen box)

/-- The integers that the values of a list hold, if each holds one. -/
def evalIntegers (valuation : Valuation) : List Value → Option (List Int)
  | [] => some []
  | value :: rest =>
    match (value.eval valuation).toInt?, evalIntegers valuation rest with
    | some first, some others => some (first :: others)
    | _, _ => none

/-- The entity that an address with extents and lower bounds denotes; without
lower bounds, the lower bounds are ones. -/
def describeArray (valuation : Valuation) (addr : Value) (extents lbounds : List Value) :
    Option Descriptor :=
  match addr.eval valuation, evalIntegers valuation extents, evalIntegers valuation lbounds with
  | .address base, some extents, some lbounds =>
    some { base := base,
           lbounds := if lbounds.isEmpty then List.replicate extents.length 1 else lbounds,
           extents := extents }
  | _, _, _ => none

/-- Modelled from the spec: the entity that a `fir::ExtendedValue` denotes when
the code runs, by its address and its bounds; the conventions on the forms of
an extended value are those of `fir::factory::readLowerBound` and
`fir::factory::readExtents`, which are not part of this file. An array in
address plus bounds form has the address and the bounds that its values hold;
a `BoxValue` has the address and the extents of its descriptor, which must be
present, and the lower bounds that it carries; in both forms an empty list of
lower bounds stands for lower bounds that are all one. -/
def ExtendedValue.describe (valuation : Valuation) : ExtendedValue → Option Descriptor
  | .UnboxedValue base =>
    match base.eval valuation with
    | .address addr => some { base := addr }
    | .box descriptor => descriptor
    | _ => none
  | .CharBoxValue addr _ =>
    match addr.eval valuation with
    | .address addr => some { base := addr }
    | _ => none
  | .ArrayBoxValue addr extents lbounds => describeArray valuation addr extents lbounds
  | .CharArrayBoxValue addr _ extents lbounds => describeArray valuation addr extents lbounds
  | .BoxValue box lbounds _ =>
    match box.eval valuation, evalIntegers valuation lbounds with
    | .box (some descriptor), some lbounds =>
      some { descriptor with
             lbounds := if lbounds.isEmpty then List.replicate descriptor.extents.length 1
                        else lbounds }
    | _, _ => none
  | _ => none

/-- Modelled from the spec: the effect on the memory of the operations and of
the calls that this file adds to the code, whose definitions are not part of
this file; `none` stands for a behaviour that is undefined or not modelled.
A store writes the value at the address. A `fir.if` runs the region that its
condition selects. The association of a mutable box with a source writes, at
the address of the box, a descriptor of the entity that the source denotes,
with the lower bounds given or else those of the source; reading a source
that is absent is undefined. The disassociation writes a descriptor whose
base address is null. The definition of a value, the reading of a box and the
declaration of a symbol leave the memory as it is. -/
def Operation.exec : Operation → Valuation → Option Valuation
  | .define _, valuation => some valuation
  | .store value memref, valuation =>
    match memref.eval valuation with
    | .address (some addr) => some (valuation.write addr (value.eval valuation))
    | _ => none
  | .fir_if condition thenRegion elseRegion, valuation =>
    match condition.eval valuation with
    | .boolean true => execRegion thenRegion valuation
    | .boolean false => execRegion elseRegion valuation
    | _ => none
  | .associateMutableBox box source lbounds, valuation =>
    match (getBase box).eval valuation, source.describe valuation,
        evalIntegers valuation lbounds with
    | .address (some addr), some entity, some lbounds =>
      some (valuation.write addr (.box (some
        { entity with lbounds := if lbounds.isEmpty then entity.lbounds else lbounds })))
    | _, _, _ => none
  | .disassociateMutableBox box, valuation =>
    match (getBase box).eval valuation with
    | .address (some addr) => some (valuation.write addr (.box (some { base := none })))
    | _ => none
  | .readBoxValue _, valuation => some valuation
  | .genDeclareSymbol _ _, valuation => some valuation
  | .instantiateVariable _, _ => none
  | .genThreadprivateOp _, _ => none
where
  /-- The operations of a region, run in order. -/
  execRegion : List Operation → Valuation → Option Valuation
    | [], valuation => some valuation
    | op :: rest, valuation =>
      match op.exec valuation with
      | some valuation => execRegion rest valuation
      | none => none

/-- Do the lower bounds of an entity agree with what the shape analysis of
the symbol says of them ? Lower bounds declared as ones (and those of an
assumed rank entity, which has no declared bound) are all one; constant
lower bounds are the constants of the analysis; in the other cases there is
one lower bound for each dimension of the symbol. -/
def shapeAgrees (sym : Symbol) (ba : BoxAnalyzer) (entity : Descriptor) : Prop :=
  if ba.lboundIsAllOnes || IsAssumedRank sym then
    entity.lbounds = List.replicate entity.extents.length 1
  else if ba.isStaticArray then
    entity.lbounds = ba.staticLBound
  else
    entity.lbounds.length = sym.Rank

instance (sym : Symbol) (ba : BoxAnalyzer) (entity : Descriptor) :
    Decidable (shapeAgrees sym ba entity) := by
  unfold shapeAgrees
  infer_instance

/-- Is the failure the "not yet implemented" exit of
`CapturedAllocatableAndPointer::getFromTuple` ? -/
def Failure.isAllocatableOrPointerTodo : Failure → Bool
  | .todo _ msg =>
    msg == "host associated derived type allocatable or pointer with length parameters"
  | _ => false

/-! ## Sample symbols and a sample converter -/

namespace Sample

/-- An integer scalar local of the host, `integer :: x`. -/
def x : Symbol := .entity { name := "x", type := some .Numeric }

/-- An assumed-shape integer array, `integer :: y(:)`. -/
def y : Symbol := .entity { name := "y", type := some .Numeric, rank := 1 }

/-- A character scalar, `character(*) :: c`. -/
def c : Symbol := .entity { name := "c", type := some .Character }

/-- A polymorphic scalar, `class(t) :: p`. -/
def p : Symbol :=
  .entity { name := "p", type := some (.Derived { name := "t", lenParameters := 0 }),
            polymorphic := true }

/-- A polymorphic array that is neither allocatable nor pointer,
`class(t) :: q(:)`. -/
def q : Symbol :=
  .entity { name := "q", type := some (.Derived { name := "t", lenParameters := 0 }),
            polymorphic := true, rank := 1 }

/-- An allocatable character array, `character(:), allocatable :: a(:)`. -/
def a : Symbol :=
  .entity { name := "a", type := some .Character, rank := 1, allocatable := true }

/-- A dummy subroutine, which has no type. -/
def f : Symbol := .entity { name := "f", procedure := true }

/-- A procedure pointer, `procedure(integer), pointer :: fp`. -/
def fp : Symbol :=
  .entity { name := "fp", type := some .Numeric, procedure := true, pointer := true }

/-- An entity of a derived type with one length parameter, `type(pdt(n)) :: d`. -/
def d : Symbol :=
  .entity { name := "d", type := some (.Derived { name := "pdt", lenParameters := 1 }) }

/-- A saved variable of the host, `integer, save :: g`. -/
def g : Symbol := .entity { name := "g", type := some .Numeric, global := true }

/-- A symbol associated with the local `x` that carries the OmpThreadprivate
flag, while `x` itself is neither global nor flagged. -/
def xThreadprivate : Symbol :=
  .associated { name := "x", type := some .Numeric, flags := [.OmpThreadprivate] } x

/-- A converter for the samples: scalars of numeric, logical and character type
get `i32`, `!fir.logical<4>` and `!fir.char<1,?>`, derived types their name;
arrays get a sequence type of unknown extents, polymorphic entities a class
type, allocatables and pointers a box. It lowers to FIR, and the value of a
symbol is the one bound in the symbol map. -/
def converter : AbstractConverter where
  genType sym :=
    let ele : MlirType :=
      match sym.GetType with
      | some .Numeric => .base "i32"
      | some .Logical => .base "!fir.logical<4>"
      | some .Character => .char 1 none
      | some (.Derived derived) => .base derived.name
      | none => .null
    let shaped : MlirType :=
      if sym.Rank > 0 then .seq (List.replicate sym.Rank none) ele else ele
    if IsPolymorphic sym then .cls shaped
    else if IsAllocatableOrPointer sym then .box shaped
    else shaped
  genLocation name := { source := name }
  getDummyProcedureType _ := .base "() -> ()"
  getCrayPointeeBoxType baseType := .box baseType
  getLowerToHighLevelFIR := false
  getCurrentLocation := { source := "host" }
  getSymbolExtendedValue sym symMap :=
    match symMap.find? (fun binding => decide (binding.1 = sym)) with
    | some binding => binding.2
    | none => .UnboxedValue (.external sym.name .null)

/-- A contiguous array of known shape, `integer :: z(10)`. -/
def z : Symbol :=
  .entity { name := "z", type := some .Numeric, rank := 1, simplyContiguous := true,
            lboundIsAllOnes := true, staticArray := true, staticLBound := [1] }

/-- The address of the variable `x` in the host. -/
def hostX : Value := .external "x" (.ref (.base "i32"))

/-- The value of the array `z` in the host: its address and its extent. -/
def hostZ : ExtendedValue :=
  .ArrayBoxValue (.external "z" (.ref (.seq [none] (.base "i32")))) [.constant .index 10] []

/-- The tuple of the host for the symbols `x` and `z`. -/
def hostTuple : Value :=
  .alloca (.tupleOf [.ref (.base "i32"), .box (.seq [none] (.base "i32"))])

/-- The address of the slot of `x` in the tuple. -/
def slotX : Value :=
  .coordinate_of (.llvmPtr (.ref (.base "i32"))) hostTuple (.constant .i32 0)

/-- The address of the slot of `z` in the tuple. -/
def slotZ : Value :=
  .coordinate_of (.ref (.box (.seq [none] (.base "i32")))) hostTuple (.constant .i32 1)

/-- A state of the host: `x` is at the address 1 and `z` at the address 3, the
slots of the tuple are at the addresses 2 and 4, and nothing is in memory. -/
def valuation : Valuation where
  leaf value :=
    if value = hostX then .address (some 1)
    else if value = slotX then .address (some 2)
    else if value = .external "z" (.ref (.seq [none] (.base "i32"))) then .address (some 3)
    else if value = slotZ then .address (some 4)
    else .undefined
  memory _ := .undefined

/-- An optional polymorphic scalar, `class(t), optional :: po`. -/
def po : Symbol :=
  .entity { name := "po", type := some (.Derived { name := "t", lenParameters := 0 }),
            polymorphic := true, optional := true }

/-- An optional assumed-shape array, `integer, optional :: v(:)`. -/
def v : Symbol :=
  .entity { name := "v", type := some .Numeric, rank := 1, optional := true,
            lboundIsAllOnes := true }

/-- An optional contiguous assumed-shape array,
`integer, optional, contiguous :: w(:)`. -/
def w : Symbol :=
  .entity { name := "w", type := some .Numeric, rank := 1, optional := true,
            simplyContiguous := true, lboundIsAllOnes := true }

/-- The value of the dummy argument `po` in the host: its box. -/
def hostPo : ExtendedValue := .UnboxedValue (.blockArgument 0 (.cls (.base "t")))

/-- The value of the dummy argument `v` in the host: its box. -/
def hostV : ExtendedValue :=
  .BoxValue (.blockArgument 1 (.box (.seq [none] (.base "i32")))) [] []

/-- The value of the dummy argument `w` in the host: its box. -/
def hostW : ExtendedValue :=
  .BoxValue (.blockArgument 2 (.box (.seq [none] (.base "i32")))) [] []

/-- The tuple of the host for the symbols `po`, `v` and `w`. -/
def optionalTuple : Value :=
  .alloca (.tupleOf [.cls (.base "t"), .box (.seq [none] (.base "i32")),
    .box (.seq [none] (.base "i32"))])

/-- The address of the slot of `po` in the tuple. -/
def slotPo : Value :=
  .coordinate_of (.ref (.cls (.base "t"))) optionalTuple (.constant .i32 0)

/-- The address of the slot of `v` in the tuple. -/
def slotV : Value :=
  .coordinate_of (.ref (.box (.seq [none] (.base "i32")))) optionalTuple (.constant .i32 1)

/-- The address of the slot of `w` in the tuple. -/
def slotW : Value :=
  .coordinate_of (.ref (.box (.seq [none] (.base "i32")))) optionalTuple (.constant .i32 2)

/-- A state of the host in which the three optional dummy arguments are
absent: their boxes are null handles; the slots of the tuple are at the
addresses 4, 6 and 8, and nothing is in memory. -/
def absentValuation : Valuation where
  leaf value :=
    if value = slotPo then .address (some 4)
    else if value = slotV then .address (some 6)
    else if value = slotW then .address (some 8)
    else match value with
      | .blockArgument _ _ => .box none
      | _ => .undefined
  memory _ := .undefined

/-- A contiguous array of known shape whose lower bound is not one,
`integer :: s(0:9)`. -/
def s : Symbol :=
  .entity { name := "s", type := some .Numeric, rank := 1, simplyContiguous := true,
            staticArray := true, staticLBound := [0] }

/-- The tuple argument of an internal procedure that captures `x` and `z`. -/
def tupleArg : Value :=
  .blockArgument 0 (.ref (.tupleOf [.ref (.base "i32"), .box (.seq [none] (.base "i32"))]))

/-- The host scope of the samples. -/
def hostScope : Scope := { name := "host" }

end Sample

/-! ## Theorems: the dispatcher -/

section Dispatcher

/-- The length parameter test holds exactly for a symbol whose declared type is
a derived type with a nonzero number of length parameters. -/
theorem isDerivedWithLenParameters_iff (sym : Symbol) :
    isDerivedWithLenParameters sym = true ↔
      ∃ derived, sym.GetType = some (DeclTypeSpec.Derived derived) ∧
        CountLenParameters derived ≠ 0 := by
  unfold isDerivedWithLenParameters
  cases hty : sym.GetType with
  | none => simp
  | some declTy =>
    cases declTy <;> simp [DeclTypeSpec.AsDerived]

/-- The shape analysis of a symbol answers yes to exactly one of: array,
character scalar (not array), trivial scalar. -/
theorem analyze_isTrivial (ba : BoxAnalyzer) (sym : Symbol) :
    (ba.analyze sym).isTrivial = (!(ba.analyze sym).isArray && !(ba.analyze sym).isChar) := by
  simp [BoxAnalyzer.analyze]

/-- C1. Classifier determinism. For every symbol, every visitor type (so for
GetTypeInTuple, InstantiateHostTuple and GetFromTuple alike) and every visitor
value, walkCaptureCategories is the call of visit on one class and one shape
analysis, the ones reported by the dispatch probe, which are a function of the
symbol alone: when the dispatcher fails, it fails the same way for every
visitor, and the class selected does not depend on the converter either. -/
theorem walkCaptureCategories_dispatch_deterministic
    (converter : AbstractConverter) (sym : Symbol) :
    (∀ (T : Type) [CapturedSymbols T] (visitor : T),
      walkCaptureCategories visitor converter sym =
        (walkCaptureCategories DispatchProbe.mk converter sym).bind
          (fun selected => CapturedSymbols.visit selected.1 visitor converter sym selected.2)) ∧
    (∀ converter2 : AbstractConverter,
      (walkCaptureCategories DispatchProbe.mk converter2 sym).toOption =
        (walkCaptureCategories DispatchProbe.mk converter sym).toOption) := by
  constructor
  · intro T _ visitor
    unfold walkCaptureCategories
    by_cases h0 : isDerivedWithLenParameters sym = true
    · simp [h0, Except.bind]
    · simp only [h0]
      by_cases h1 : IsProcedure sym = true
      · simp [h1, Except.bind, CapturedSymbols.visit]
      · by_cases h2 : (IsAllocatableOrPointer sym || sym.GetUltimate.test Flag.CrayPointee) = true
        · simp [h1, h2, Except.bind, CapturedSymbols.visit]
        · by_cases h3 : (BoxAnalyzer.analyze {} sym).isArray = true
          · simp [h1, h2, h3, Except.bind, CapturedSymbols.visit]
          · by_cases h4 : IsPolymorphic sym = true
            · simp [h1, h2, h3, h4, Except.bind, CapturedSymbols.visit]
            · by_cases h5 : (BoxAnalyzer.analyze {} sym).isChar = true
              · simp [h1, h2, h3, h4, h5, Except.bind, CapturedSymbols.visit]
              · by_cases h6 : (BoxAnalyzer.analyze {} sym).isTrivial = true
                · simp [h1, h2, h3, h4, h5, h6, Except.bind, CapturedSymbols.visit]
                · simp [h1, h2, h3, h4, h5, h6, Except.bind]
  · intro converter2
    unfold walkCaptureCategories
    by_cases h0 : isDerivedWithLenParameters sym = true
    · simp [h0, Except.toOption]
    · simp [h0, CapturedSymbols.visit]

/-- The dispatcher stops with the "not yet implemented" exit on a symbol with
length parameters, whatever the visitor. -/
theorem walk_lenParameters {T : Type} [CapturedSymbols T] (visitor : T)
    (converter : AbstractConverter) (sym : Symbol)
    (hlen : isDerivedWithLenParameters sym = true) :
    walkCaptureCategories visitor converter sym =
      .error (.todo (converter.genLocation sym.name)
        "host associated derived type with length parameters") := by
  simp [walkCaptureCategories, hlen]

/-- On a procedure without length parameters the dispatcher calls the visit of
CapturedProcedure with the analyzer on which no analysis has run. -/
theorem walk_procedure {T : Type} [CapturedSymbols T] (visitor : T)
    (converter : AbstractConverter) (sym : Symbol)
    (hlen : isDerivedWithLenParameters sym = false) (hproc : IsProcedure sym = true) :
    walkCaptureCategories visitor converter sym =
      CapturedSymbols.visit SymbolCategory.CapturedProcedure visitor converter sym {} := by
  simp [walkCaptureCategories, hlen, hproc]

/-- On a symbol that is not a procedure and has no length parameters the
dispatcher calls the visit of the class given by the decision order of the
specification, with the shape analysis of the symbol. -/
theorem walk_object {T : Type} [CapturedSymbols T] (visitor : T)
    (converter : AbstractConverter) (sym : Symbol)
    (hlen : isDerivedWithLenParameters sym = false) (hproc : IsProcedure sym = false) :
    walkCaptureCategories visitor converter sym =
      CapturedSymbols.visit (specDecisionOrder sym) visitor converter sym
        (BoxAnalyzer.analyze {} sym) := by
  unfold walkCaptureCategories specDecisionOrder
  simp only [hlen, hproc, Bool.false_eq_true, if_false]
  by_cases h2 : sym.details.allocatable = true ∨ sym.details.pointer = true ∨
      Flag.CrayPointee ∈ sym.GetUltimate.details.flags
  · have h2b : (IsAllocatableOrPointer sym || sym.GetUltimate.test Flag.CrayPointee) = true := by
      simp only [IsAllocatableOrPointer, IsPointer, IsAllocatable, Symbol.test,
        Bool.or_eq_true, decide_eq_true_eq] at *
      tauto
    simp [h2, h2b]
  · have h2b : (IsAllocatableOrPointer sym || sym.GetUltimate.test Flag.CrayPointee) = false := by
      simp only [not_or, Bool.not_eq_true] at h2
      simp [IsAllocatableOrPointer, IsPointer, IsAllocatable, Symbol.test, h2]
    simp only [h2, h2b, Bool.false_eq_true, if_false]
    by_cases h3 : 0 < sym.details.rank ∨ sym.details.assumedRank = true
    · have h3b : (BoxAnalyzer.analyze {} sym).isArray = true := by
        simpa [BoxAnalyzer.analyze, Symbol.Rank, IsAssumedRank] using h3
      simp [h3, h3b]
    · have h3b : (BoxAnalyzer.analyze {} sym).isArray = false := by
        rw [← Bool.not_eq_true]
        simpa [BoxAnalyzer.analyze, Symbol.Rank, IsAssumedRank] using h3
      simp only [h3, h3b, Bool.false_eq_true, if_false]
      by_cases h4 : sym.details.polymorphic = true
      · simp [h4, IsPolymorphic]
      · have h4b : IsPolymorphic sym = false := by simpa [IsPolymorphic] using h4
        simp only [h4, h4b, Bool.false_eq_true, if_false]
        by_cases h5 : sym.details.type = some DeclTypeSpec.Character
        · simp [h5, BoxAnalyzer.analyze, Symbol.GetType]
        · have h5b : (BoxAnalyzer.analyze {} sym).isChar = false := by
            simpa [BoxAnalyzer.analyze, Symbol.GetType] using h5
          have h6 : (BoxAnalyzer.analyze {} sym).isTrivial = true := by
            rw [analyze_isTrivial, h3b, h5b]; rfl
          simp [h5, h5b, h6]

/-- C2. A symbol whose declared type is a derived type with a nonzero number of
length parameters makes walkCaptureCategories stop with the "not yet
implemented" exit for every visitor (type build, marshal in, marshal out), and
the dispatch probe reports no class; a symbol with no declared type, with a
type that is not derived, or with a derived type without length parameters
passes the check: a class is selected and visited. -/
theorem walkCaptureCategories_len_parameters_check
    (converter : AbstractConverter) (sym : Symbol) :
    ((∃ derived, sym.GetType = some (DeclTypeSpec.Derived derived) ∧
        CountLenParameters derived ≠ 0) →
      (∀ (T : Type) [CapturedSymbols T] (visitor : T),
        walkCaptureCategories visitor converter sym =
          .error (.todo (converter.genLocation sym.name)
            "host associated derived type with length parameters")) ∧
      ∀ selected, walkCaptureCategories DispatchProbe.mk converter sym ≠ .ok selected) ∧
    ((sym.GetType = none ∨
        (∃ declTy, sym.GetType = some declTy ∧ declTy.AsDerived = none) ∨
        (∃ derived, sym.GetType = some (DeclTypeSpec.Derived derived) ∧
          CountLenParameters derived = 0)) →
      isDerivedWithLenParameters sym = false ∧
      ∃ category ba, ∀ (T : Type) [CapturedSymbols T] (visitor : T),
        walkCaptureCategories visitor converter sym =
          CapturedSymbols.visit category visitor converter sym ba) := by
  constructor
  · intro hderived
    have hlen : isDerivedWithLenParameters sym = true :=
      (isDerivedWithLenParameters_iff sym).mpr hderived
    refine ⟨fun T _ visitor => walk_lenParameters visitor converter sym hlen, ?_⟩
    intro selected
    rw [walk_lenParameters DispatchProbe.mk converter sym hlen]
    simp
  · intro hplain
    have hlen : isDerivedWithLenParameters sym = false := by
      rw [← Bool.not_eq_true, isDerivedWithLenParameters_iff]
      rintro ⟨derived, hty, hcount⟩
      rcases hplain with hnone | ⟨declTy, hty2, hnot⟩ | ⟨derived2, hty2, hzero⟩
      · rw [hnone] at hty; cases hty
      · rw [hty2] at hty
        injection hty with hty
        subst hty
        simp [DeclTypeSpec.AsDerived] at hnot
      · rw [hty2] at hty
        injection hty with hty
        injection hty with hty
        subst hty
        exact hcount hzero
    refine ⟨hlen, ?_⟩
    by_cases hproc : IsProcedure sym = true
    · exact ⟨.CapturedProcedure, {}, fun T _ visitor =>
        walk_procedure visitor converter sym hlen hproc⟩
    · have hproc2 : IsProcedure sym = false := by simpa using hproc
      exact ⟨specDecisionOrder sym, BoxAnalyzer.analyze {} sym, fun T _ visitor =>
        walk_object visitor converter sym hlen hproc2⟩

/-- Witness for C2: the entity `d` of a derived type with one length parameter
stops the type build with the exit, and the integer `x` passes the check. -/
theorem walkCaptureCategories_len_parameters_check_witness :
    walkCaptureCategories GetTypeInTuple.mk Sample.converter Sample.d =
        .error (.todo { source := "d" }
          "host associated derived type with length parameters") ∧
      isDerivedWithLenParameters Sample.x = false :=
  ⟨((walkCaptureCategories_len_parameters_check Sample.converter Sample.d).1
      ⟨{ name := "pdt", lenParameters := 1 }, rfl, by decide⟩).1 GetTypeInTuple
      GetTypeInTuple.mk,
    ((walkCaptureCategories_len_parameters_check Sample.converter Sample.x).2
      (Or.inr (Or.inl ⟨.Numeric, rfl, rfl⟩))).1⟩

/-- C3. A procedure without length parameters is dispatched to
CapturedProcedure with the analyzer on which no analysis has run, for every
visitor and whatever its other attributes are; in particular a procedure
pointer is dispatched to CapturedProcedure and not to
CapturedAllocatableAndPointer, and its slot type is a reference to its
function type. -/
theorem walkCaptureCategories_procedure (converter : AbstractConverter) (sym : Symbol)
    (hproc : IsProcedure sym = true) (hlen : isDerivedWithLenParameters sym = false) :
    (∀ (T : Type) [CapturedSymbols T] (visitor : T),
      walkCaptureCategories visitor converter sym =
        CapturedSymbols.visit SymbolCategory.CapturedProcedure visitor converter sym {}) ∧
    walkCaptureCategories DispatchProbe.mk converter sym =
      .ok (SymbolCategory.CapturedProcedure, {}) ∧
    (IsPointer sym = true →
      walkCaptureCategories GetTypeInTuple.mk converter sym =
        .ok (.ref (converter.getDummyProcedureType sym))) := by
  refine ⟨fun T _ visitor => walk_procedure visitor converter sym hlen hproc, ?_, ?_⟩
  · rw [walk_procedure DispatchProbe.mk converter sym hlen hproc]
    rfl
  · intro hptr
    rw [walk_procedure GetTypeInTuple.mk converter sym hlen hproc]
    simp [CapturedSymbols.visit, SymbolCategory.getType, CapturedProcedure.getType, hptr]

/-- Witness for C3: the procedure pointer `fp`. -/
theorem walkCaptureCategories_procedure_witness :
    IsProcedure Sample.fp = true ∧ IsPointer Sample.fp = true ∧
      walkCaptureCategories DispatchProbe.mk Sample.converter Sample.fp =
        .ok (SymbolCategory.CapturedProcedure, {}) :=
  ⟨rfl, rfl, (walkCaptureCategories_procedure Sample.converter Sample.fp rfl rfl).2.1⟩

/-- C4. A symbol that is not a procedure and has no length parameters is
dispatched, for every visitor, to the first match of: allocatable, pointer or
Cray pointee (on the ultimate symbol) gives CapturedAllocatableAndPointer;
array shape (rank > 0 or assumed rank) gives CapturedArrays; polymorphic gives
CapturedPolymorphicScalar; character gives CapturedCharacterScalars; otherwise
CapturedSimpleScalars. Hence an allocatable or pointer entity is dispatched to
CapturedAllocatableAndPointer also when it is an array, a character or
polymorphic, and a polymorphic array that is not allocatable, pointer or Cray
pointee is dispatched to CapturedArrays. -/
theorem walkCaptureCategories_decision_order (converter : AbstractConverter)
    (sym : Symbol) (hproc : IsProcedure sym = false)
    (hlen : isDerivedWithLenParameters sym = false) :
    (∀ (T : Type) [CapturedSymbols T] (visitor : T),
      walkCaptureCategories visitor converter sym =
        CapturedSymbols.visit (specDecisionOrder sym) visitor converter sym
          (BoxAnalyzer.analyze {} sym)) ∧
    walkCaptureCategories DispatchProbe.mk converter sym =
      .ok (specDecisionOrder sym, BoxAnalyzer.analyze {} sym) ∧
    (IsAllocatableOrPointer sym = true →
      walkCaptureCategories DispatchProbe.mk converter sym =
        .ok (SymbolCategory.CapturedAllocatableAndPointer, BoxAnalyzer.analyze {} sym)) ∧
    (IsAllocatableOrPointer sym = false →
      sym.GetUltimate.test Flag.CrayPointee = false →
      IsPolymorphic sym = true → (0 < sym.Rank ∨ IsAssumedRank sym = true) →
      walkCaptureCategories DispatchProbe.mk converter sym =
        .ok (SymbolCategory.CapturedArrays, BoxAnalyzer.analyze {} sym)) := by
  have hprobe : walkCaptureCategories DispatchProbe.mk converter sym =
      .ok (specDecisionOrder sym, BoxAnalyzer.analyze {} sym) := by
    rw [walk_object DispatchProbe.mk converter sym hlen hproc]
    rfl
  refine ⟨fun T _ visitor => walk_object visitor converter sym hlen hproc, hprobe, ?_, ?_⟩
  · intro halloc
    rw [hprobe]
    have : sym.details.allocatable = true ∨ sym.details.pointer = true ∨
        Flag.CrayPointee ∈ sym.GetUltimate.details.flags := by
      simp only [IsAllocatableOrPointer, IsPointer, IsAllocatable, Bool.or_eq_true] at halloc
      tauto
    simp [specDecisionOrder, this]
  · intro halloc hcray hpoly hshape
    rw [hprobe]
    have h1 : ¬ (sym.details.allocatable = true ∨ sym.details.pointer = true ∨
        Flag.CrayPointee ∈ sym.GetUltimate.details.flags) := by
      simp only [IsAllocatableOrPointer, IsPointer, IsAllocatable, Bool.or_eq_false_iff]
        at halloc
      simp only [Symbol.test, decide_eq_false_iff_not] at hcray
      simp [halloc.1, halloc.2, hcray]
    have h2 : 0 < sym.details.rank ∨ sym.details.assumedRank = true := by
      simpa [Symbol.Rank, IsAssumedRank] using hshape
    simp [specDecisionOrder, h1, h2]

/-- Witness for C4: the allocatable character array `a` is dispatched to
CapturedAllocatableAndPointer. -/
theorem walkCaptureCategories_decision_order_witness :
    IsProcedure Sample.a = false ∧ isDerivedWithLenParameters Sample.a = false ∧
      walkCaptureCategories DispatchProbe.mk Sample.converter Sample.a =
        .ok (SymbolCategory.CapturedAllocatableAndPointer,
          { isTrivial := false, isChar := true, isArray := true }) :=
  ⟨rfl, rfl,
    (walkCaptureCategories_decision_order Sample.converter Sample.a rfl rfl).2.2.1 rfl⟩

/-- The six sample symbols `x`, `f`, `c`, `p`, `a`, `y` are dispatched to the
six classes, one each. -/
theorem sample_dispatch (category : SymbolCategory) :
    ∃ sym ba, isDerivedWithLenParameters sym = false ∧
      ∀ converter : AbstractConverter,
        walkCaptureCategories DispatchProbe.mk converter sym = .ok (category, ba) := by
  cases category
  · exact ⟨Sample.x, _, rfl, fun _ => rfl⟩
  · exact ⟨Sample.f, _, rfl, fun _ => rfl⟩
  · exact ⟨Sample.c, _, rfl, fun _ => rfl⟩
  · exact ⟨Sample.p, _, rfl, fun _ => rfl⟩
  · exact ⟨Sample.a, _, rfl, fun _ => rfl⟩
  · exact ⟨Sample.y, _, rfl, fun _ => rfl⟩

/-- A symbol without length parameters is dispatched to a class. -/
theorem probe_ok (converter : AbstractConverter) (sym : Symbol)
    (hlen : isDerivedWithLenParameters sym = false) :
    ∃ category ba,
      walkCaptureCategories DispatchProbe.mk converter sym = .ok (category, ba) := by
  by_cases hproc : IsProcedure sym = true
  · exact ⟨.CapturedProcedure, {}, by
      rw [walk_procedure DispatchProbe.mk converter sym hlen hproc]; rfl⟩
  · have hproc2 : IsProcedure sym = false := by simpa using hproc
    exact ⟨specDecisionOrder sym, BoxAnalyzer.analyze {} sym, by
      rw [walk_object DispatchProbe.mk converter sym hlen hproc2]; rfl⟩

/-- C5, as stated, fails: no set of five classes holds every class that
walkCaptureCategories dispatches to, since the sample symbols `x`, `f`, `c`,
`p`, `a` and `y` reach six different classes. -/
theorem five_strategies_counterexample :
    ¬ ∃ strategies : Finset SymbolCategory, strategies.card = 5 ∧
      ∀ (sym : Symbol) (converter : AbstractConverter) (category : SymbolCategory)
        (ba : BoxAnalyzer),
        walkCaptureCategories DispatchProbe.mk converter sym = .ok (category, ba) →
          category ∈ strategies := by
  rintro ⟨strategies, hcard, hall⟩
  have huniv : strategies = Finset.univ := by
    apply Finset.eq_univ_of_forall
    intro category
    obtain ⟨sym, ba, _, hsym⟩ := sample_dispatch category
    exact hall sym Sample.converter category ba (hsym Sample.converter)
  rw [huniv] at hcard
  revert hcard
  decide

/-- C5, amended. The classes that walkCaptureCategories can dispatch to are
exactly six (CapturedSimpleScalars, CapturedProcedure, CapturedCharacterScalars,
CapturedPolymorphicScalar, CapturedAllocatableAndPointer, CapturedArrays): each
of the six is reached by some symbol, and every symbol that passes the length
parameter check is dispatched to exactly one of them. -/
theorem walkCaptureCategories_six_strategies :
    Fintype.card SymbolCategory = 6 ∧
    (∀ category : SymbolCategory, ∃ sym ba, isDerivedWithLenParameters sym = false ∧
      ∀ converter : AbstractConverter,
        walkCaptureCategories DispatchProbe.mk converter sym = .ok (category, ba)) ∧
    (∀ (sym : Symbol) (converter : AbstractConverter),
      isDerivedWithLenParameters sym = false →
      ∃! category : SymbolCategory, ∃ ba,
        walkCaptureCategories DispatchProbe.mk converter sym = .ok (category, ba)) := by
  refine ⟨by decide, sample_dispatch, ?_⟩
  intro sym converter hlen
  obtain ⟨category, ba, hsel⟩ := probe_ok converter sym hlen
  refine ⟨category, ⟨ba, hsel⟩, ?_⟩
  rintro other ⟨ba2, hother⟩
  rw [hsel] at hother
  injection hother with hother
  injection hother with hother
  exact hother.symm

/-- Witness for C5: the integer scalar `x` passes the check and is dispatched
to exactly one class. -/
theorem walkCaptureCategories_six_strategies_witness :
    isDerivedWithLenParameters Sample.x = false ∧
      ∃! category : SymbolCategory, ∃ ba,
        walkCaptureCategories DispatchProbe.mk Sample.converter Sample.x =
          .ok (category, ba) :=
  ⟨rfl, walkCaptureCategories_six_strategies.2.2 Sample.x Sample.converter rfl⟩

end Dispatcher

/-! ## Theorems: populating the host association instance -/

section Populate

open HostAssociations

/-- Membership in a set vector after an insertion. -/
theorem SetVector.mem_insert {α : Type} [DecidableEq α] (set : SetVector α) (x y : α) :
    y ∈ SetVector.insert set x ↔ y ∈ set ∨ y = x := by
  unfold SetVector.insert
  by_cases hx : x ∈ set
  · simp only [hx, if_true]
    constructor
    · exact Or.inl
    · rintro (h | h)
      · exact h
      · rw [h]; exact hx
  · simp [hx]

/-- The symbols of the tupled set after the loop of addSymbolsToBind. -/
theorem mem_tupleSymbols_foldl (symbols : List Symbol) (self : HostAssociations)
    (t : Symbol) :
    t ∈ (symbols.foldl addSymbolsToBind.step self).tupleSymbols ↔
      t ∈ self.tupleSymbols ∨
        (t ∈ symbols ∧ (symbolIsGlobal t || t.test Flag.OmpThreadprivate) = false) := by
  induction symbols generalizing self with
  | nil => simp
  | cons s rest ih =>
    rw [List.foldl_cons, ih]
    unfold addSymbolsToBind.step
    by_cases hs : (symbolIsGlobal s || s.test Flag.OmpThreadprivate) = true
    · simp only [hs, if_true, List.mem_cons]
      constructor
      · rintro (h | ⟨h, hg⟩)
        · exact Or.inl h
        · exact Or.inr ⟨Or.inr h, hg⟩
      · rintro (h | ⟨h | h, hg⟩)
        · exact Or.inl h
        · rw [h, hs] at hg; cases hg
        · exact Or.inr ⟨h, hg⟩
    · have hs2 : (symbolIsGlobal s || s.test Flag.OmpThreadprivate) = false := by
        simpa using hs
      simp only [hs2, Bool.false_eq_true, if_false, List.mem_cons, SetVector.mem_insert]
      constructor
      · rintro ((h | h) | ⟨h, hg⟩)
        · exact Or.inl h
        · exact Or.inr ⟨Or.inl h, by rw [h]; exact hs2⟩
        · exact Or.inr ⟨Or.inr h, hg⟩
      · rintro (h | ⟨h | h, hg⟩)
        · exact Or.inl (Or.inl h)
        · exact Or.inl (Or.inr h)
        · exact Or.inr ⟨h, hg⟩

/-- The symbols of the global set after the loop of addSymbolsToBind. -/
theorem mem_globalSymbols_foldl (symbols : List Symbol) (self : HostAssociations)
    (u : Symbol) :
    u ∈ (symbols.foldl addSymbolsToBind.step self).globalSymbols ↔
      u ∈ self.globalSymbols ∨
        ∃ s, s ∈ symbols ∧ (symbolIsGlobal s || s.test Flag.OmpThreadprivate) = true ∧
          s.GetUltimate = u := by
  induction symbols generalizing self with
  | nil => simp
  | cons s rest ih =>
    rw [List.foldl_cons, ih]
    unfold addSymbolsToBind.step
    by_cases hs : (symbolIsGlobal s || s.test Flag.OmpThreadprivate) = true
    · simp only [hs, if_true, List.mem_cons, SetVector.mem_insert]
      constructor
      · rintro ((h | h) | ⟨s2, h, hg, hu⟩)
        · exact Or.inl h
        · exact Or.inr ⟨s, Or.inl rfl, hs, h.symm⟩
        · exact Or.inr ⟨s2, Or.inr h, hg, hu⟩
      · rintro (h | ⟨s2, h | h, hg, hu⟩)
        · exact Or.inl (Or.inl h)
        · rw [h] at hu; exact Or.inl (Or.inr hu.symm)
        · exact Or.inr ⟨s2, h, hg, hu⟩
    · have hs2 : (symbolIsGlobal s || s.test Flag.OmpThreadprivate) = false := by
        simpa using hs
      simp only [hs2, Bool.false_eq_true, if_false, List.mem_cons]
      constructor
      · rintro (h | ⟨s2, h, hg, hu⟩)
        · exact Or.inl h
        · exact Or.inr ⟨s2, Or.inr h, hg, hu⟩
      · rintro (h | ⟨s2, h | h, hg, hu⟩)
        · exact Or.inl h
        · rw [h, hs2] at hg; cases hg
        · exact Or.inr ⟨s2, h, hg, hu⟩

/-- The loop of addSymbolsToBind leaves the cached argument type alone. -/
theorem argType_foldl (symbols : List Symbol) (self : HostAssociations) :
    (symbols.foldl addSymbolsToBind.step self).argType = self.argType := by
  induction symbols generalizing self with
  | nil => rfl
  | cons s rest ih =>
    rw [List.foldl_cons, ih]
    unfold addSymbolsToBind.step
    split <;> rfl

/-- On an instance with empty sets addSymbolsToBind passes its assertion and
returns the instance left by its loop. -/
theorem addSymbolsToBind_ok (self : HostAssociations) (symbols : SetVector Symbol)
    (hostScope : Scope) (htuple : self.tupleSymbols = []) (hglobal : self.globalSymbols = []) :
    self.addSymbolsToBind symbols hostScope =
      .ok (symbols.foldl addSymbolsToBind.step { self with hostScope := some hostScope }) := by
  simp [addSymbolsToBind, SetVector.empty, htuple, hglobal]

/-- On an instance with a symbol in one of its sets addSymbolsToBind fails its
assertion. -/
theorem addSymbolsToBind_assertion (self : HostAssociations) (symbols : SetVector Symbol)
    (hostScope : Scope) (hne : self.tupleSymbols ≠ [] ∨ self.globalSymbols ≠ []) :
    self.addSymbolsToBind symbols hostScope =
      .error (.assertion "must be initially empty") := by
  have : (SetVector.empty self.tupleSymbols && SetVector.empty self.globalSymbols) = false := by
    rcases hne with h | h
    · cases hl : self.tupleSymbols with
      | nil => exact absurd hl h
      | cons _ _ => simp [SetVector.empty]
    · cases hl : self.globalSymbols with
      | nil => exact absurd hl h
      | cons _ _ => simp [SetVector.empty]
  simp [addSymbolsToBind, this]

/-- When addSymbolsToBind returns, its assertion held and the instance returned
is the one left by its loop. -/
theorem addSymbolsToBind_eq_ok (self : HostAssociations) (symbols : SetVector Symbol)
    (hostScope : Scope) (result : HostAssociations)
    (hok : self.addSymbolsToBind symbols hostScope = .ok result) :
    self.tupleSymbols = [] ∧ self.globalSymbols = [] ∧
      result = symbols.foldl addSymbolsToBind.step { self with hostScope := some hostScope } := by
  by_cases hne : self.tupleSymbols ≠ [] ∨ self.globalSymbols ≠ []
  · rw [addSymbolsToBind_assertion self symbols hostScope hne] at hok
    cases hok
  · have htuple : self.tupleSymbols = [] := by
      by_contra h; exact hne (Or.inl h)
    have hglobal : self.globalSymbols = [] := by
      by_contra h; exact hne (Or.inr h)
    rw [addSymbolsToBind_ok self symbols hostScope htuple hglobal] at hok
    injection hok with hok
    exact ⟨htuple, hglobal, hok.symm⟩

/-- C6. On an instance with empty sets, addSymbolsToBind returns and partitions
its input: for an input symbol that is global or carries the OmpThreadprivate
flag, its ultimate symbol is in the global set and the symbol is not in the
tupled set; any other input symbol is in the tupled set; the tupled set holds
only input symbols of the second kind, and the global set only ultimate
symbols of input symbols of the first kind. -/
theorem addSymbolsToBind_partitions (self : HostAssociations)
    (symbols : SetVector Symbol) (hostScope : Scope)
    (htuple : self.tupleSymbols = []) (hglobal : self.globalSymbols = []) :
    ∃ result, self.addSymbolsToBind symbols hostScope = .ok result ∧
      (∀ s ∈ symbols, (symbolIsGlobal s || s.test Flag.OmpThreadprivate) = true →
        s.GetUltimate ∈ result.globalSymbols ∧ s ∉ result.tupleSymbols) ∧
      (∀ s ∈ symbols, (symbolIsGlobal s || s.test Flag.OmpThreadprivate) = false →
        s ∈ result.tupleSymbols) ∧
      (∀ t ∈ result.tupleSymbols,
        t ∈ symbols ∧ (symbolIsGlobal t || t.test Flag.OmpThreadprivate) = false) ∧
      (∀ u ∈ result.globalSymbols, ∃ s, s ∈ symbols ∧
        (symbolIsGlobal s || s.test Flag.OmpThreadprivate) = true ∧ s.GetUltimate = u) := by
  refine ⟨_, addSymbolsToBind_ok self symbols hostScope htuple hglobal, ?_, ?_, ?_, ?_⟩
  · intro s hs hg
    constructor
    · rw [mem_globalSymbols_foldl]
      exact Or.inr ⟨s, hs, hg, rfl⟩
    · rw [mem_tupleSymbols_foldl]
      rintro (h | ⟨_, h⟩)
      · simp [htuple] at h
      · rw [hg] at h; cases h
  · intro s hs hg
    rw [mem_tupleSymbols_foldl]
    exact Or.inr ⟨hs, hg⟩
  · intro t ht
    rw [mem_tupleSymbols_foldl] at ht
    rcases ht with h | h
    · simp [htuple] at h
    · exact h
  · intro u hu
    rw [mem_globalSymbols_foldl] at hu
    rcases hu with h | h
    · simp [hglobal] at h
    · exact h

/-- Witness for C6: the local `x`, the saved `g` and the array `y` are
partitioned into the tupled set `x`, `y` and the global set `g`. -/
theorem addSymbolsToBind_partitions_witness :
    ∃ result, ({} : HostAssociations).addSymbolsToBind
        [Sample.x, Sample.g, Sample.y] Sample.hostScope = .ok result ∧
      Sample.g ∈ result.globalSymbols ∧ Sample.x ∈ result.tupleSymbols := by
  obtain ⟨result, hok, hglobals, htuples, _, _⟩ :=
    addSymbolsToBind_partitions {} [Sample.x, Sample.g, Sample.y] Sample.hostScope rfl rfl
  exact ⟨result, hok, (hglobals Sample.g (by simp) rfl).1, htuples Sample.x (by simp) rfl⟩

/-- C7, as stated, fails: populated with the local `x` and with a symbol that is
associated with `x` and flagged OmpThreadprivate, the instance has `x` in its
tupled set and in its global set. -/
theorem disjoint_sets_counterexample :
    ∃ result, ({} : HostAssociations).addSymbolsToBind
        [Sample.x, Sample.xThreadprivate] Sample.hostScope = .ok result ∧
      Sample.x ∈ result.tupleSymbols ∧ Sample.x ∈ result.globalSymbols ∧
      ¬ List.Disjoint result.tupleSymbols result.globalSymbols := by
  refine ⟨{ tupleSymbols := [Sample.x], globalSymbols := [Sample.x],
            hostScope := some Sample.hostScope }, by rfl, by simp, by simp, ?_⟩
  simp [List.Disjoint]

/-- C7, amended. After addSymbolsToBind the tupled set and the global set are
disjoint exactly when no input symbol that is global or flagged
OmpThreadprivate has as its ultimate symbol an input symbol that is neither;
in particular they are disjoint whenever every input symbol is its own
ultimate symbol. -/
theorem addSymbolsToBind_disjoint (self : HostAssociations)
    (symbols : SetVector Symbol) (hostScope : Scope) (result : HostAssociations)
    (hok : self.addSymbolsToBind symbols hostScope = .ok result) :
    (List.Disjoint result.tupleSymbols result.globalSymbols ↔
      ∀ s ∈ symbols, (symbolIsGlobal s || s.test Flag.OmpThreadprivate) = true →
        ∀ t ∈ symbols, (symbolIsGlobal t || t.test Flag.OmpThreadprivate) = false →
          s.GetUltimate ≠ t) ∧
    ((∀ s ∈ symbols, s.GetUltimate = s) →
      List.Disjoint result.tupleSymbols result.globalSymbols) := by
  obtain ⟨htuple, hglobal, hres⟩ := addSymbolsToBind_eq_ok self symbols hostScope result hok
  have hiff : List.Disjoint result.tupleSymbols result.globalSymbols ↔
      ∀ s ∈ symbols, (symbolIsGlobal s || s.test Flag.OmpThreadprivate) = true →
        ∀ t ∈ symbols, (symbolIsGlobal t || t.test Flag.OmpThreadprivate) = false →
          s.GetUltimate ≠ t := by
    subst hres
    constructor
    · intro hdisj s hs hg t ht hgt heq
      apply hdisj (a := t)
      · rw [mem_tupleSymbols_foldl]; exact Or.inr ⟨ht, hgt⟩
      · rw [mem_globalSymbols_foldl]; exact Or.inr ⟨s, hs, hg, heq⟩
    · intro hcond t ht hu
      rw [mem_tupleSymbols_foldl] at ht
      rw [mem_globalSymbols_foldl] at hu
      rcases ht with ht | ⟨ht, hgt⟩
      · simp [htuple] at ht
      · rcases hu with hu | ⟨s, hs, hg, heq⟩
        · simp [hglobal] at hu
        · exact hcond s hs hg t ht hgt heq
  refine ⟨hiff, fun hult => hiff.mpr ?_⟩
  intro s hs hg t ht hgt heq
  rw [hult s hs] at heq
  rw [heq, hgt] at hg
  cases hg

/-- Witness for C7: populated with `x`, `g` and `y`, which are their own
ultimate symbols, the instance has disjoint sets. -/
theorem addSymbolsToBind_disjoint_witness :
    ({} : HostAssociations).addSymbolsToBind
        [Sample.x, Sample.g, Sample.y] Sample.hostScope =
      .ok { tupleSymbols := [Sample.x, Sample.y], globalSymbols := [Sample.g],
            hostScope := some Sample.hostScope } ∧
    (∀ s ∈ [Sample.x, Sample.g, Sample.y], s.GetUltimate = s) ∧
    List.Disjoint ([Sample.x, Sample.y] : List Symbol) ([Sample.g] : List Symbol) :=
  ⟨rfl, by decide,
    (addSymbolsToBind_disjoint {} [Sample.x, Sample.g, Sample.y] Sample.hostScope
      { tupleSymbols := [Sample.x, Sample.y], globalSymbols := [Sample.g],
        hostScope := some Sample.hostScope } rfl).2 (by decide)⟩

/-- The loop of addSymbolsToBind leaves both sets empty only for an empty
input. -/
theorem foldl_sets_empty (symbols : List Symbol) (self : HostAssociations)
    (htuple : self.tupleSymbols = []) (hglobal : self.globalSymbols = []) :
    ((symbols.foldl addSymbolsToBind.step self).tupleSymbols = [] ∧
      (symbols.foldl addSymbolsToBind.step self).globalSymbols = []) ↔ symbols = [] := by
  constructor
  · rintro ⟨ht, hg⟩
    cases symbols with
    | nil => rfl
    | cons s rest =>
      exfalso
      by_cases hs : (symbolIsGlobal s || s.test Flag.OmpThreadprivate) = true
      · have hmem : s.GetUltimate ∈
            ((s :: rest).foldl addSymbolsToBind.step self).globalSymbols := by
          rw [mem_globalSymbols_foldl]
          exact Or.inr ⟨s, List.mem_cons_self s rest, hs, rfl⟩
        rw [hg] at hmem
        cases hmem
      · have hs2 : (symbolIsGlobal s || s.test Flag.OmpThreadprivate) = false := by
          simpa using hs
        have hmem : s ∈ ((s :: rest).foldl addSymbolsToBind.step self).tupleSymbols := by
          rw [mem_tupleSymbols_foldl]
          exact Or.inr ⟨List.mem_cons_self s rest, hs2⟩
        rw [ht] at hmem
        cases hmem
  · intro hnil
    subst hnil
    exact ⟨htuple, hglobal⟩

/-- C8, as stated, fails: after a first call with an empty input set, a second
call of addSymbolsToBind on the same instance passes the assertion and
populates the instance. -/
theorem second_populate_counterexample :
    ∃ first, ({} : HostAssociations).addSymbolsToBind [] Sample.hostScope = .ok first ∧
      first.addSymbolsToBind [Sample.x] Sample.hostScope =
        .ok { tupleSymbols := [Sample.x], hostScope := some Sample.hostScope } :=
  ⟨{ hostScope := some Sample.hostScope }, rfl, rfl⟩

/-- C8, amended. addSymbolsToBind fails the "must be initially empty" assertion
on an instance whose tupled or global set holds a symbol; so after a first
call that returned, a second call on the same instance fails the assertion
exactly when the input set of the first call was not empty. -/
theorem addSymbolsToBind_twice (self first : HostAssociations)
    (symbols1 symbols2 : SetVector Symbol) (hostScope1 hostScope2 : Scope)
    (hok : self.addSymbolsToBind symbols1 hostScope1 = .ok first) :
    first.addSymbolsToBind symbols2 hostScope2 =
        .error (.assertion "must be initially empty") ↔ symbols1 ≠ [] := by
  obtain ⟨htuple, hglobal, hres⟩ :=
    addSymbolsToBind_eq_ok self symbols1 hostScope1 first hok
  have hempty := foldl_sets_empty symbols1 { self with hostScope := some hostScope1 }
    htuple hglobal
  rw [← hres] at hempty
  constructor
  · intro herr hnil
    obtain ⟨ht, hg⟩ := hempty.mpr hnil
    rw [addSymbolsToBind_ok first symbols2 hostScope2 ht hg] at herr
    cases herr
  · intro hne
    apply addSymbolsToBind_assertion
    by_contra hnot
    apply hne
    apply hempty.mp
    constructor
    · by_contra h; exact hnot (Or.inl h)
    · by_contra h; exact hnot (Or.inr h)

/-- Witness for C8: after a first call with the input `x`, the second call
fails the assertion. -/
theorem addSymbolsToBind_twice_witness :
    ({} : HostAssociations).addSymbolsToBind [Sample.x] Sample.hostScope =
        .ok { tupleSymbols := [Sample.x], hostScope := some Sample.hostScope } ∧
      ({ tupleSymbols := [Sample.x], hostScope := some Sample.hostScope } :
          HostAssociations).addSymbolsToBind [Sample.y] Sample.hostScope =
        .error (.assertion "must be initially empty") :=
  ⟨rfl, (addSymbolsToBind_twice {} _ [Sample.x] [Sample.y] Sample.hostScope
    Sample.hostScope rfl).mpr (by simp)⟩

end Populate

/-! ## Theorems: the argument type -/

section ArgumentType

open HostAssociations

/-- The loop of getArgumentType returns no types when one of its symbols has
length parameters. -/
theorem getArgumentType_walk_error (converter : AbstractConverter) (symbols : List Symbol)
    (tupleTys : List MlirType) (walked : List Symbol)
    (hlen : ∃ s, s ∈ symbols ∧ isDerivedWithLenParameters s = true) :
    ∃ failure, getArgumentType.walk converter symbols tupleTys walked = .error failure := by
  induction symbols generalizing tupleTys walked with
  | nil =>
    obtain ⟨s, hs, _⟩ := hlen
    cases hs
  | cons sym rest ih =>
    unfold getArgumentType.walk
    cases hwalk : walkCaptureCategories GetTypeInTuple.mk converter sym with
    | error failure => exact ⟨failure, rfl⟩
    | ok ty =>
      obtain ⟨s, hs, hs2⟩ := hlen
      rcases List.mem_cons.mp hs with heq | hrest
      · subst heq
        rw [walk_lenParameters GetTypeInTuple.mk converter s hs2] at hwalk
        cases hwalk
      · exact ih _ _ ⟨s, hrest, hs2⟩

/-- When the loop of getArgumentType returns, it has run walkCaptureCategories
on each of its symbols, in order, once. -/
theorem getArgumentType_walk_walked (converter : AbstractConverter) (symbols : List Symbol)
    (tupleTys : List MlirType) (walked : List Symbol)
    (resultTys : List MlirType) (resultWalked : List Symbol)
    (hok : getArgumentType.walk converter symbols tupleTys walked =
      .ok (resultTys, resultWalked)) :
    resultWalked = walked ++ symbols := by
  induction symbols generalizing tupleTys walked with
  | nil =>
    unfold getArgumentType.walk at hok
    injection hok with hok
    injection hok with _ hok
    simp [hok]
  | cons sym rest ih =>
    unfold getArgumentType.walk at hok
    cases hwalk : walkCaptureCategories GetTypeInTuple.mk converter sym with
    | error failure => rw [hwalk] at hok; cases hok
    | ok ty =>
      rw [hwalk] at hok
      rw [ih _ _ hok]
      simp

/-- C9, as stated, fails: populated with the entity `d` of a derived type with
one length parameter, addSymbolsToBind signals no failure and puts `d` in the
tupled set. -/
theorem populate_len_parameters_counterexample :
    isDerivedWithLenParameters Sample.d = true ∧
      ({} : HostAssociations).addSymbolsToBind [Sample.d] Sample.hostScope =
        .ok { tupleSymbols := [Sample.d], hostScope := some Sample.hostScope } :=
  ⟨rfl, rfl⟩

/-- C9, amended. addSymbolsToBind makes no length parameter check: on an
instance with empty sets it returns for every input set, and a symbol whose
type is a derived type with length parameters is put in the tupled set (or its
ultimate symbol in the global set, if it is global or flagged
OmpThreadprivate) like any other symbol. The failure is signalled later, by
the dispatcher: getArgumentType returns no type, for any converter, when the
tupled set holds such a symbol and no type is cached. -/
theorem addSymbolsToBind_no_len_parameters_check (self : HostAssociations)
    (symbols : SetVector Symbol) (hostScope : Scope)
    (htuple : self.tupleSymbols = []) (hglobal : self.globalSymbols = []) :
    ∃ result, self.addSymbolsToBind symbols hostScope = .ok result ∧
      (∀ s ∈ symbols, isDerivedWithLenParameters s = true →
        ((symbolIsGlobal s || s.test Flag.OmpThreadprivate) = true →
          s.GetUltimate ∈ result.globalSymbols) ∧
        ((symbolIsGlobal s || s.test Flag.OmpThreadprivate) = false →
          s ∈ result.tupleSymbols)) ∧
      (self.argType = MlirType.null →
        (∃ s, s ∈ result.tupleSymbols ∧ isDerivedWithLenParameters s = true) →
        ∀ converter : AbstractConverter,
          ∃ failure, result.getArgumentType converter = .error failure) := by
  refine ⟨_, addSymbolsToBind_ok self symbols hostScope htuple hglobal, ?_, ?_⟩
  · intro s hs _
    constructor
    · intro hg
      rw [mem_globalSymbols_foldl]
      exact Or.inr ⟨s, hs, hg, rfl⟩
    · intro hg
      rw [mem_tupleSymbols_foldl]
      exact Or.inr ⟨hs, hg⟩
  · intro hnull hlen converter
    generalize hres :
      symbols.foldl addSymbolsToBind.step { self with hostScope := some hostScope } = result
      at hlen
    have harg : result.argType = MlirType.null := by
      rw [← hres, argType_foldl]
      exact hnull
    have hne : result.tupleSymbols.empty = false := by
      obtain ⟨s, hs, _⟩ := hlen
      cases hl : result.tupleSymbols with
      | nil => rw [hl] at hs; cases hs
      | cons _ _ => rfl
    obtain ⟨failure, hfail⟩ :=
      getArgumentType_walk_error converter result.tupleSymbols [] [] hlen
    refine ⟨failure, ?_⟩
    simp [getArgumentType, hne, harg, MlirType.isSet, hfail]

/-- Witness for C9: populated with `x` and `d`, the instance holds `d` in its
tupled set, and getArgumentType then stops with the exit of the dispatcher. -/
theorem addSymbolsToBind_no_len_parameters_check_witness :
    (∃ result, ({} : HostAssociations).addSymbolsToBind
        [Sample.x, Sample.d] Sample.hostScope = .ok result ∧
      Sample.d ∈ result.tupleSymbols) ∧
    ({ tupleSymbols := [Sample.x, Sample.d], hostScope := some Sample.hostScope } :
        HostAssociations).getArgumentType Sample.converter =
      .error (.todo { source := "d" }
        "host associated derived type with length parameters") := by
  constructor
  · obtain ⟨result, hok, hplace, _⟩ :=
      addSymbolsToBind_no_len_parameters_check {} [Sample.x, Sample.d]
        Sample.hostScope rfl rfl
    exact ⟨result, hok, (hplace Sample.d (by simp) rfl).2 rfl⟩
  · rfl

/-- C10. getArgumentType is idempotent: when a call returns a type, a second
call on the instance it left returns the same type and leaves the instance as
it is, for any converter, and runs walkCaptureCategories on no symbol; the
first call runs it on no symbol when a type is cached or the tupled set is
empty, and once on each tupled symbol otherwise. -/
theorem getArgumentType_idempotent (self : HostAssociations)
    (converter : AbstractConverter) (argType : MlirType) (result : HostAssociations)
    (walked : List Symbol)
    (hok : self.getArgumentType converter = .ok (argType, result, walked)) :
    (∀ converter2 : AbstractConverter,
      result.getArgumentType converter2 = .ok (argType, result, [])) ∧
    (self.tupleSymbols = [] ∨ self.argType.isSet = true → walked = []) ∧
    (self.tupleSymbols ≠ [] → self.argType.isSet = false →
      walked = self.tupleSymbols ∧ result.argType = argType ∧ argType.isSet = true) := by
  unfold getArgumentType at hok
  by_cases hempty : self.tupleSymbols.empty = true
  · simp only [hempty, if_true] at hok
    injection hok with hok
    injection hok with h1 hok
    injection hok with h2 h3
    subst h1 h2 h3
    have hnil : self.tupleSymbols = [] := by
      simpa [SetVector.empty] using hempty
    refine ⟨fun converter2 => by simp [getArgumentType, hempty], fun _ => rfl, ?_⟩
    intro hne
    exact absurd hnil hne
  · have hempty2 : self.tupleSymbols.empty = false := by simpa using hempty
    have hne : self.tupleSymbols ≠ [] := by
      intro hnil
      rw [hnil] at hempty2
      cases hempty2
    simp only [hempty2, Bool.false_eq_true, if_false] at hok
    by_cases hset : self.argType.isSet = true
    · simp only [hset, if_true] at hok
      injection hok with hok
      injection hok with h1 hok
      injection hok with h2 h3
      subst h1 h2 h3
      refine ⟨fun converter2 => by simp [getArgumentType, hempty2, hset], fun _ => rfl, ?_⟩
      intro _ hnot
      rw [hset] at hnot
      cases hnot
    · have hset2 : self.argType.isSet = false := by simpa using hset
      simp only [hset2, Bool.false_eq_true, if_false] at hok
      cases hwalk : getArgumentType.walk converter self.tupleSymbols [] [] with
      | error failure => rw [hwalk] at hok; cases hok
      | ok types =>
        obtain ⟨tupleTys, walkedSyms⟩ := types
        rw [hwalk] at hok
        simp only at hok
        injection hok with hok
        injection hok with h1 hok
        injection hok with h2 h3
        subst h1 h2 h3
        have hwalked := getArgumentType_walk_walked converter _ _ _ _ _ hwalk
        refine ⟨fun converter2 => by simp [getArgumentType, hempty2, MlirType.isSet], ?_, ?_⟩
        · rintro (h | h)
          · exact absurd h hne
          · rw [hset2] at h; cases h
        · intro _ _
          exact ⟨by simpa using hwalked, rfl, rfl⟩

/-- Witness for C10: on the instance populated with the integer `x` and the
array `y`, the first call builds the reference to the tuple of the two slot
types, walking `x` and `y`; the second call returns it and walks no symbol. -/
theorem getArgumentType_idempotent_witness :
    ({ tupleSymbols := [Sample.x, Sample.y] } : HostAssociations).getArgumentType
        Sample.converter =
      .ok (.ref (.tupleOf [.ref (.base "i32"), .box (.seq [none] (.base "i32"))]),
        { tupleSymbols := [Sample.x, Sample.y],
          argType := .ref (.tupleOf [.ref (.base "i32"), .box (.seq [none] (.base "i32"))]) },
        [Sample.x, Sample.y]) ∧
    ({ tupleSymbols := [Sample.x, Sample.y],
       argType := .ref (.tupleOf [.ref (.base "i32"), .box (.seq [none] (.base "i32"))]) } :
        HostAssociations).getArgumentType Sample.converter =
      .ok (.ref (.tupleOf [.ref (.base "i32"), .box (.seq [none] (.base "i32"))]),
        { tupleSymbols := [Sample.x, Sample.y],
          argType := .ref (.tupleOf [.ref (.base "i32"), .box (.seq [none] (.base "i32"))]) },
        []) :=
  ⟨rfl, (getArgumentType_idempotent { tupleSymbols := [Sample.x, Sample.y] }
    Sample.converter
    (.ref (.tupleOf [.ref (.base "i32"), .box (.seq [none] (.base "i32"))]))
    { tupleSymbols := [Sample.x, Sample.y],
      argType := .ref (.tupleOf [.ref (.base "i32"), .box (.seq [none] (.base "i32"))]) }
    [Sample.x, Sample.y] rfl).1 Sample.converter⟩

end ArgumentType

/-! ## Theorems: binding in the host and in the internal procedures -/

section Bindings

open HostAssociations

/-- The instantiation of one host variable adds only calls that instantiate a
global variable. -/
theorem instantiate_ops (self : HostAssociations) (builder : FirOpBuilder)
    (hostVariable : Variable) :
    ∃ extra, (internalProcedureBindings.instantiate self builder hostVariable).ops =
        builder.ops ++ extra ∧
      (∀ op ∈ extra, Operation.isGlobalInstantiation op = true) ∧
      (internalProcedureBindings.instantiate self builder hostVariable).getFunction =
        builder.getFunction := by
  unfold internalProcedureBindings.instantiate
  split
  · split
    · refine ⟨[.instantiateVariable hostVariable, .genThreadprivateOp hostVariable], ?_, ?_, rfl⟩
      · simp [FirOpBuilder.create]
      · intro op hop
        simp only [List.mem_cons, List.mem_singleton, List.not_mem_nil, or_false] at hop
        rcases hop with h | h <;> rw [h] <;> rfl
    · refine ⟨[.instantiateVariable hostVariable], ?_, ?_, rfl⟩
      · simp [FirOpBuilder.create]
      · intro op hop
        simp only [List.mem_singleton] at hop
        rw [hop]; rfl
  · exact ⟨[], by simp, by simp, rfl⟩

/-- The instantiation of the host variables adds only calls that instantiate a
global variable. -/
theorem instantiate_foldl_ops (self : HostAssociations) (variableList : List Variable)
    (builder : FirOpBuilder) :
    ∃ extra, (variableList.foldl (internalProcedureBindings.instantiate self) builder).ops =
        builder.ops ++ extra ∧
      (∀ op ∈ extra, Operation.isGlobalInstantiation op = true) ∧
      (variableList.foldl (internalProcedureBindings.instantiate self) builder).getFunction =
        builder.getFunction := by
  induction variableList generalizing builder with
  | nil => exact ⟨[], by simp, by simp, rfl⟩
  | cons hostVariable rest ih =>
    obtain ⟨extra1, hops1, hall1, hfun1⟩ := instantiate_ops self builder hostVariable
    obtain ⟨extra2, hops2, hall2, hfun2⟩ :=
      ih (internalProcedureBindings.instantiate self builder hostVariable)
    refine ⟨extra1 ++ extra2, ?_, ?_, ?_⟩
    · rw [List.foldl_cons, hops2, hops1, List.append_assoc]
    · intro op hop
      rcases List.mem_append.mp hop with h | h
      · exact hall1 op h
      · exact hall2 op h
    · rw [List.foldl_cons, hfun2, hfun1]

/-- The first part of internalProcedureBindings adds only calls that
instantiate a global variable, and none when the global set is empty. -/
theorem globals_ops (self : HostAssociations) (builder result : FirOpBuilder)
    (hok : internalProcedureBindings.globals self builder = .ok result) :
    (∃ extra, result.ops = builder.ops ++ extra ∧
      ∀ op ∈ extra, Operation.isGlobalInstantiation op = true) ∧
    result.getFunction = builder.getFunction ∧
    (self.globalSymbols = [] → result = builder) := by
  unfold internalProcedureBindings.globals at hok
  by_cases hglobal : self.globalSymbols.empty = true
  · simp only [hglobal, Bool.not_true, Bool.false_eq_true, if_false] at hok
    injection hok with hok
    subst hok
    exact ⟨⟨[], by simp, by simp⟩, rfl, fun _ => rfl⟩
  · have hglobal2 : self.globalSymbols.empty = false := by simpa using hglobal
    simp only [hglobal2, Bool.not_false, if_true] at hok
    cases hscope : self.hostScope with
    | none => rw [hscope] at hok; cases hok
    | some hostScope =>
      rw [hscope] at hok
      injection hok with hok
      subst hok
      obtain ⟨extra, hops, hall, hfun⟩ :=
        instantiate_foldl_ops self hostScope.variableList builder
      refine ⟨⟨extra, hops, hall⟩, hfun, ?_⟩
      intro hnil
      rw [hnil] at hglobal2
      cases hglobal2

/-- The instantiation of one host variable: the call that instantiates it,
followed by the threadprivate operation when its symbol is flagged
OmpThreadprivate, when the variable is a global aggregate store or its symbol
has its ultimate symbol in the global set; nothing otherwise. -/
theorem instantiate_eq (self : HostAssociations) (builder : FirOpBuilder)
    (hostVariable : Variable) :
    internalProcedureBindings.instantiate self builder hostVariable =
      { builder with
        ops := builder.ops ++
          (if (hostVariable.isAggregateStore && hostVariable.isGlobal) ||
              hostVariable.symbol.any
                (fun symbol => decide (symbol.GetUltimate ∈ self.globalSymbols)) then
            Operation.instantiateVariable hostVariable ::
              (if hostVariable.symbol.any
                  (fun symbol => decide (Flag.OmpThreadprivate ∈ symbol.details.flags)) then
                [Operation.genThreadprivateOp hostVariable]
              else [])
          else []) } := by
  unfold internalProcedureBindings.instantiate
  cases hsymbol : hostVariable.symbol with
  | none =>
    simp only [Option.any_none, Bool.or_false, Bool.false_eq_true, if_false]
    split <;> simp [FirOpBuilder.create]
  | some symbol =>
    simp only [Option.any_some, Symbol.test]
    split
    · split <;> simp [FirOpBuilder.create]
    · simp

/-- The instantiation of the host variables, in the order of the variable list
of the host scope. -/
theorem instantiate_foldl_eq (self : HostAssociations) (variableList : List Variable)
    (builder : FirOpBuilder) :
    variableList.foldl (internalProcedureBindings.instantiate self) builder =
      { builder with
        ops := builder.ops ++ variableList.flatMap (fun hostVariable =>
          if (hostVariable.isAggregateStore && hostVariable.isGlobal) ||
              hostVariable.symbol.any
                (fun symbol => decide (symbol.GetUltimate ∈ self.globalSymbols)) then
            Operation.instantiateVariable hostVariable ::
              (if hostVariable.symbol.any
                  (fun symbol => decide (Flag.OmpThreadprivate ∈ symbol.details.flags)) then
                [Operation.genThreadprivateOp hostVariable]
              else [])
          else []) } := by
  induction variableList generalizing builder with
  | nil => simp
  | cons hostVariable rest ih =>
    rw [List.foldl_cons, ih, instantiate_eq]
    simp [List.flatMap_cons, List.append_assoc]

/-- C11. When the tupled set is empty, getArgumentType returns the null type
and leaves the instance as it is (nothing is cached); hostProcedureBindings
returns the state it was given: no operation is created and no host tuple is
bound; internalProcedureBindings returns the state left by the instantiation
of the global symbols, with the symbol map and the host tuple it was given.
The operations it adds are exactly, for each variable of the host scope in
order that is a global aggregate store or whose symbol has its ultimate symbol
in the global set, the call that instantiates that variable, followed by the
threadprivate operation of the variable when its symbol is flagged
OmpThreadprivate: no variable that is not global is instantiated, and no
operation at all is added when the global set is empty too. With a global set
that is not empty and no host scope it stops on the assertion. -/
theorem empty_tupled_set_is_no_op (self : HostAssociations)
    (converter : AbstractConverter) (state : LoweringState)
    (hempty : self.tupleSymbols = []) :
    self.getArgumentType converter = .ok (MlirType.null, self, []) ∧
    self.hostProcedureBindings converter state = .ok (self, state) ∧
    (∀ builder, internalProcedureBindings.globals self state.builder = .ok builder →
      self.internalProcedureBindings converter state =
        .ok (self, { state with builder := builder }) ∧
      ∃ extra, builder.ops = state.builder.ops ++ extra ∧
        ∀ op ∈ extra, Operation.isGlobalInstantiation op = true) ∧
    (self.globalSymbols = [] →
      self.internalProcedureBindings converter state = .ok (self, state)) ∧
    (self.globalSymbols ≠ [] → ∀ hostScope, self.hostScope = some hostScope →
      self.internalProcedureBindings converter state =
        .ok (self, { state with
          builder := { state.builder with
            ops := state.builder.ops ++ hostScope.variableList.flatMap (fun hostVariable =>
              if (hostVariable.isAggregateStore && hostVariable.isGlobal) ||
                  hostVariable.symbol.any
                    (fun symbol => decide (symbol.GetUltimate ∈ self.globalSymbols)) then
                Operation.instantiateVariable hostVariable ::
                  (if hostVariable.symbol.any
                      (fun symbol =>
                        decide (Flag.OmpThreadprivate ∈ symbol.details.flags)) then
                    [Operation.genThreadprivateOp hostVariable]
                  else [])
              else []) } })) ∧
    (self.globalSymbols ≠ [] → self.hostScope = none →
      self.internalProcedureBindings converter state =
        .error (.assertion "host scope must have been set")) := by
  have he : SetVector.empty self.tupleSymbols = true := by
    rw [hempty]; rfl
  refine ⟨by simp [getArgumentType, he], by simp [hostProcedureBindings, he], ?_, ?_, ?_, ?_⟩
  · intro builder hok
    refine ⟨?_, (globals_ops self state.builder builder hok).1⟩
    simp [internalProcedureBindings, hok, he]
  · intro hglobal
    have hok : internalProcedureBindings.globals self state.builder = .ok state.builder := by
      simp [internalProcedureBindings.globals, hglobal, SetVector.empty]
    simp [internalProcedureBindings, hok, he]
  · intro hglobal hostScope hscope
    have hne : SetVector.empty self.globalSymbols = false := by
      cases hl : self.globalSymbols with
      | nil => exact absurd hl hglobal
      | cons _ _ => rfl
    have hok : internalProcedureBindings.globals self state.builder =
        .ok (hostScope.variableList.foldl (internalProcedureBindings.instantiate self)
          state.builder) := by
      simp [internalProcedureBindings.globals, hne, hscope]
    simp only [internalProcedureBindings, hok, he, if_true]
    rw [instantiate_foldl_eq]
  · intro hglobal hscope
    have hne : SetVector.empty self.globalSymbols = false := by
      cases hl : self.globalSymbols with
      | nil => exact absurd hl hglobal
      | cons _ _ => rfl
    simp [internalProcedureBindings, internalProcedureBindings.globals, hne, hscope]

/-- Witness for C11: an instance populated with the saved variable `g` only has
an empty tupled set; in the internal procedure, of the variables `x` and `g`
of the host scope, it instantiates `g` and not the local `x`, and nothing
else. -/
theorem empty_tupled_set_is_no_op_witness :
    ({ globalSymbols := [Sample.g],
       hostScope := some { name := "host",
                           variableList := [{ symbol := some Sample.x },
                                            { symbol := some Sample.g }] } } :
        HostAssociations).internalProcedureBindings Sample.converter {} =
      .ok ({ globalSymbols := [Sample.g],
             hostScope := some { name := "host",
                                 variableList := [{ symbol := some Sample.x },
                                                  { symbol := some Sample.g }] } },
           { builder := { ops := [.instantiateVariable { symbol := some Sample.g }] } }) :=
  (empty_tupled_set_is_no_op
    { globalSymbols := [Sample.g],
      hostScope := some { name := "host",
                          variableList := [{ symbol := some Sample.x },
                                           { symbol := some Sample.g }] } }
    Sample.converter {} rfl).2.2.2.2.1 (by simp)
    { name := "host",
      variableList := [{ symbol := some Sample.x }, { symbol := some Sample.g }] } rfl

/-- Inserting the elements of a list in a set vector appends their first
occurrences that are not in the set vector yet. -/
theorem foldl_insert_eq {α : Type} [DecidableEq α] (l : List α) (set : SetVector α) :
    l.foldl SetVector.insert set =
      set ++ (firstOccurrences l).filter (fun y => decide (y ∉ set)) := by
  induction l generalizing set with
  | nil => simp [firstOccurrences]
  | cons x rest ih =>
    rw [List.foldl_cons, ih]
    unfold SetVector.insert
    by_cases hx : x ∈ set
    · simp only [hx, if_true, firstOccurrences, List.filter_cons, not_true_eq_false,
        decide_False, Bool.false_eq_true, if_false, List.filter_filter]
      congr 1
      apply List.filter_congr
      intro y _
      by_cases hy : y ∈ set
      · simp [hy]
      · have : y ≠ x := fun h => hy (h ▸ hx)
        simp [hy, this]
    · simp only [hx, if_false, firstOccurrences, List.filter_cons, not_false_eq_true,
        decide_True, if_true, List.filter_filter, List.append_assoc, List.singleton_append]
      congr 2
      apply List.filter_congr
      intro y _
      by_cases hy : y ∈ set
      · simp [hy]
      · by_cases hyx : y = x
        · simp [hyx]
        · simp [hy, hyx]

/-- The first occurrences of a list have no duplicates. -/
theorem firstOccurrences_nodup {α : Type} [DecidableEq α] (l : List α) :
    (firstOccurrences l).Nodup := by
  induction l with
  | nil => simp [firstOccurrences]
  | cons x rest ih =>
    simp only [firstOccurrences, List.nodup_cons, List.mem_filter, decide_eq_true_eq]
    exact ⟨fun h => h.2 rfl, ih.filter _⟩

/-- A list without duplicates is the list of its first occurrences. -/
theorem firstOccurrences_of_nodup {α : Type} [DecidableEq α] (l : List α)
    (hnodup : l.Nodup) : firstOccurrences l = l := by
  induction l with
  | nil => rfl
  | cons x rest ih =>
    rw [List.nodup_cons] at hnodup
    simp only [firstOccurrences, ih hnodup.2]
    congr 1
    rw [List.filter_eq_self]
    intro y hy
    have : y ≠ x := fun h => hnodup.1 (h ▸ hy)
    simp [this]

/-- The tupled set left by the loop of addSymbolsToBind: the input symbols that
are neither global nor flagged OmpThreadprivate are inserted in order. -/
theorem tupleSymbols_foldl (symbols : List Symbol) (self : HostAssociations) :
    (symbols.foldl addSymbolsToBind.step self).tupleSymbols =
      (symbols.filter
        (fun s => !(symbolIsGlobal s || s.test Flag.OmpThreadprivate))).foldl
        SetVector.insert self.tupleSymbols := by
  induction symbols generalizing self with
  | nil => rfl
  | cons s rest ih =>
    rw [List.foldl_cons, ih]
    unfold addSymbolsToBind.step
    by_cases hs : (symbolIsGlobal s || s.test Flag.OmpThreadprivate) = true
    · rw [List.filter_cons]
      simp only [hs, if_true, Bool.not_true, Bool.false_eq_true, if_false]
    · have hs2 : (symbolIsGlobal s || s.test Flag.OmpThreadprivate) = false := by
        simpa using hs
      rw [List.filter_cons]
      simp only [hs2, Bool.false_eq_true, if_false, Bool.not_false, if_true, List.foldl_cons]

/-- The loop of getArgumentType returns the slot types of its symbols when
each of them has one. -/
theorem getArgumentType_walk_ok (converter : AbstractConverter) (symbols : List Symbol)
    (newTys : List MlirType)
    (hall : List.Forall₂
      (fun s ty => walkCaptureCategories GetTypeInTuple.mk converter s = .ok ty)
      symbols newTys) (tupleTys : List MlirType) (walked : List Symbol) :
    getArgumentType.walk converter symbols tupleTys walked =
      .ok (tupleTys ++ newTys, walked ++ symbols) := by
  induction hall generalizing tupleTys walked with
  | nil => simp [getArgumentType.walk]
  | cons hhead _ ih =>
    unfold getArgumentType.walk
    rw [hhead]
    simp only
    rw [ih]
    simp

/-- The types returned by the loop of getArgumentType are the slot types of
its symbols, in order. -/
theorem getArgumentType_walk_inv (converter : AbstractConverter) (symbols : List Symbol)
    (tupleTys : List MlirType) (walked : List Symbol)
    (resultTys : List MlirType) (resultWalked : List Symbol)
    (hok : getArgumentType.walk converter symbols tupleTys walked =
      .ok (resultTys, resultWalked)) :
    ∃ newTys, resultTys = tupleTys ++ newTys ∧
      List.Forall₂
        (fun s ty => walkCaptureCategories GetTypeInTuple.mk converter s = .ok ty)
        symbols newTys := by
  induction symbols generalizing tupleTys walked with
  | nil =>
    unfold getArgumentType.walk at hok
    injection hok with hok
    injection hok with hok _
    exact ⟨[], by simp [hok], List.Forall₂.nil⟩
  | cons sym rest ih =>
    unfold getArgumentType.walk at hok
    cases hwalk : walkCaptureCategories GetTypeInTuple.mk converter sym with
    | error failure => rw [hwalk] at hok; cases hok
    | ok ty =>
      rw [hwalk] at hok
      obtain ⟨newTys, hres, hall⟩ := ih _ _ hok
      exact ⟨ty :: newTys, by simp [hres], List.Forall₂.cons hwalk hall⟩

/-- The loop of getArgumentType stops with a failure when the dispatcher or
the strategy fails on one of its symbols. -/
theorem getArgumentType_walk_fails (converter : AbstractConverter) (symbols : List Symbol)
    (tupleTys : List MlirType) (walked : List Symbol)
    (hfail : ∃ s, s ∈ symbols ∧
      ∃ failure, walkCaptureCategories GetTypeInTuple.mk converter s = .error failure) :
    ∃ failure, getArgumentType.walk converter symbols tupleTys walked = .error failure := by
  cases hwalk : getArgumentType.walk converter symbols tupleTys walked with
  | error failure => exact ⟨failure, rfl⟩
  | ok result =>
    obtain ⟨resultTys, resultWalked⟩ := result
    obtain ⟨newTys, -, hall⟩ := getArgumentType_walk_inv converter _ _ _ _ _ hwalk
    obtain ⟨s, hs, failure, hsfail⟩ := hfail
    exfalso
    clear hwalk
    induction hall with
    | nil => cases hs
    | cons hhead _ ih =>
      rcases List.mem_cons.mp hs with heq | hrest
      · subst heq
        rw [hhead] at hsfail
        cases hsfail
      · exact ih hrest

/-- The field `index` of the tuple type built from a list of types is the
element `index` of the list. -/
theorem getType_ofList (tupleTys : List MlirType) (index : Nat) (ty : MlirType)
    (hty : tupleTys[index]? = some ty) :
    (TypeList.ofList tupleTys).getType index = .ok ty := by
  induction tupleTys generalizing index with
  | nil => simp at hty
  | cons head rest ih =>
    cases index with
    | zero =>
      simp only [List.getElem?_cons_zero, Option.some.injEq] at hty
      simp [TypeList.ofList, TypeList.getType, hty]
    | succ index =>
      simp only [List.getElem?_cons_succ] at hty
      simp only [TypeList.ofList, TypeList.getType]
      exact ih index hty

/-- Two lists related element by element are related at each index. -/
theorem forall₂_getElem? {α β : Type} {R : α → β → Prop} {l₁ : List α} {l₂ : List β}
    (hall : List.Forall₂ R l₁ l₂) (index : Nat) (a : α) (ha : l₁[index]? = some a) :
    ∃ b, l₂[index]? = some b ∧ R a b := by
  induction hall generalizing index with
  | nil => simp at ha
  | cons hhead _ ih =>
    cases index with
    | zero =>
      simp only [List.getElem?_cons_zero, Option.some.injEq] at ha
      exact ⟨_, by simp, ha ▸ hhead⟩
    | succ index =>
      simp only [List.getElem?_cons_succ] at ha
      obtain ⟨b, hb, hab⟩ := ih index ha
      exact ⟨b, by simpa using hb, hab⟩

/-- The value of getArgumentType on an instance with tupled symbols and no
cached type, when each tupled symbol has a slot type. -/
theorem getArgumentType_eq (self : HostAssociations) (converter : AbstractConverter)
    (hne : self.tupleSymbols ≠ []) (hnull : self.argType.isSet = false)
    (tupleTys : List MlirType)
    (hall : List.Forall₂
      (fun s ty => walkCaptureCategories GetTypeInTuple.mk converter s = .ok ty)
      self.tupleSymbols tupleTys) :
    self.getArgumentType converter =
      .ok (.ref (.tupleOf tupleTys), { self with argType := .ref (.tupleOf tupleTys) },
        self.tupleSymbols) := by
  have hempty : SetVector.empty self.tupleSymbols = false := by
    cases hl : self.tupleSymbols with
    | nil => exact absurd hl hne
    | cons _ _ => rfl
  have hwalk := getArgumentType_walk_ok converter self.tupleSymbols tupleTys hall [] []
  simp only [List.nil_append] at hwalk
  simp [getArgumentType, hempty, hnull, hwalk]

/-- C12, as stated, fails: for the tupled set that holds the entity `d` of a
derived type with a length parameter, getArgumentType returns no type. -/
theorem tuple_type_counterexample :
    ({ tupleSymbols := [Sample.d] } : HostAssociations).getArgumentType Sample.converter =
      .error (.todo { source := "d" }
        "host associated derived type with length parameters") :=
  rfl

/-- C12, amended. For a non-empty tupled set s0, ..., sn-1 whose symbols all
get a slot type from their strategy, and no cached type, getArgumentType
returns the reference to the tuple that has exactly n fields, the field i
being the slot type that the strategy of si returns for si, caches it, and
has walked the symbols in order; when the dispatcher or a strategy fails on a
tupled symbol, getArgumentType fails and returns no type. The tupled set left
by addSymbolsToBind holds the input symbols that are neither global nor
flagged, in the order of their first occurrence and without duplicates (the
input order itself for an input without duplicates). -/
theorem getArgumentType_tuple_type (self : HostAssociations)
    (converter : AbstractConverter)
    (hne : self.tupleSymbols ≠ []) (hnull : self.argType = MlirType.null) :
    (∀ tupleTys,
      List.Forall₂
        (fun s ty => walkCaptureCategories GetTypeInTuple.mk converter s = .ok ty)
        self.tupleSymbols tupleTys →
      self.getArgumentType converter =
        .ok (.ref (.tupleOf tupleTys), { self with argType := .ref (.tupleOf tupleTys) },
          self.tupleSymbols) ∧
      (TypeList.ofList tupleTys).toList.length = self.tupleSymbols.length ∧
      ∀ (i : Nat) (s : Symbol), self.tupleSymbols[i]? = some s →
        ∃ ty, (TypeList.ofList tupleTys).getType i = .ok ty ∧
          walkCaptureCategories GetTypeInTuple.mk converter s = .ok ty) ∧
    ((∃ s, s ∈ self.tupleSymbols ∧
        ∃ failure, walkCaptureCategories GetTypeInTuple.mk converter s = .error failure) →
      ∃ failure, self.getArgumentType converter = .error failure) ∧
    (∀ (fresh : HostAssociations) (symbols : SetVector Symbol) (hostScope : Scope),
      fresh.addSymbolsToBind symbols hostScope = .ok self →
      self.tupleSymbols = firstOccurrences (symbols.filter
        (fun s => !(symbolIsGlobal s || s.test Flag.OmpThreadprivate))) ∧
      self.tupleSymbols.Nodup ∧
      (symbols.Nodup → self.tupleSymbols = symbols.filter
        (fun s => !(symbolIsGlobal s || s.test Flag.OmpThreadprivate)))) := by
  have hnull2 : self.argType.isSet = false := by rw [hnull]; rfl
  refine ⟨?_, ?_, ?_⟩
  · intro tupleTys hall
    refine ⟨getArgumentType_eq self converter hne hnull2 tupleTys hall, ?_, ?_⟩
    · have htoList : ∀ tys : List MlirType, (TypeList.ofList tys).toList = tys := by
        intro tys
        induction tys with
        | nil => rfl
        | cons head rest ih => simp [TypeList.ofList, TypeList.toList, ih]
      rw [htoList, hall.length_eq]
    · intro i s hs
      obtain ⟨ty, hty, hwalk⟩ := forall₂_getElem? hall i s hs
      exact ⟨ty, getType_ofList tupleTys i ty hty, hwalk⟩
  · intro hfail
    have hempty : SetVector.empty self.tupleSymbols = false := by
      cases hl : self.tupleSymbols with
      | nil => exact absurd hl hne
      | cons _ _ => rfl
    obtain ⟨failure, hwalk⟩ :=
      getArgumentType_walk_fails converter self.tupleSymbols [] [] hfail
    exact ⟨failure, by simp [getArgumentType, hempty, hnull2, hwalk]⟩
  · intro fresh symbols hostScope hok
    obtain ⟨htuple, _, hres⟩ := addSymbolsToBind_eq_ok fresh symbols hostScope self hok
    have horder : self.tupleSymbols = firstOccurrences (symbols.filter
        (fun s => !(symbolIsGlobal s || s.test Flag.OmpThreadprivate))) := by
      rw [hres, tupleSymbols_foldl, foldl_insert_eq]
      simp [htuple]
    refine ⟨horder, ?_, ?_⟩
    · rw [horder]; exact firstOccurrences_nodup _
    · intro hnodup
      rw [horder]
      exact firstOccurrences_of_nodup _ (hnodup.filter _)

/-- Witness for C12: populated with `x`, `g`, `y`, the instance has the tupled
set `x`, `y`, and getArgumentType returns the reference to the tuple of the
slot types of `x` and `y`. -/
theorem getArgumentType_tuple_type_witness :
    ({ tupleSymbols := [Sample.x, Sample.y], globalSymbols := [Sample.g],
        hostScope := some Sample.hostScope } :
        HostAssociations).getArgumentType Sample.converter =
      .ok (.ref (.tupleOf [.ref (.base "i32"), .box (.seq [none] (.base "i32"))]),
        { tupleSymbols := [Sample.x, Sample.y], globalSymbols := [Sample.g],
          hostScope := some Sample.hostScope,
          argType := .ref (.tupleOf [.ref (.base "i32"), .box (.seq [none] (.base "i32"))]) },
        [Sample.x, Sample.y]) ∧
    ([Sample.x, Sample.y] : List Symbol) = firstOccurrences
      (([Sample.x, Sample.g, Sample.y] : List Symbol).filter
        (fun s => !(symbolIsGlobal s || s.test Flag.OmpThreadprivate))) :=
  ⟨((getArgumentType_tuple_type
      { tupleSymbols := [Sample.x, Sample.y], globalSymbols := [Sample.g],
        hostScope := some Sample.hostScope }
      Sample.converter (by simp) rfl).1
      [.ref (.base "i32"), .box (.seq [none] (.base "i32"))]
      (List.Forall₂.cons rfl (List.Forall₂.cons rfl List.Forall₂.nil))).1,
    ((getArgumentType_tuple_type
      { tupleSymbols := [Sample.x, Sample.y], globalSymbols := [Sample.g],
        hostScope := some Sample.hostScope }
      Sample.converter (by simp) rfl).2.2
      {} [Sample.x, Sample.g, Sample.y] Sample.hostScope rfl).1⟩

/-- The type of a field address: a raw pointer to the field type when it is a
reference type, a reference to it otherwise. -/
theorem genTupleCoor_eq (builder : FirOpBuilder) (varTy : MlirType)
    (tupleArg offset : Value) :
    genTupleCoor builder varTy tupleArg offset =
      (.coordinate_of (if varTy.isReferenceType then .llvmPtr varTy else .ref varTy)
          tupleArg offset,
        builder.create (.define (.coordinate_of
          (if varTy.isReferenceType then .llvmPtr varTy else .ref varTy) tupleArg offset))) :=
  rfl

/-- The pointee of the type of a field address is the field type. -/
theorem genTupleCoor_pointee (builder : FirOpBuilder) (varTy : MlirType)
    (tupleArg offset : Value) :
    dyn_cast_ptrEleTy (genTupleCoor builder varTy tupleArg offset).1.getType = varTy := by
  rw [genTupleCoor_eq]
  simp only [Value.getType]
  split <;> rfl

/-- C14. For every field type, genTupleCoor creates one `fir.coordinate_of`
whose result has the raw pointer type `!fir.llvm_ptr<T>` when the field type T
is a reference type `!fir.ref<...>` and the type `!fir.ref<T>` otherwise, so
never the type of a reference to a reference; the slot types of simple
scalars, of allocatables and pointers and of procedure pointers are reference
types, and their fields are addressed through the raw pointer form. -/
theorem genTupleCoor_type (builder : FirOpBuilder) (varTy : MlirType)
    (tupleArg offset : Value) :
    ((∃ ele, varTy = .ref ele) →
      (genTupleCoor builder varTy tupleArg offset).1.getType = .llvmPtr varTy) ∧
    ((∀ ele, varTy ≠ .ref ele) →
      (genTupleCoor builder varTy tupleArg offset).1.getType = .ref varTy) ∧
    (∀ ele, (genTupleCoor builder varTy tupleArg offset).1.getType ≠ .ref (.ref ele)) ∧
    (genTupleCoor builder varTy tupleArg offset).2.ops =
      builder.ops ++ [.define (genTupleCoor builder varTy tupleArg offset).1] ∧
    (∀ (converter : AbstractConverter) (sym : Symbol),
      (genTupleCoor builder (CapturedSimpleScalars.getType converter sym)
          tupleArg offset).1.getType =
        .llvmPtr (CapturedSimpleScalars.getType converter sym) ∧
      (genTupleCoor builder (CapturedAllocatableAndPointer.getType converter sym)
          tupleArg offset).1.getType =
        .llvmPtr (CapturedAllocatableAndPointer.getType converter sym) ∧
      (IsPointer sym = true →
        (genTupleCoor builder (CapturedProcedure.getType converter sym)
            tupleArg offset).1.getType =
          .llvmPtr (CapturedProcedure.getType converter sym))) := by
  refine ⟨?_, ?_, ?_, rfl, ?_⟩
  · rintro ⟨ele, rfl⟩
    rfl
  · intro hnot
    rw [genTupleCoor_eq]
    cases varTy <;> first | rfl | exact absurd rfl (hnot _)
  · intro ele
    rw [genTupleCoor_eq]
    simp only [Value.getType]
    cases varTy <;> simp [MlirType.isReferenceType]
  · intro converter sym
    refine ⟨rfl, ?_, ?_⟩
    · simp only [CapturedAllocatableAndPointer.getType]
      split <;> rfl
    · intro hptr
      simp only [CapturedProcedure.getType, hptr, if_true]
      rfl

/-- Witness for C14: the field of a simple scalar of slot type `!fir.ref<i32>`
is addressed by a `!fir.llvm_ptr<!fir.ref<i32>>`. -/
theorem genTupleCoor_type_witness :
    (genTupleCoor {} (.ref (.base "i32")) (.external "tuple" .null)
        (.constant .i32 0)).1.getType = .llvmPtr (.ref (.base "i32")) :=
  (genTupleCoor_type {} (.ref (.base "i32")) (.external "tuple" .null)
    (.constant .i32 0)).1 ⟨.base "i32", rfl⟩

/-- The first match of a search from the end of a list is the match of the
greatest index. -/
theorem find?_reverse_eq_some {α : Type} (p : α → Bool) (l : List α) (x : α) :
    l.reverse.find? p = some x ↔
      ∃ i, l[i]? = some x ∧ p x = true ∧
        ∀ (j : Nat) (y : α), i < j → l[j]? = some y → p y = false := by
  induction l generalizing x with
  | nil => simp
  | cons a t ih =>
    rw [List.reverse_cons, List.find?_append]
    cases hfind : t.reverse.find? p with
    | some y =>
      simp only [Option.or_some, Option.some.injEq]
      constructor
      · intro hyx
        subst hyx
        obtain ⟨i, hi, hp, hlast⟩ := (ih y).mp hfind
        refine ⟨i + 1, by simpa using hi, hp, ?_⟩
        intro j z hj hz
        cases j with
        | zero => omega
        | succ j =>
          simp only [List.getElem?_cons_succ] at hz
          exact hlast j z (by omega) hz
      · rintro ⟨i, hi, hp, hlast⟩
        cases i with
        | zero =>
          exfalso
          obtain ⟨k, hk, hpy, _⟩ := (ih y).mp hfind
          have := hlast (k + 1) y (by omega) (by simpa using hk)
          rw [hpy] at this
          cases this
        | succ i =>
          simp only [List.getElem?_cons_succ] at hi
          have hx : t.reverse.find? p = some x := (ih x).mpr ⟨i, hi, hp, by
            intro j z hj hz
            exact hlast (j + 1) z (by omega) (by simpa using hz)⟩
          rw [hfind] at hx
          injection hx
    | none =>
      have hnone : ∀ z ∈ t, p z = false := by
        intro z hz
        have := List.find?_eq_none.mp hfind z (List.mem_reverse.mpr hz)
        simpa using this
      simp only [Option.none_or]
      constructor
      · intro hax
        have hpa : p a = true := by
          by_contra hpa
          simp [List.find?, hpa] at hax
        have hxa : a = x := by
          simpa [List.find?, hpa] using hax
        subst hxa
        refine ⟨0, by simp, hpa, ?_⟩
        intro j z hj hz
        cases j with
        | zero => omega
        | succ j =>
          simp only [List.getElem?_cons_succ] at hz
          exact hnone z (List.getElem?_mem hz)
      · rintro ⟨i, hi, hp, _⟩
        cases i with
        | zero =>
          simp only [List.getElem?_cons_zero, Option.some.injEq] at hi
          subst hi
          simp [List.find?, hp]
        | succ i =>
          exfalso
          simp only [List.getElem?_cons_succ] at hi
          have := hnone x (List.getElem?_mem hi)
          rw [hp] at this
          cases this

/-- The binding of a captured symbol leaves the host tuple alone. -/
theorem bindCapturedSymbol_hostAssocTuple (sym : Symbol) (val : ExtendedValue)
    (converter : AbstractConverter) (state : LoweringState) :
    (bindCapturedSymbol sym val converter state).hostAssocTuple = state.hostAssocTuple := by
  unfold bindCapturedSymbol
  split <;> rfl

/-- The marshal-out of every class leaves the host tuple alone. -/
theorem getFromTuple_hostAssocTuple (category : SymbolCategory) (args : GetFromTuple)
    (converter : AbstractConverter) (sym : Symbol) (ba : BoxAnalyzer)
    (state result : LoweringState)
    (hok : category.getFromTuple args converter sym ba state = .ok result) :
    result.hostAssocTuple = state.hostAssocTuple := by
  cases category
  · simp only [SymbolCategory.getFromTuple, CapturedSimpleScalars.getFromTuple] at hok
    injection hok with hok
    rw [← hok, bindCapturedSymbol_hostAssocTuple]
  · simp only [SymbolCategory.getFromTuple, CapturedProcedure.getFromTuple] at hok
    injection hok with hok
    rw [← hok, bindCapturedSymbol_hostAssocTuple]
  · simp only [SymbolCategory.getFromTuple, CapturedCharacterScalars.getFromTuple] at hok
    injection hok with hok
    rw [← hok, bindCapturedSymbol_hostAssocTuple]
  · simp only [SymbolCategory.getFromTuple, CapturedPolymorphicScalar.getFromTuple] at hok
    split at hok
    · split at hok
      · cases hok
      · injection hok with hok
        rw [← hok, bindCapturedSymbol_hostAssocTuple]
    · injection hok with hok
      rw [← hok, bindCapturedSymbol_hostAssocTuple]
  · simp only [SymbolCategory.getFromTuple, CapturedAllocatableAndPointer.getFromTuple] at hok
    split at hok
    · split at hok
      · injection hok with hok
        rw [← hok, bindCapturedSymbol_hostAssocTuple]
      · split at hok
        · injection hok with hok
          rw [← hok, bindCapturedSymbol_hostAssocTuple]
        · injection hok with hok
          rw [← hok, bindCapturedSymbol_hostAssocTuple]
    · split at hok
      · cases hok
      · injection hok with hok
        rw [← hok, bindCapturedSymbol_hostAssocTuple]
  · simp only [SymbolCategory.getFromTuple, CapturedArrays.getFromTuple] at hok
    split at hok
    · injection hok with hok
      rw [← hok, bindCapturedSymbol_hostAssocTuple]
    · split at hok
      · split at hok
        · cases hok
        · injection hok with hok
          rw [← hok, bindCapturedSymbol_hostAssocTuple]
      · injection hok with hok
        rw [← hok, bindCapturedSymbol_hostAssocTuple]

/-- When the dispatcher returns for a visitor, it has called the visit of one
class on a symbol without length parameters. -/
theorem walk_ok_visit {T : Type} [CapturedSymbols T] (visitor : T)
    (converter : AbstractConverter) (sym : Symbol) (result : CapturedSymbols.Result T)
    (hok : walkCaptureCategories visitor converter sym = .ok result) :
    isDerivedWithLenParameters sym = false ∧
    ∃ category ba, CapturedSymbols.visit category visitor converter sym ba = .ok result := by
  by_cases hlen : isDerivedWithLenParameters sym = true
  · rw [walk_lenParameters visitor converter sym hlen] at hok
    cases hok
  · have hlen2 : isDerivedWithLenParameters sym = false := by simpa using hlen
    refine ⟨hlen2, ?_⟩
    by_cases hproc : IsProcedure sym = true
    · rw [walk_procedure visitor converter sym hlen2 hproc] at hok
      exact ⟨_, _, hok⟩
    · have hproc2 : IsProcedure sym = false := by simpa using hproc
      rw [walk_object visitor converter sym hlen2 hproc2] at hok
      exact ⟨_, _, hok⟩

/-- The body of the second loop of internalProcedureBindings leaves the host
tuple alone. -/
theorem internal_body_hostAssocTuple (converter : AbstractConverter) (tupTy : TypeList)
    (tupleArg : Value) (loc : Location) (state result : LoweringState) (s : Nat × Symbol)
    (hok : internalProcedureBindings.body converter tupTy tupleArg loc state s = .ok result) :
    result.hostAssocTuple = state.hostAssocTuple := by
  unfold internalProcedureBindings.body at hok
  cases hvisitor : internalProcedureBindings.visitor tupTy tupleArg loc state.builder s.1 with
  | error failure => rw [hvisitor] at hok; cases hok
  | ok pair =>
    obtain ⟨getFromTuple, builder⟩ := pair
    rw [hvisitor] at hok
    simp only at hok
    cases hwalk : walkCaptureCategories getFromTuple converter s.2 with
    | error failure => rw [hwalk] at hok; cases hok
    | ok bind =>
      rw [hwalk] at hok
      simp only at hok
      obtain ⟨_, category, ba, hvisit⟩ := walk_ok_visit getFromTuple converter s.2 bind hwalk
      simp only [CapturedSymbols.visit] at hvisit
      injection hvisit with hvisit
      rw [← hvisit] at hok
      exact getFromTuple_hostAssocTuple category getFromTuple converter s.2 ba
        { state with builder := builder } result hok

/-- A loop keeps what each run of its body keeps. -/
theorem forEach_invariant {σ α : Type} (body : σ → α → Except Failure σ)
    (keeps : σ → σ → Prop) (hrefl : ∀ state, keeps state state)
    (htrans : ∀ a b c, keeps a b → keeps b c → keeps a c)
    (hbody : ∀ state x result, body state x = .ok result → keeps state result)
    (l : List α) (state result : σ) (hok : forEach body l state = .ok result) :
    keeps state result := by
  induction l generalizing state with
  | nil =>
    unfold forEach at hok
    injection hok with hok
    rw [hok]
    exact hrefl _
  | cons x rest ih =>
    unfold forEach at hok
    cases hx : body state x with
    | error failure => rw [hx] at hok; cases hok
    | ok next =>
      rw [hx] at hok
      exact htrans _ _ _ (hbody state x next hx) (ih next hok)

/-- The argument found for the tuple is the last one whose input type is the
argument type, and none is found when no input type is the argument type. -/
theorem findTupleArg_eq (func : FuncOp) (argTy : MlirType) :
    ((∀ pair ∈ func.inputs.zip func.arguments, pair.1 ≠ argTy) →
      internalProcedureBindings.findTupleArg func argTy = none) ∧
    (∀ (i : Nat) (arg : Value), (func.inputs.zip func.arguments)[i]? = some (argTy, arg) →
      (∀ (j : Nat) (pair : MlirType × Value), i < j →
        (func.inputs.zip func.arguments)[j]? = some pair → pair.1 ≠ argTy) →
      internalProcedureBindings.findTupleArg func argTy = some arg) := by
  constructor
  · intro hnone
    unfold internalProcedureBindings.findTupleArg
    have : (func.inputs.zip func.arguments).reverse.find?
        (fun pair => decide (pair.1 = argTy)) = none := by
      rw [List.find?_eq_none]
      intro pair hpair
      simpa using hnone pair (List.mem_reverse.mp hpair)
    rw [this]
    rfl
  · intro i arg hi hlast
    unfold internalProcedureBindings.findTupleArg
    have : (func.inputs.zip func.arguments).reverse.find?
        (fun pair => decide (pair.1 = argTy)) = some (argTy, arg) := by
      rw [find?_reverse_eq_some]
      refine ⟨i, hi, by simp, ?_⟩
      intro j pair hj hpair
      simpa using hlast j pair hj hpair
    rw [this]
    rfl

/-- C15. In internalProcedureBindings with a non-empty tupled set (the global
symbols instantiated and the argument type built), the tuple argument is the
argument of the greatest index whose input type is the argument type: it is
bound as the host tuple, the fields are addressed from it, and it is the host
tuple of the state returned; if no input type is the argument type the member
stops with the fatal error "no host association argument found" and returns
no state: no host tuple and no tupled symbol is bound. -/
theorem internalProcedureBindings_tuple_argument (self : HostAssociations)
    (converter : AbstractConverter) (state : LoweringState) (builder : FirOpBuilder)
    (argTy : MlirType) (cached : HostAssociations) (walked : List Symbol)
    (tupTy : TypeList)
    (hglobals : internalProcedureBindings.globals self state.builder = .ok builder)
    (hne : self.tupleSymbols ≠ [])
    (hty : self.getArgumentType converter = .ok (argTy, cached, walked))
    (hunwrap : unwrapTupleTy argTy = .ok tupTy) :
    ((∀ pair ∈ state.builder.getFunction.inputs.zip state.builder.getFunction.arguments,
        pair.1 ≠ argTy) →
      self.internalProcedureBindings converter state =
        .error (.fatalError converter.getCurrentLocation
          "no host association argument found")) ∧
    (∀ (i : Nat) (arg : Value),
      (state.builder.getFunction.inputs.zip state.builder.getFunction.arguments)[i]? =
        some (argTy, arg) →
      (∀ (j : Nat) (pair : MlirType × Value), i < j →
        (state.builder.getFunction.inputs.zip state.builder.getFunction.arguments)[j]? =
          some pair → pair.1 ≠ argTy) →
      self.internalProcedureBindings converter state =
        (forEach
          (internalProcedureBindings.body converter tupTy arg converter.getCurrentLocation)
          cached.tupleSymbols.enum
          ({ state with builder := builder }.bindHostAssocTuple arg)).map
          (fun final => (cached, final)) ∧
      ∀ result final, self.internalProcedureBindings converter state = .ok (result, final) →
        final.hostAssocTuple = some arg) := by
  have hempty : SetVector.empty self.tupleSymbols = false := by
    cases hl : self.tupleSymbols with
    | nil => exact absurd hl hne
    | cons _ _ => rfl
  have hfunc : builder.getFunction = state.builder.getFunction :=
    (globals_ops self state.builder builder hglobals).2.1
  constructor
  · intro hnone
    have hfind := (findTupleArg_eq builder.getFunction argTy).1 (by rw [hfunc]; exact hnone)
    simp [internalProcedureBindings, hglobals, hempty, hty, hunwrap, hfind]
  · intro i arg hi hlast
    have hfind := (findTupleArg_eq builder.getFunction argTy).2 i arg
      (by rw [hfunc]; exact hi) (by rw [hfunc]; exact hlast)
    have heq : self.internalProcedureBindings converter state =
        (forEach
          (internalProcedureBindings.body converter tupTy arg converter.getCurrentLocation)
          cached.tupleSymbols.enum
          ({ state with builder := builder }.bindHostAssocTuple arg)).map
          (fun final => (cached, final)) := by
      simp only [internalProcedureBindings, hglobals, hempty, hty, hunwrap, hfind,
        Bool.false_eq_true, if_false]
      cases forEach
        (internalProcedureBindings.body converter tupTy arg converter.getCurrentLocation)
        cached.tupleSymbols.enum
        ({ state with builder := builder }.bindHostAssocTuple arg) <;> rfl
    refine ⟨heq, ?_⟩
    intro result final hok
    rw [heq] at hok
    cases hloop : forEach
        (internalProcedureBindings.body converter tupTy arg converter.getCurrentLocation)
        cached.tupleSymbols.enum
        ({ state with builder := builder }.bindHostAssocTuple arg) with
    | error failure => rw [hloop] at hok; cases hok
    | ok last =>
      rw [hloop] at hok
      simp only [Except.map] at hok
      injection hok with hok
      injection hok with _ hfinal
      subst hfinal
      have hkeep := forEach_invariant
        (internalProcedureBindings.body converter tupTy arg converter.getCurrentLocation)
        (fun a b => b.hostAssocTuple = a.hostAssocTuple) (fun _ => rfl)
        (fun a b c hab hbc => hbc.trans hab)
        (fun st x res hbody =>
          internal_body_hostAssocTuple converter tupTy arg _ st res x hbody)
        _ _ _ hloop
      rw [hkeep]
      rfl

/-- Witness for C15: in an internal procedure with the inputs `i32` and the
argument type of the tupled set `x`, `y`, the second argument is bound as the
host tuple; without it the fatal error is signalled. -/
theorem internalProcedureBindings_tuple_argument_witness :
    (({ tupleSymbols := [Sample.x, Sample.y] } : HostAssociations).internalProcedureBindings
        Sample.converter
        { builder := { getFunction := { inputs := [.base "i32"],
                                        arguments := [.blockArgument 0 (.base "i32")] } } } =
      .error (.fatalError { source := "host" } "no host association argument found")) ∧
    ∀ result final,
      ({ tupleSymbols := [Sample.x, Sample.y] } : HostAssociations).internalProcedureBindings
        Sample.converter
        { builder := { getFunction :=
            { inputs := [.base "i32",
                .ref (.tupleOf [.ref (.base "i32"), .box (.seq [none] (.base "i32"))])],
              arguments := [.blockArgument 0 (.base "i32"),
                .blockArgument 1
                  (.ref (.tupleOf [.ref (.base "i32"),
                    .box (.seq [none] (.base "i32"))]))] } } } =
        .ok (result, final) →
      final.hostAssocTuple = some (.blockArgument 1
        (.ref (.tupleOf [.ref (.base "i32"), .box (.seq [none] (.base "i32"))]))) :=
  ⟨(internalProcedureBindings_tuple_argument { tupleSymbols := [Sample.x, Sample.y] }
      Sample.converter
      { builder := { getFunction := { inputs := [.base "i32"],
                                      arguments := [.blockArgument 0 (.base "i32")] } } }
      { getFunction := { inputs := [.base "i32"],
                         arguments := [.blockArgument 0 (.base "i32")] } }
      (.ref (.tupleOf [.ref (.base "i32"), .box (.seq [none] (.base "i32"))]))
      { tupleSymbols := [Sample.x, Sample.y],
        argType := .ref (.tupleOf [.ref (.base "i32"), .box (.seq [none] (.base "i32"))]) }
      [Sample.x, Sample.y]
      (TypeList.ofList [.ref (.base "i32"), .box (.seq [none] (.base "i32"))])
      rfl (by simp) rfl rfl).1 (by decide),
    ((internalProcedureBindings_tuple_argument { tupleSymbols := [Sample.x, Sample.y] }
      Sample.converter
      { builder := { getFunction :=
          { inputs := [.base "i32",
              .ref (.tupleOf [.ref (.base "i32"), .box (.seq [none] (.base "i32"))])],
            arguments := [.blockArgument 0 (.base "i32"),
              .blockArgument 1
                (.ref (.tupleOf [.ref (.base "i32"),
                  .box (.seq [none] (.base "i32"))]))] } } }
      { getFunction :=
          { inputs := [.base "i32",
              .ref (.tupleOf [.ref (.base "i32"), .box (.seq [none] (.base "i32"))])],
            arguments := [.blockArgument 0 (.base "i32"),
              .blockArgument 1
                (.ref (.tupleOf [.ref (.base "i32"),
                  .box (.seq [none] (.base "i32"))]))] } }
      (.ref (.tupleOf [.ref (.base "i32"), .box (.seq [none] (.base "i32"))]))
      { tupleSymbols := [Sample.x, Sample.y],
        argType := .ref (.tupleOf [.ref (.base "i32"), .box (.seq [none] (.base "i32"))]) }
      [Sample.x, Sample.y]
      (TypeList.ofList [.ref (.base "i32"), .box (.seq [none] (.base "i32"))])
      rfl (by simp) rfl rfl).2 1
      (.blockArgument 1
        (.ref (.tupleOf [.ref (.base "i32"), .box (.seq [none] (.base "i32"))])))
      rfl (by
        intro j pair hj hpair
        have : 2 ≤ j := hj
        simp [List.getElem?_eq_none, this] at hpair)).2⟩

end Bindings

/-! ## Theorems: the round trip through a slot of the tuple -/

section RoundTrip

/-- The memory read back at the address just written. -/
theorem write_memory (valuation : Valuation) (addr : Addr) (value : RuntimeValue) :
    (valuation.write addr value).memory addr = value := by
  simp [Valuation.write]

/-- The integers held by the values of two lists put end to end. -/
theorem evalIntegers_append (valuation : Valuation) (front back : List Value)
    (first others : List Int)
    (hfront : evalIntegers valuation front = some first)
    (hback : evalIntegers valuation back = some others) :
    evalIntegers valuation (front ++ back) = some (first ++ others) := by
  induction front generalizing first with
  | nil =>
    simp only [evalIntegers, Option.some.injEq] at hfront
    subst hfront
    simpa using hback
  | cons value rest ih =>
    simp only [evalIntegers] at hfront
    cases hvalue : (value.eval valuation).toInt? with
    | none => simp [hvalue] at hfront
    | some n =>
      cases hrest : evalIntegers valuation rest with
      | none => simp [hvalue, hrest] at hfront
      | some ns =>
        simp only [hvalue, hrest, Option.some.injEq] at hfront
        subst hfront
        simp [evalIntegers, hvalue, ih ns hrest]

/-- The integers held by index constants. -/
theorem evalIntegers_constants (valuation : Valuation) (constants : List Int) :
    evalIntegers valuation (constants.map (Value.constant .index)) = some constants := by
  induction constants with
  | nil => rfl
  | cons first rest ih => simp [evalIntegers, Value.eval, RuntimeValue.toInt?, ih]

/-- The bounds read from a descriptor, dimension after dimension, are the
bounds that the descriptor holds. -/
theorem evalIntegers_dims (valuation : Valuation) (box : Value) (descriptor : Descriptor)
    (result : Nat) (bounds : List Int)
    (hbox : box.eval valuation = .box (some descriptor))
    (hdims : ∀ dim : Nat, descriptor.dims dim result = (bounds[dim]?).elim .undefined .integer)
    (start count : Nat) (hcount : start + count ≤ bounds.length) :
    evalIntegers valuation ((List.range' start count).map
      (fun (dim : Nat) => Value.box_dims box (.constant .index (dim : Int)) result)) =
      some ((bounds.drop start).take count) := by
  induction count generalizing start with
  | zero => simp [evalIntegers]
  | succ count ih =>
    have hstart : start < bounds.length := by omega
    rw [List.range'_succ, List.map_cons, evalIntegers, ih (start + 1) (by omega)]
    have hget : bounds[start]? = some bounds[start] := List.getElem?_eq_getElem hstart
    simp only [Value.eval, hbox, hdims, hget, Option.elim, RuntimeValue.toInt?]
    rw [List.drop_eq_getElem_cons hstart, List.take_succ_cons]

/-- The lower bound of a dimension of a descriptor. -/
theorem dims_lbounds (descriptor : Descriptor) (dim : Nat) :
    descriptor.dims dim 0 = (descriptor.lbounds[dim]?).elim .undefined .integer := by
  simp [Descriptor.dims]

/-- The extent of a dimension of a descriptor. -/
theorem dims_extents (descriptor : Descriptor) (dim : Nat) :
    descriptor.dims dim 1 = (descriptor.extents[dim]?).elim .undefined .integer := by
  simp [Descriptor.dims]

/-- The lower bounds created from constants are the index constants, in
order. -/
theorem staticLBounds_fst (builder : FirOpBuilder) (constants : List Int)
    (lbounds : List Value) :
    (CapturedArrays.staticLBounds builder constants lbounds).1 =
      lbounds ++ constants.map (Value.constant .index) := by
  induction constants generalizing builder lbounds with
  | nil => simp [CapturedArrays.staticLBounds]
  | cons first rest ih =>
    simp [CapturedArrays.staticLBounds, FirOpBuilder.createIntegerConstant, ih]

/-- The lower bounds read from the box are the first results of `fir.box_dims`
on the dimensions, in order. -/
theorem boxLBounds_fst (builder : FirOpBuilder) (box : Value) (count dim : Nat)
    (lbounds : List Value) :
    (CapturedArrays.boxLBounds builder box count dim lbounds).1 =
      lbounds ++ (List.range' dim count).map
        (fun (k : Nat) => Value.box_dims box (.constant .index (k : Int)) 0) := by
  induction count generalizing builder dim lbounds with
  | zero => simp [CapturedArrays.boxLBounds]
  | succ count ih =>
    simp [CapturedArrays.boxLBounds, FirOpBuilder.createIntegerConstant, BoxDimsOp.create, ih,
      List.range'_succ]

/-- The lower bounds recovered by marshal out from a descriptor of an entity
whose lower bounds agree with the shape analysis denote the lower bounds of
the entity. -/
theorem getLBounds_eval (builder : FirOpBuilder) (sym : Symbol) (ba : BoxAnalyzer)
    (box : Value) (valuation : Valuation) (entity : Descriptor)
    (hbox : box.eval valuation = .box (some entity))
    (hagree : shapeAgrees sym ba entity)
    (hrank : entity.lbounds.length = entity.extents.length) :
    ∃ lbounds, evalIntegers valuation (CapturedArrays.getLBounds builder sym ba box).1 =
        some lbounds ∧
      (if lbounds.isEmpty then List.replicate entity.extents.length 1 else lbounds) =
        entity.lbounds := by
  unfold shapeAgrees at hagree
  unfold CapturedArrays.getLBounds
  by_cases hones : (ba.lboundIsAllOnes || IsAssumedRank sym) = true
  · rw [if_pos hones] at hagree
    have hcond : (!ba.lboundIsAllOnes && !IsAssumedRank sym) = false := by
      simp only [Bool.or_eq_true] at hones
      rcases hones with h | h <;> simp [h]
    refine ⟨[], ?_, ?_⟩
    · simp [hcond, evalIntegers]
    · simp [hagree]
  · rw [if_neg hones] at hagree
    have hcond : (!ba.lboundIsAllOnes && !IsAssumedRank sym) = true := by
      simp only [Bool.or_eq_true, not_or, Bool.not_eq_true] at hones
      simp [hones.1, hones.2]
    simp only [hcond, if_true]
    have hempty : ∀ lbounds : List Int, lbounds = entity.lbounds →
        (if lbounds.isEmpty then List.replicate entity.extents.length 1 else lbounds) =
          entity.lbounds := by
      intro lbounds hlbounds
      subst hlbounds
      cases hl : entity.lbounds with
      | nil =>
        rw [hl] at hrank
        simp at hrank
        simp [← hrank]
      | cons first rest => simp
    by_cases hstatic : ba.isStaticArray = true
    · rw [if_pos hstatic] at hagree
      refine ⟨ba.staticLBound, ?_, hempty _ hagree.symm⟩
      simp only [hstatic, if_true]
      rw [staticLBounds_fst, List.nil_append, evalIntegers_constants]
    · rw [if_neg hstatic] at hagree
      refine ⟨entity.lbounds, ?_, hempty _ rfl⟩
      simp only [hstatic, Bool.false_eq_true, if_false]
      rw [boxLBounds_fst, List.nil_append,
        evalIntegers_dims valuation box entity 0 entity.lbounds hbox (dims_lbounds entity)
          0 sym.Rank (by omega), ← hagree]
      simp

/-- The binding of a captured symbol adds the symbol with its value at the end
of the symbol map. -/
theorem bindCapturedSymbol_symMap (sym : Symbol) (val : ExtendedValue)
    (converter : AbstractConverter) (state : LoweringState) :
    (bindCapturedSymbol sym val converter state).symMap = state.symMap ++ [(sym, val)] := by
  unfold bindCapturedSymbol
  split <;> rfl

/-- The extents that `readBoxValue` reads from a descriptor are the extents of
the descriptor. -/
theorem readBoxValue_describe (builder : FirOpBuilder) (box : Value) (lbounds : List Value)
    (valuation : Valuation) (entity : Descriptor) (shape : List (Option Nat)) (ele : MlirType)
    (bounds : List Int)
    (hbox : box.eval valuation = .box (some entity))
    (htype : box.getType.getBoxEleTy = some (.seq shape ele))
    (hshape : shape.length = entity.extents.length)
    (hlbounds : evalIntegers valuation lbounds = some bounds) :
    (readBoxValue builder box lbounds).1.describe valuation =
        some { base := entity.base,
               lbounds := if bounds.isEmpty then List.replicate entity.extents.length 1
                          else bounds,
               extents := entity.extents } ∧
      (readBoxValue builder box lbounds).1.isBoxValue = false := by
  have hextents : evalIntegers valuation ((List.range shape.length).map
      (fun (dim : Nat) => Value.box_dims box (.constant .index (dim : Int)) 1)) =
      some entity.extents := by
    rw [List.range_eq_range',
      evalIntegers_dims valuation box entity 1 entity.extents hbox (dims_extents entity)
        0 shape.length (by omega), hshape]
    simp
  unfold readBoxValue
  simp only [htype, Option.getD_some]
  cases ele <;>
    simp [ExtendedValue.describe, describeArray, Value.eval, hbox, hextents, hlbounds,
      ExtendedValue.isBoxValue]

/-- Marshal out of an array that is not optional, from a slot that holds the
descriptor of an entity: the symbol is bound to a value that denotes the
entity, in address plus bounds form when the box can be read into simpler
values and as a box otherwise. -/
theorem array_getFromTuple (converter : AbstractConverter) (sym : Symbol) (ba : BoxAnalyzer)
    (state : LoweringState) (loc : Location) (box : Value) (valuation : Valuation)
    (entity : Descriptor) (shape : List (Option Nat)) (ele : MlirType)
    (hoptional : IsOptional sym = false)
    (hbox : box.eval valuation = .box (some entity))
    (hagree : shapeAgrees sym ba entity)
    (hrank : entity.lbounds.length = entity.extents.length)
    (htype : box.getType.getBoxEleTy = some (.seq shape ele))
    (hshape : shape.length = entity.extents.length) :
    ∃ bound result,
      CapturedArrays.getFromTuple { valueInTuple := box, loc := loc } converter sym ba state =
        .ok result ∧
      result.symMap = state.symMap ++ [(sym, bound)] ∧
      bound.describe valuation = some entity ∧
      bound.isBoxValue = !CapturedArrays.canReadCapturedBoxValue converter sym := by
  obtain ⟨bounds, hbounds, hsame⟩ :=
    getLBounds_eval state.builder sym ba box valuation entity hbox hagree hrank
  unfold CapturedArrays.getFromTuple
  by_cases hread : CapturedArrays.canReadCapturedBoxValue converter sym = true
  · obtain ⟨hdescribe, hform⟩ := readBoxValue_describe
      (CapturedArrays.getLBounds state.builder sym ba box).2 box
      (CapturedArrays.getLBounds state.builder sym ba box).1 valuation entity shape ele bounds
      hbox htype hshape hbounds
    refine ⟨(readBoxValue (CapturedArrays.getLBounds state.builder sym ba box).2 box
      (CapturedArrays.getLBounds state.builder sym ba box).1).1,
      bindCapturedSymbol sym
        (readBoxValue (CapturedArrays.getLBounds state.builder sym ba box).2 box
          (CapturedArrays.getLBounds state.builder sym ba box).1).1 converter
        { state with
          builder := (readBoxValue (CapturedArrays.getLBounds state.builder sym ba box).2 box
            (CapturedArrays.getLBounds state.builder sym ba box).1).2 }, ?_, ?_, ?_, ?_⟩
    · simp only [hread, if_true]
    · rw [bindCapturedSymbol_symMap]
    · rw [hdescribe, hsame]
    · rw [hform, hread]
      rfl
  · have hread2 : CapturedArrays.canReadCapturedBoxValue converter sym = false := by
      simpa using hread
    refine ⟨.BoxValue box (CapturedArrays.getLBounds state.builder sym ba box).1 [],
      bindCapturedSymbol sym
        (.BoxValue box (CapturedArrays.getLBounds state.builder sym ba box).1 []) converter
        { state with builder := (CapturedArrays.getLBounds state.builder sym ba box).2 },
      ?_, ?_, ?_, ?_⟩
    · simp only [hread2, hoptional, Bool.false_eq_true, if_false]
    · rw [bindCapturedSymbol_symMap]
    · simp only [ExtendedValue.describe, hbox, hbounds, hsame]
    · rw [hread2]
      rfl

/-- C16. Round trip for plain scalars and for arrays that are not optional, in
a state where the address of the slot denotes an address. For a symbol of the
Simple strategy whose host value has a base address `a` of the type of the
slot, marshal in creates the store of `a` itself (the conversion to the type
of the slot is the identity) at the address of the slot and nothing else;
after the store, marshal out applied to the value loaded from the slot binds
the symbol to that value and creates no operation (but the declaration of the
symbol, when lowering to HLFIR), and the value loaded holds what `a` held.
For an array that is not optional whose host value denotes an entity, of
bounds that agree with the shape analysis, marshal in associates the slot with
the host value, which writes the descriptor of the entity in the slot; after
it, marshal out applied to the value loaded from the slot binds the symbol to
a value that denotes the same entity, with the same address and the same
bounds, in address plus bounds form when the box can be read into simpler
values (as for a contiguous array that is not polymorphic and not of assumed
rank) and as a box otherwise. -/
theorem round_trip (converter : AbstractConverter) (sym : Symbol) (ba : BoxAnalyzer)
    (args : InstantiateHostTuple) (builder : FirOpBuilder) (state : LoweringState)
    (loc : Location) (valuation : Valuation) (slotAddr : Addr)
    (hslot : args.addrInTuple.eval valuation = .address (some slotAddr)) :
    ((getBase args.hostValue).getType = CapturedSimpleScalars.getType converter sym →
      dyn_cast_ptrEleTy args.addrInTuple.getType =
        CapturedSimpleScalars.getType converter sym →
      CapturedSimpleScalars.instantiateHostTuple args converter sym builder =
        .ok (builder.create (.store (getBase args.hostValue) args.addrInTuple)) ∧
      (Operation.store (getBase args.hostValue) args.addrInTuple).exec valuation =
        some (valuation.write slotAddr ((getBase args.hostValue).eval valuation)) ∧
      ∀ slot : Value,
        slot.eval (valuation.write slotAddr ((getBase args.hostValue).eval valuation)) =
          .address (some slotAddr) →
        ∃ result,
          CapturedSimpleScalars.getFromTuple { valueInTuple := .load slot, loc := loc }
            converter sym ba state = .ok result ∧
          result.symMap = state.symMap ++ [(sym, .UnboxedValue (.load slot))] ∧
          result.builder.ops = state.builder.ops ++
            (if converter.getLowerToHighLevelFIR then
              [Operation.genDeclareSymbol sym (.UnboxedValue (.load slot))]
            else []) ∧
          (Value.load slot).eval
              (valuation.write slotAddr ((getBase args.hostValue).eval valuation)) =
            (getBase args.hostValue).eval valuation) ∧
    (IsOptional sym = false →
      ∀ entity : Descriptor, args.hostValue.describe valuation = some entity →
        shapeAgrees sym ba entity → entity.lbounds.length = entity.extents.length →
        CapturedArrays.instantiateHostTuple args converter sym builder =
          .ok (builder.create (.associateMutableBox (.MutableBoxValue args.addrInTuple [])
            args.hostValue [])) ∧
        (Operation.associateMutableBox (.MutableBoxValue args.addrInTuple [])
          args.hostValue []).exec valuation =
          some (valuation.write slotAddr (.box (some entity))) ∧
        ∀ (slot : Value) (shape : List (Option Nat)) (ele : MlirType),
          slot.eval (valuation.write slotAddr (.box (some entity))) =
            .address (some slotAddr) →
          (Value.load slot).getType.getBoxEleTy = some (.seq shape ele) →
          shape.length = entity.extents.length →
          ∃ bound result,
            CapturedArrays.getFromTuple { valueInTuple := .load slot, loc := loc }
              converter sym ba state = .ok result ∧
            result.symMap = state.symMap ++ [(sym, bound)] ∧
            bound.describe (valuation.write slotAddr (.box (some entity))) = some entity ∧
            bound.isBoxValue = !CapturedArrays.canReadCapturedBoxValue converter sym) := by
  constructor
  · intro hhost haddr
    refine ⟨?_, ?_, ?_⟩
    · unfold CapturedSimpleScalars.instantiateHostTuple storeInTuple
      simp [haddr, CapturedSimpleScalars.getType, MlirType.isSet,
        FirOpBuilder.createConvertWithVolatileCast, hhost, StoreOp.create]
    · simp [Operation.exec, hslot]
    · intro slot hslotAfter
      refine ⟨bindCapturedSymbol sym (.UnboxedValue (.load slot)) converter state, rfl,
        bindCapturedSymbol_symMap _ _ _ _, ?_, ?_⟩
      · unfold bindCapturedSymbol
        split
        · simp [genDeclareSymbol, FirOpBuilder.create]
        · simp
      · simp [Value.eval, hslotAfter, write_memory]
  · intro hoptional entity hentity hagree hrank
    refine ⟨?_, ?_, ?_⟩
    · unfold CapturedArrays.instantiateHostTuple
      simp [hoptional, associateMutableBox]
    · simp [Operation.exec, getBase, hslot, hentity, evalIntegers]
    · intro slot shape ele hslotAfter htype hshape
      exact array_getFromTuple converter sym ba state loc (.load slot) _ entity shape ele
        hoptional (by simp [Value.eval, hslotAfter, write_memory]) hagree hrank htype hshape

/-- Witness for C16: the round trip of the integer scalar `x`, whose address
comes back from the slot, and of the contiguous array `z` of 10 elements,
which comes back in address plus bounds form with its address, its lower
bound 1 and its extent 10. -/
theorem round_trip_witness :
    (∃ result,
      CapturedSimpleScalars.getFromTuple
        { valueInTuple := .load Sample.slotX, loc := { source := "internal" } }
        Sample.converter Sample.x {} {} = .ok result ∧
      result.symMap = [(Sample.x, .UnboxedValue (.load Sample.slotX))] ∧
      result.builder.ops = [] ∧
      (Value.load Sample.slotX).eval (Sample.valuation.write 2 (.address (some 1))) =
        .address (some 1)) ∧
    (∃ bound result,
      CapturedArrays.getFromTuple
        { valueInTuple := .load Sample.slotZ, loc := { source := "internal" } }
        Sample.converter Sample.z (BoxAnalyzer.analyze {} Sample.z) {} = .ok result ∧
      result.symMap = [(Sample.z, bound)] ∧
      bound.describe (Sample.valuation.write 4
          (.box (some { base := some 3, lbounds := [1], extents := [10] }))) =
        some { base := some 3, lbounds := [1], extents := [10] } ∧
      bound.isBoxValue = false) := by
  constructor
  · obtain ⟨_, _, hout⟩ := (round_trip Sample.converter Sample.x {}
      { hostValue := .UnboxedValue Sample.hostX, addrInTuple := Sample.slotX,
        loc := { source := "host" } } {} {} { source := "internal" } Sample.valuation 2 rfl).1
      rfl rfl
    exact hout Sample.slotX rfl
  · obtain ⟨_, _, hout⟩ := (round_trip Sample.converter Sample.z
      (BoxAnalyzer.analyze {} Sample.z)
      { hostValue := Sample.hostZ, addrInTuple := Sample.slotZ,
        loc := { source := "host" } } {} {} { source := "internal" } Sample.valuation 4 rfl).2
      rfl { base := some 3, lbounds := [1], extents := [10] } rfl (by decide) rfl
    exact hout Sample.slotZ [none] (.base "i32") rfl rfl rfl

end RoundTrip

/-! ## Theorems: the absence of an optional entity through a slot of the tuple -/

section OptionalAbsence

/-- The base address read from a box that holds a descriptor. -/
theorem eval_box_addr (valuation : Valuation) (type : MlirType) (box : Value)
    (descriptor : Descriptor) (hbox : box.eval valuation = .box (some descriptor)) :
    (Value.box_addr type box).eval valuation = .address descriptor.base := by
  simp [Value.eval, hbox]

/-- The presence test on a value that is not present. -/
theorem eval_is_present_absent (valuation : Valuation) (val : Value)
    (habsent : (val.eval valuation).isPresent = some false) :
    (Value.is_present val).eval valuation = .boolean false := by
  simp [Value.eval, habsent]

/-- The box that marshal out selects for an optional entity, from a box whose
base address is null: the absent box. -/
theorem selectAbsentBox_absent (builder : FirOpBuilder) (box : Value) (valuation : Valuation)
    (descriptor : Descriptor) (eleTy : MlirType)
    (hbox : box.eval valuation = .box (some descriptor))
    (hbase : descriptor.base = none)
    (htype : box.getType.getBoxEleTy = some eleTy) :
    ∃ selected after,
      selectAbsentBox builder box = .ok (selected, after) ∧
      selected.eval valuation = .box none ∧
      (Value.is_present selected).eval valuation = .boolean false := by
  refine ⟨_, _, by simp only [selectAbsentBox, htype]; rfl, ?_, ?_⟩ <;>
    simp [SelectOp.create, AbsentOp.create, FirOpBuilder.genIsNotNullAddr, BoxAddrOp.create,
      Value.eval, hbox, hbase, htype, RuntimeValue.isPresent]

/-- A handle that is not present is null. -/
theorem isSome_false {α : Type} (handle : Option α) (h : some handle.isSome = some false) :
    handle = none := by
  cases handle with
  | none => rfl
  | some x => simp at h

/-- The entity that an absent host value denotes, when it denotes one, has a
null address. -/
theorem describe_absent (valuation : Valuation) (hostValue : ExtendedValue)
    (entity : Descriptor)
    (habsent : ((getBase hostValue).eval valuation).isPresent = some false)
    (hentity : hostValue.describe valuation = some entity) :
    entity.base = none := by
  cases hostValue with
  | UnboxedValue base =>
    simp only [getBase] at habsent
    simp only [ExtendedValue.describe] at hentity
    cases hbase : base.eval valuation with
    | address addr =>
      rw [hbase] at habsent hentity
      have hnull := isSome_false addr habsent
      simp only [Option.some.injEq] at hentity
      rw [← hentity, hnull]
    | box descriptor =>
      rw [hbase] at habsent hentity
      have hnull := isSome_false descriptor habsent
      rw [hnull] at hentity
      cases hentity
    | undefined => rw [hbase] at hentity; cases hentity
    | integer value => rw [hbase] at hentity; cases hentity
    | boolean value => rw [hbase] at hentity; cases hentity
  | CharBoxValue addr len =>
    simp only [getBase] at habsent
    simp only [ExtendedValue.describe] at hentity
    cases hbase : addr.eval valuation with
    | address addr =>
      rw [hbase] at habsent hentity
      have hnull := isSome_false addr habsent
      simp only [Option.some.injEq] at hentity
      rw [← hentity, hnull]
    | box descriptor => rw [hbase] at hentity; cases hentity
    | undefined => rw [hbase] at hentity; cases hentity
    | integer value => rw [hbase] at hentity; cases hentity
    | boolean value => rw [hbase] at hentity; cases hentity
  | ArrayBoxValue addr extents lbounds =>
    simp only [getBase] at habsent
    simp only [ExtendedValue.describe, describeArray] at hentity
    split at hentity
    · rename_i base _ _ hbase _ _
      rw [hbase] at habsent
      have hnull := isSome_false base habsent
      simp only [Option.some.injEq] at hentity
      rw [← hentity, hnull]
    · cases hentity
  | CharArrayBoxValue addr len extents lbounds =>
    simp only [getBase] at habsent
    simp only [ExtendedValue.describe, describeArray] at hentity
    split at hentity
    · rename_i base _ _ hbase _ _
      rw [hbase] at habsent
      have hnull := isSome_false base habsent
      simp only [Option.some.injEq] at hentity
      rw [← hentity, hnull]
    · cases hentity
  | ProcBoxValue addr host => simp [ExtendedValue.describe] at hentity
  | BoxValue box lbounds explicitParams =>
    simp only [getBase] at habsent
    simp only [ExtendedValue.describe] at hentity
    split at hentity
    · rename_i descriptor _ hbox _
      rw [hbox] at habsent
      simp [RuntimeValue.isPresent] at habsent
    · cases hentity
  | MutableBoxValue addr lenParams => simp [ExtendedValue.describe] at hentity
  | PolymorphicValue addr sourceBox => simp [ExtendedValue.describe] at hentity

/-- The operations of two lists put end to end run one list after the other. -/
theorem execRegion_append (front back : List Operation) (valuation : Valuation) :
    Operation.exec.execRegion (front ++ back) valuation =
      (Operation.exec.execRegion front valuation).bind (Operation.exec.execRegion back) := by
  induction front generalizing valuation with
  | nil => rfl
  | cons op rest ih =>
    simp only [List.cons_append, Operation.exec.execRegion]
    cases op.exec valuation with
    | none => rfl
    | some next => exact ih next

/-- C17, amended. Optional absence, in a state where the address of the slot
denotes an address and the host value is absent (the presence test on its
base says so). For an optional polymorphic scalar, marshal in stores in the
slot the unallocated box, a present descriptor with a null base address, and
marshal out applied to the value loaded from the slot binds the symbol to the
box selected between the loaded box and the absent box, which is the absent
box. For an optional array, marshal in leaves in the slot a descriptor with a
null base address (by the disassociation when the host value is a box, by the
association with the entity of null address otherwise); marshal out applied
to the value loaded from the slot binds the symbol, when the box cannot be
read into simpler values, to a box that is the absent box, and when it can, to
the address plus bounds form, whose address is null. In each case the presence
test on the base of the bound value evaluates to absent. -/
theorem optional_absence (converter : AbstractConverter) (sym : Symbol) (ba : BoxAnalyzer)
    (args : InstantiateHostTuple) (builder : FirOpBuilder) (state : LoweringState)
    (loc : Location) (valuation : Valuation) (slotAddr : Addr)
    (hoptional : IsOptional sym = true)
    (hslot : args.addrInTuple.eval valuation = .address (some slotAddr))
    (habsent : ((getBase args.hostValue).eval valuation).isPresent = some false) :
    (∀ eleTy, (dyn_cast_ptrEleTy args.addrInTuple.getType).getBoxEleTy = some eleTy →
      ∃ ops,
        CapturedPolymorphicScalar.instantiateHostTuple args converter sym builder =
          .ok { builder with ops := builder.ops ++ ops } ∧
        Operation.exec.execRegion ops valuation =
          some (valuation.write slotAddr (.box (some { base := none }))) ∧
        ∀ slot : Value,
          slot.eval (valuation.write slotAddr (.box (some { base := none }))) =
            .address (some slotAddr) →
          (Value.load slot).getType.getBoxEleTy = some eleTy →
          ∃ bound result,
            CapturedPolymorphicScalar.getFromTuple { valueInTuple := .load slot, loc := loc }
              converter sym ba state = .ok result ∧
            result.symMap = state.symMap ++ [(sym, .UnboxedValue bound)] ∧
            bound.eval (valuation.write slotAddr (.box (some { base := none }))) =
              .box none ∧
            (Value.is_present bound).eval
              (valuation.write slotAddr (.box (some { base := none }))) = .boolean false) ∧
    ((args.hostValue.isBoxValue = false → (args.hostValue.describe valuation).isSome) →
      ∃ ops descriptor,
        CapturedArrays.instantiateHostTuple args converter sym builder =
          .ok { builder with ops := builder.ops ++ ops } ∧
        Operation.exec.execRegion ops valuation =
          some (valuation.write slotAddr (.box (some descriptor))) ∧
        descriptor.base = none ∧
        ∀ (slot : Value) (shape : List (Option Nat)) (ele : MlirType),
          slot.eval (valuation.write slotAddr (.box (some descriptor))) =
            .address (some slotAddr) →
          (Value.load slot).getType.getBoxEleTy = some (.seq shape ele) →
          ∃ bound result,
            CapturedArrays.getFromTuple { valueInTuple := .load slot, loc := loc }
              converter sym ba state = .ok result ∧
            result.symMap = state.symMap ++ [(sym, bound)] ∧
            (Value.is_present (getBase bound)).eval
              (valuation.write slotAddr (.box (some descriptor))) = .boolean false ∧
            (CapturedArrays.canReadCapturedBoxValue converter sym = false →
              bound.isBoxValue = true ∧
              (getBase bound).eval (valuation.write slotAddr (.box (some descriptor))) =
                .box none) ∧
            (CapturedArrays.canReadCapturedBoxValue converter sym = true →
              bound.isBoxValue = false ∧
              (getBase bound).eval (valuation.write slotAddr (.box (some descriptor))) =
                .address none)) := by
  constructor
  · intro eleTy htype
    have hset : (dyn_cast_ptrEleTy args.addrInTuple.getType).isSet = true := by
      cases hty : dyn_cast_ptrEleTy args.addrInTuple.getType <;>
        simp [hty, MlirType.getBoxEleTy, MlirType.isSet] at htype ⊢
    have hcast : ∀ before : FirOpBuilder,
        (((before.createConvertWithVolatileCast (dyn_cast_ptrEleTy args.addrInTuple.getType)
          (getBase args.hostValue)).1.eval valuation).isPresent = some false) ∧
        ∃ ops, (before.createConvertWithVolatileCast
          (dyn_cast_ptrEleTy args.addrInTuple.getType) (getBase args.hostValue)).2 =
            { before with ops := before.ops ++ ops } ∧
          Operation.exec.execRegion ops valuation = some valuation := by
      intro before
      unfold FirOpBuilder.createConvertWithVolatileCast
      split
      · exact ⟨habsent, [], by simp, rfl⟩
      · exact ⟨by simpa [Value.eval] using habsent, [_], rfl, rfl⟩
    obtain ⟨hcastAbsent, castOps, hcastOps, hcastExec⟩ := hcast builder
    refine ⟨castOps ++ [.define (.is_present (builder.createConvertWithVolatileCast
        (dyn_cast_ptrEleTy args.addrInTuple.getType) (getBase args.hostValue)).1),
      .fir_if (.is_present (builder.createConvertWithVolatileCast
        (dyn_cast_ptrEleTy args.addrInTuple.getType) (getBase args.hostValue)).1)
        [.store (builder.createConvertWithVolatileCast
          (dyn_cast_ptrEleTy args.addrInTuple.getType) (getBase args.hostValue)).1
          args.addrInTuple]
        [.define (.unallocatedBox (dyn_cast_ptrEleTy args.addrInTuple.getType)),
          .store (.unallocatedBox (dyn_cast_ptrEleTy args.addrInTuple.getType))
            args.addrInTuple]], ?_, ?_, ?_⟩
    · unfold CapturedPolymorphicScalar.instantiateHostTuple
      simp only [hset, hoptional, Bool.not_true, Bool.false_eq_true, if_false, if_true]
      simp [IsPresentOp.create, FirOpBuilder.genIfThenElse, FirOpBuilder.create, hcastOps,
        StoreOp.create, createUnallocatedBox]
    · rw [execRegion_append, hcastExec]
      simp [Operation.exec, Operation.exec.execRegion, hslot, Value.eval, hcastAbsent]
    · intro slot hslotAfter hloadTy
      obtain ⟨selected, after, hselect, hvalue, hpresent⟩ :=
        selectAbsentBox_absent state.builder (.load slot)
          (valuation.write slotAddr (.box (some { base := none }))) { base := none } eleTy
          (by simp [Value.eval, hslotAfter, write_memory]) rfl hloadTy
      refine ⟨selected, bindCapturedSymbol sym (.UnboxedValue selected) converter
        { state with builder := after }, ?_, bindCapturedSymbol_symMap _ _ _ _, hvalue,
        hpresent⟩
      unfold CapturedPolymorphicScalar.getFromTuple
      simp only [hoptional, if_true, hselect]
  · intro hdescribed
    have hout : ∀ descriptor : Descriptor, descriptor.base = none →
        ∀ (slot : Value) (shape : List (Option Nat)) (ele : MlirType),
          slot.eval (valuation.write slotAddr (.box (some descriptor))) =
            .address (some slotAddr) →
          (Value.load slot).getType.getBoxEleTy = some (.seq shape ele) →
          ∃ bound result,
            CapturedArrays.getFromTuple { valueInTuple := .load slot, loc := loc }
              converter sym ba state = .ok result ∧
            result.symMap = state.symMap ++ [(sym, bound)] ∧
            (Value.is_present (getBase bound)).eval
              (valuation.write slotAddr (.box (some descriptor))) = .boolean false ∧
            (CapturedArrays.canReadCapturedBoxValue converter sym = false →
              bound.isBoxValue = true ∧
              (getBase bound).eval (valuation.write slotAddr (.box (some descriptor))) =
                .box none) ∧
            (CapturedArrays.canReadCapturedBoxValue converter sym = true →
              bound.isBoxValue = false ∧
              (getBase bound).eval (valuation.write slotAddr (.box (some descriptor))) =
                .address none) := by
      intro descriptor hbase slot shape ele hslotAfter hloadTy
      have hbox : (Value.load slot).eval (valuation.write slotAddr (.box (some descriptor))) =
          .box (some descriptor) := by
        simp [Value.eval, hslotAfter, write_memory]
      by_cases hread : CapturedArrays.canReadCapturedBoxValue converter sym = true
      · have hform : ∀ (before : FirOpBuilder) (lbounds : List Value),
            (readBoxValue before (.load slot) lbounds).1.isBoxValue = false ∧
            (getBase (readBoxValue before (.load slot) lbounds).1).eval
              (valuation.write slotAddr (.box (some descriptor))) = .address none := by
          intro before lbounds
          unfold readBoxValue
          simp only [hloadTy, Option.getD_some]
          cases ele <;>
            simp [ExtendedValue.isBoxValue, getBase, eval_box_addr _ _ _ _ hbox, hbase]
        obtain ⟨hnotBox, haddr⟩ := hform
          (CapturedArrays.getLBounds state.builder sym ba (.load slot)).2
          (CapturedArrays.getLBounds state.builder sym ba (.load slot)).1
        refine ⟨(readBoxValue (CapturedArrays.getLBounds state.builder sym ba (.load slot)).2
            (.load slot) (CapturedArrays.getLBounds state.builder sym ba (.load slot)).1).1,
          bindCapturedSymbol sym
            (readBoxValue (CapturedArrays.getLBounds state.builder sym ba (.load slot)).2
              (.load slot) (CapturedArrays.getLBounds state.builder sym ba (.load slot)).1).1
            converter
            { state with
              builder := (readBoxValue
                (CapturedArrays.getLBounds state.builder sym ba (.load slot)).2 (.load slot)
                (CapturedArrays.getLBounds state.builder sym ba (.load slot)).1).2 },
          ?_, bindCapturedSymbol_symMap _ _ _ _, ?_, ?_, ?_⟩
        · unfold CapturedArrays.getFromTuple
          simp only [hread, if_true]
        · exact eval_is_present_absent _ _ (by rw [haddr]; rfl)
        · intro hno
          rw [hread] at hno
          cases hno
        · intro _
          exact ⟨hnotBox, haddr⟩
      · have hread2 : CapturedArrays.canReadCapturedBoxValue converter sym = false := by
          simpa using hread
        obtain ⟨selected, after, hselect, hvalue, hpresent⟩ :=
          selectAbsentBox_absent (CapturedArrays.getLBounds state.builder sym ba (.load slot)).2
            (.load slot) (valuation.write slotAddr (.box (some descriptor))) descriptor
            (.seq shape ele) hbox hbase hloadTy
        refine ⟨.BoxValue selected
            (CapturedArrays.getLBounds state.builder sym ba (.load slot)).1 [],
          bindCapturedSymbol sym
            (.BoxValue selected
              (CapturedArrays.getLBounds state.builder sym ba (.load slot)).1 []) converter
            { state with builder := after },
          ?_, bindCapturedSymbol_symMap _ _ _ _, hpresent, ?_, ?_⟩
        · unfold CapturedArrays.getFromTuple
          simp only [hread2, hoptional, Bool.false_eq_true, if_false, if_true, hselect]
        · intro _
          exact ⟨rfl, hvalue⟩
        · intro hyes
          rw [hread2] at hyes
          cases hyes
    by_cases hboxValue : args.hostValue.isBoxValue = true
    · refine ⟨[.define (.is_present (getBase args.hostValue)),
        .fir_if (.is_present (getBase args.hostValue))
          [.associateMutableBox (.MutableBoxValue args.addrInTuple []) args.hostValue []]
          [.disassociateMutableBox (.MutableBoxValue args.addrInTuple [])]],
        { base := none }, ?_, ?_, rfl, hout _ rfl⟩
      · unfold CapturedArrays.instantiateHostTuple
        simp [hboxValue, hoptional, IsPresentOp.create, FirOpBuilder.genIfThenElse,
          FirOpBuilder.create, associateMutableBox, disassociateMutableBox]
      · have hcond : (Value.is_present (getBase args.hostValue)).eval valuation =
            .boolean false := eval_is_present_absent _ _ habsent
        have hbase : getBase (.MutableBoxValue args.addrInTuple []) = args.addrInTuple := rfl
        simp [Operation.exec, Operation.exec.execRegion, hcond, hslot, hbase]
    · have hboxValue2 : args.hostValue.isBoxValue = false := by simpa using hboxValue
      obtain ⟨entity, hentity⟩ := Option.isSome_iff_exists.mp (hdescribed hboxValue2)
      refine ⟨[.associateMutableBox (.MutableBoxValue args.addrInTuple []) args.hostValue []],
        entity, ?_, ?_, describe_absent valuation args.hostValue entity habsent hentity,
        hout _ (describe_absent valuation args.hostValue entity habsent hentity)⟩
      · unfold CapturedArrays.instantiateHostTuple
        simp [hboxValue2, FirOpBuilder.create, associateMutableBox]
      · simp [Operation.exec, Operation.exec.execRegion, hslot, getBase, hentity, evalIntegers]


/-- Witness for C17: the optional polymorphic scalar `po` and the optional
array `v`, which is kept as a box, are bound to the absent box when the host
value is absent. -/
theorem optional_absence_witness :
    (∃ bound result,
      CapturedPolymorphicScalar.getFromTuple
        { valueInTuple := .load Sample.slotPo, loc := { source := "internal" } }
        Sample.converter Sample.po {} {} = .ok result ∧
      result.symMap = [(Sample.po, .UnboxedValue bound)] ∧
      bound.eval (Sample.absentValuation.write 4 (.box (some { base := none }))) =
        .box none) ∧
    (∃ descriptor bound result,
      CapturedArrays.getFromTuple
        { valueInTuple := .load Sample.slotV, loc := { source := "internal" } }
        Sample.converter Sample.v (BoxAnalyzer.analyze {} Sample.v) {} = .ok result ∧
      result.symMap = [(Sample.v, bound)] ∧
      bound.isBoxValue = true ∧
      (getBase bound).eval (Sample.absentValuation.write 6 (.box (some descriptor))) =
        .box none) := by
  constructor
  · obtain ⟨_, _, _, hout⟩ := (optional_absence Sample.converter Sample.po {}
      { hostValue := Sample.hostPo, addrInTuple := Sample.slotPo, loc := { source := "host" } }
      {} {} { source := "internal" } Sample.absentValuation 4 rfl rfl rfl).1
      (.base "t") rfl
    obtain ⟨bound, result, hok, hmap, hvalue, _⟩ := hout Sample.slotPo rfl rfl
    exact ⟨bound, result, hok, hmap, hvalue⟩
  · obtain ⟨_, descriptor, _, _, _, hout⟩ := (optional_absence Sample.converter Sample.v
      (BoxAnalyzer.analyze {} Sample.v)
      { hostValue := Sample.hostV, addrInTuple := Sample.slotV, loc := { source := "host" } }
      {} {} { source := "internal" } Sample.absentValuation 6 rfl rfl rfl).2
      (fun hform => by cases hform)
    obtain ⟨bound, result, hok, hmap, _, hkept, _⟩ :=
      hout Sample.slotV [none] (.base "i32") rfl rfl
    exact ⟨descriptor, bound, result, hok, hmap, (hkept rfl).1, (hkept rfl).2⟩

/-- C17, as stated, fails: the optional contiguous array `w`, whose host value
is an absent box, is bound after marshal in and marshal out to a value in
address plus bounds form, whose base is a null address and not the absent
box. -/
theorem optional_absence_counterexample :
    IsOptional Sample.w = true ∧
    ((getBase Sample.hostW).eval Sample.absentValuation).isPresent = some false ∧
    ∃ stored result,
      CapturedArrays.instantiateHostTuple
        { hostValue := Sample.hostW, addrInTuple := Sample.slotW, loc := { source := "host" } }
        Sample.converter Sample.w {} =
        .ok { ops := [
          .define (.is_present (getBase Sample.hostW)),
          .fir_if (.is_present (getBase Sample.hostW))
            [.associateMutableBox (.MutableBoxValue Sample.slotW []) Sample.hostW []]
            [.disassociateMutableBox (.MutableBoxValue Sample.slotW [])]] } ∧
      Operation.exec.execRegion [
          .define (.is_present (getBase Sample.hostW)),
          .fir_if (.is_present (getBase Sample.hostW))
            [.associateMutableBox (.MutableBoxValue Sample.slotW []) Sample.hostW []]
            [.disassociateMutableBox (.MutableBoxValue Sample.slotW [])]]
        Sample.absentValuation = some stored ∧
      stored.memory 8 = .box (some { base := none }) ∧
      CapturedArrays.getFromTuple
        { valueInTuple := .load Sample.slotW, loc := { source := "internal" } }
        Sample.converter Sample.w (BoxAnalyzer.analyze {} Sample.w) {} = .ok result ∧
      result.symMap = [(Sample.w,
        .ArrayBoxValue (.box_addr (.ref (.seq [none] (.base "i32"))) (.load Sample.slotW))
          [.box_dims (.load Sample.slotW) (.constant .index 0) 1] [])] ∧
      (Value.box_addr (.ref (.seq [none] (.base "i32"))) (.load Sample.slotW)).eval stored =
        .address none ∧
      (Value.box_addr (.ref (.seq [none] (.base "i32"))) (.load Sample.slotW)).eval stored ≠
        .box none :=
  ⟨rfl, rfl, _, _, rfl, rfl, rfl, rfl, rfl, rfl, by decide⟩

end OptionalAbsence

/-! ## Theorems: the marshal in and the marshal out of arrays -/

section Arrays

/-- The constants of the lower bounds are created in order, after the
operations created before. -/
theorem staticLBounds_snd (builder : FirOpBuilder) (constants : List Int)
    (lbounds : List Value) :
    (CapturedArrays.staticLBounds builder constants lbounds).2 =
      { builder with
        ops := builder.ops ++
          constants.map (fun lb => Operation.define (.constant .index lb)) } := by
  induction constants generalizing builder lbounds with
  | nil => simp [CapturedArrays.staticLBounds]
  | cons first rest ih =>
    simp [CapturedArrays.staticLBounds, FirOpBuilder.createIntegerConstant, ih,
      FirOpBuilder.create]

/-- The reads of the lower bounds from the box are created in order, each
after the constant of its dimension. -/
theorem boxLBounds_snd (builder : FirOpBuilder) (box : Value) (count dim : Nat)
    (lbounds : List Value) :
    (CapturedArrays.boxLBounds builder box count dim lbounds).2 =
      { builder with
        ops := builder.ops ++ (List.range' dim count).flatMap
          (fun (k : Nat) =>
            [Operation.define (.constant .index (k : Int)),
              Operation.define (.box_dims box (.constant .index (k : Int)) 0)]) } := by
  induction count generalizing builder dim lbounds with
  | zero => simp [CapturedArrays.boxLBounds]
  | succ count ih =>
    simp [CapturedArrays.boxLBounds, FirOpBuilder.createIntegerConstant, BoxDimsOp.create, ih,
      FirOpBuilder.create, List.range'_succ]

/-- The call of `readBoxValue` is recorded after the operations created
before, and its result is not a box. -/
theorem readBoxValue_form (builder : FirOpBuilder) (box : Value) (lbounds : List Value) :
    (readBoxValue builder box lbounds).2 =
      { builder with ops := builder.ops ++ [.readBoxValue (.BoxValue box lbounds [])] } ∧
    (readBoxValue builder box lbounds).1.isBoxValue = false := by
  unfold readBoxValue
  simp only [FirOpBuilder.create]
  split
  · split <;> exact ⟨rfl, rfl⟩
  · exact ⟨rfl, rfl⟩
  · exact ⟨rfl, rfl⟩

/-- The three ways in which `CapturedArrays::getFromTuple` ends: the box is read
into simpler values; the box is kept; the box is kept after the selection of
the absent box, which asserts that the value loaded has a box type. -/
theorem array_getFromTuple_eq (args : GetFromTuple) (converter : AbstractConverter)
    (sym : Symbol) (ba : BoxAnalyzer) (state : LoweringState) :
    (CapturedArrays.canReadCapturedBoxValue converter sym = true →
      CapturedArrays.getFromTuple args converter sym ba state =
        .ok (bindCapturedSymbol sym
          (readBoxValue (CapturedArrays.getLBounds state.builder sym ba args.valueInTuple).2
            args.valueInTuple
            (CapturedArrays.getLBounds state.builder sym ba args.valueInTuple).1).1
          converter
          { state with
            builder := (readBoxValue
              (CapturedArrays.getLBounds state.builder sym ba args.valueInTuple).2
              args.valueInTuple
              (CapturedArrays.getLBounds state.builder sym ba args.valueInTuple).1).2 })) ∧
    (CapturedArrays.canReadCapturedBoxValue converter sym = false → IsOptional sym = false →
      CapturedArrays.getFromTuple args converter sym ba state =
        .ok (bindCapturedSymbol sym
          (.BoxValue args.valueInTuple
            (CapturedArrays.getLBounds state.builder sym ba args.valueInTuple).1 [])
          converter
          { state with
            builder := (CapturedArrays.getLBounds state.builder sym ba args.valueInTuple).2 })) ∧
    (CapturedArrays.canReadCapturedBoxValue converter sym = false → IsOptional sym = true →
      (args.valueInTuple.getType.getBoxEleTy = none →
        CapturedArrays.getFromTuple args converter sym ba state =
          .error (.assertion "cast<Ty>() argument of incompatible type!")) ∧
      ∀ eleTy, args.valueInTuple.getType.getBoxEleTy = some eleTy →
        ∃ selected after,
          selectAbsentBox
            (CapturedArrays.getLBounds state.builder sym ba args.valueInTuple).2
            args.valueInTuple = .ok (selected, after) ∧
          CapturedArrays.getFromTuple args converter sym ba state =
            .ok (bindCapturedSymbol sym
              (.BoxValue selected
                (CapturedArrays.getLBounds state.builder sym ba args.valueInTuple).1 [])
              converter { state with builder := after })) := by
  refine ⟨?_, ?_, ?_⟩
  · intro hread
    unfold CapturedArrays.getFromTuple
    simp only [hread, if_true]
  · intro hread hoptional
    unfold CapturedArrays.getFromTuple
    simp only [hread, hoptional, Bool.false_eq_true, if_false]
  · intro hread hoptional
    refine ⟨?_, ?_⟩
    · intro htype
      unfold CapturedArrays.getFromTuple
      simp only [hread, hoptional, Bool.false_eq_true, if_false, if_true, selectAbsentBox,
        htype]
    · intro eleTy htype
      refine ⟨_, _, by simp only [selectAbsentBox, htype]; rfl, ?_⟩
      unfold CapturedArrays.getFromTuple
      simp only [hread, hoptional, Bool.false_eq_true, if_false, if_true, selectAbsentBox,
        htype]
      rfl

/-- The binding of a captured symbol keeps the operations created before and
adds at most the declaration of the symbol. -/
theorem bindCapturedSymbol_ops (sym : Symbol) (val : ExtendedValue)
    (converter : AbstractConverter) (state : LoweringState) :
    (bindCapturedSymbol sym val converter state).builder.ops =
      state.builder.ops ++
        (if converter.getLowerToHighLevelFIR then [Operation.genDeclareSymbol sym val]
        else []) := by
  unfold bindCapturedSymbol
  split
  · simp [genDeclareSymbol, FirOpBuilder.create]
  · simp

/-- C21. Array marshal out, flattening. `canReadCapturedBoxValue` holds exactly
when the symbol has rank 0 or is simply contiguous, is not polymorphic, has no
derived type length parameters and is not of assumed rank. When it holds,
`getFromTuple` binds the symbol to the result of `readBoxValue` on the loaded
box with the recovered lower bounds, which is not a box (the address plus
bounds form). When it does not hold, the symbol is bound to a `BoxValue` that
carries the recovered lower bounds: the loaded box itself for a symbol that is
not optional, the box selected between it and the absent box for an optional
symbol (the loaded value being of a box type, which the selection asserts). -/
theorem array_flattening (args : GetFromTuple) (converter : AbstractConverter)
    (sym : Symbol) (ba : BoxAnalyzer) (state : LoweringState) :
    (CapturedArrays.canReadCapturedBoxValue converter sym = true ↔
      (sym.Rank = 0 ∨ IsSimplyContiguous sym = true) ∧ IsPolymorphic sym = false ∧
        isDerivedWithLenParameters sym = false ∧ IsAssumedRank sym = false) ∧
    (CapturedArrays.canReadCapturedBoxValue converter sym = true →
      CapturedArrays.getFromTuple args converter sym ba state =
        .ok (bindCapturedSymbol sym
          (readBoxValue (CapturedArrays.getLBounds state.builder sym ba args.valueInTuple).2
            args.valueInTuple
            (CapturedArrays.getLBounds state.builder sym ba args.valueInTuple).1).1
          converter
          { state with
            builder :=
              { (CapturedArrays.getLBounds state.builder sym ba args.valueInTuple).2 with
                ops := (CapturedArrays.getLBounds state.builder sym ba args.valueInTuple).2.ops ++
                  [.readBoxValue (.BoxValue args.valueInTuple
                    (CapturedArrays.getLBounds state.builder sym ba args.valueInTuple).1
                    [])] } }) ∧
      (readBoxValue (CapturedArrays.getLBounds state.builder sym ba args.valueInTuple).2
        args.valueInTuple
        (CapturedArrays.getLBounds state.builder sym ba args.valueInTuple).1).1.isBoxValue =
        false) ∧
    (CapturedArrays.canReadCapturedBoxValue converter sym = false → IsOptional sym = false →
      CapturedArrays.getFromTuple args converter sym ba state =
        .ok (bindCapturedSymbol sym
          (.BoxValue args.valueInTuple
            (CapturedArrays.getLBounds state.builder sym ba args.valueInTuple).1 [])
          converter
          { state with
            builder := (CapturedArrays.getLBounds state.builder sym ba args.valueInTuple).2 })) ∧
    (CapturedArrays.canReadCapturedBoxValue converter sym = false → IsOptional sym = true →
      ∀ eleTy, args.valueInTuple.getType.getBoxEleTy = some eleTy →
        ∃ selected after,
          selectAbsentBox
            (CapturedArrays.getLBounds state.builder sym ba args.valueInTuple).2
            args.valueInTuple = .ok (selected, after) ∧
          CapturedArrays.getFromTuple args converter sym ba state =
            .ok (bindCapturedSymbol sym
              (.BoxValue selected
                (CapturedArrays.getLBounds state.builder sym ba args.valueInTuple).1 [])
              converter { state with builder := after })) := by
  obtain ⟨hread, hkeep, hselect⟩ := array_getFromTuple_eq args converter sym ba state
  refine ⟨?_, ?_, hkeep, fun hno hoptional => (hselect hno hoptional).2⟩
  · simp [CapturedArrays.canReadCapturedBoxValue, and_assoc]
  · intro hyes
    obtain ⟨hops, hform⟩ := readBoxValue_form
      (CapturedArrays.getLBounds state.builder sym ba args.valueInTuple).2 args.valueInTuple
      (CapturedArrays.getLBounds state.builder sym ba args.valueInTuple).1
    refine ⟨?_, hform⟩
    rw [hread hyes, hops]

/-- Witness for C21: the contiguous array `z` is bound in address plus bounds
form, the assumed-shape array `y`, which is not contiguous, as a box. -/
theorem array_flattening_witness :
    (∃ result,
      CapturedArrays.getFromTuple
        { valueInTuple := .load Sample.slotZ, loc := { source := "internal" } }
        Sample.converter Sample.z (BoxAnalyzer.analyze {} Sample.z) {} = .ok result ∧
      result.symMap = [(Sample.z,
        .ArrayBoxValue (.box_addr (.ref (.seq [none] (.base "i32"))) (.load Sample.slotZ))
          [.box_dims (.load Sample.slotZ) (.constant .index 0) 1] [])]) ∧
    (∃ result,
      CapturedArrays.getFromTuple
        { valueInTuple := .load Sample.slotZ, loc := { source := "internal" } }
        Sample.converter Sample.y (BoxAnalyzer.analyze {} Sample.y) {} = .ok result ∧
      result.symMap = [(Sample.y,
        .BoxValue (.load Sample.slotZ)
          [.box_dims (.load Sample.slotZ) (.constant .index 0) 0] [])]) :=
  ⟨⟨_, ((array_flattening
      { valueInTuple := .load Sample.slotZ, loc := { source := "internal" } }
      Sample.converter Sample.z (BoxAnalyzer.analyze {} Sample.z) {}).2.1 rfl).1, rfl⟩,
    ⟨_, (array_flattening
      { valueInTuple := .load Sample.slotZ, loc := { source := "internal" } }
      Sample.converter Sample.y (BoxAnalyzer.analyze {} Sample.y) {}).2.2.1 rfl rfl, rfl⟩⟩

/-- C22. Array marshal out, lower bounds. The list of lower bounds recovered
by `getFromTuple` is empty, and no operation is created for it, when the shape
analysis reports that all lower bounds are one or the symbol is of assumed
rank; otherwise, for a static array, it is the list of the index constants of
the static lower bounds, in order, and these constants are the operations
created; otherwise it has `sym.Rank` entries, the entry of the dimension d
being the first result (the lower bound) of `fir.box_dims` on the loaded box
for the constant d, for d from 0 in increasing order, and the operations
created are these constants and these reads: no bound expression is
evaluated. This list is the one of the `BoxValue` that `getFromTuple` reads
(the call of `readBoxValue` recorded) or binds. -/
theorem array_lower_bounds (args : GetFromTuple) (converter : AbstractConverter)
    (sym : Symbol) (ba : BoxAnalyzer) (state : LoweringState) :
    ((ba.lboundIsAllOnes = true ∨ IsAssumedRank sym = true) →
      CapturedArrays.getLBounds state.builder sym ba args.valueInTuple =
        ([], state.builder)) ∧
    (ba.lboundIsAllOnes = false → IsAssumedRank sym = false → ba.isStaticArray = true →
      CapturedArrays.getLBounds state.builder sym ba args.valueInTuple =
        (ba.staticLBound.map (Value.constant .index),
          { state.builder with
            ops := state.builder.ops ++
              ba.staticLBound.map (fun lb => Operation.define (.constant .index lb)) })) ∧
    (ba.lboundIsAllOnes = false → IsAssumedRank sym = false → ba.isStaticArray = false →
      CapturedArrays.getLBounds state.builder sym ba args.valueInTuple =
        ((List.range sym.Rank).map
            (fun (d : Nat) => Value.box_dims args.valueInTuple (.constant .index (d : Int)) 0),
          { state.builder with
            ops := state.builder.ops ++ (List.range sym.Rank).flatMap
              (fun (d : Nat) =>
                [Operation.define (.constant .index (d : Int)),
                  Operation.define
                    (.box_dims args.valueInTuple (.constant .index (d : Int)) 0)]) }) ∧
      (CapturedArrays.getLBounds state.builder sym ba args.valueInTuple).1.length =
        sym.Rank) ∧
    (∀ result, CapturedArrays.getFromTuple args converter sym ba state = .ok result →
      ∃ bound, result.symMap = state.symMap ++ [(sym, bound)] ∧
        (CapturedArrays.canReadCapturedBoxValue converter sym = true →
          bound = (readBoxValue
            (CapturedArrays.getLBounds state.builder sym ba args.valueInTuple).2
            args.valueInTuple
            (CapturedArrays.getLBounds state.builder sym ba args.valueInTuple).1).1 ∧
          Operation.readBoxValue (.BoxValue args.valueInTuple
            (CapturedArrays.getLBounds state.builder sym ba args.valueInTuple).1 []) ∈
            result.builder.ops) ∧
        (CapturedArrays.canReadCapturedBoxValue converter sym = false →
          ∃ kept, bound = .BoxValue kept
            (CapturedArrays.getLBounds state.builder sym ba args.valueInTuple).1 [])) := by
  refine ⟨?_, ?_, ?_, ?_⟩
  · intro hones
    have hcond : (!ba.lboundIsAllOnes && !IsAssumedRank sym) = false := by
      rcases hones with h | h <;> simp [h]
    simp [CapturedArrays.getLBounds, hcond]
  · intro hones hrank hstatic
    simp only [CapturedArrays.getLBounds, hones, hrank, hstatic, Bool.not_false, Bool.and_self,
      if_true]
    exact Prod.ext (by rw [staticLBounds_fst]; rfl) (staticLBounds_snd _ _ _)
  · intro hones hrank hstatic
    have heq : CapturedArrays.getLBounds state.builder sym ba args.valueInTuple =
        CapturedArrays.boxLBounds state.builder args.valueInTuple sym.Rank 0 [] := by
      simp [CapturedArrays.getLBounds, hones, hrank, hstatic]
    rw [heq]
    refine ⟨Prod.ext ?_ ?_, ?_⟩
    · rw [boxLBounds_fst, List.range_eq_range']
      rfl
    · rw [boxLBounds_snd, List.range_eq_range']
    · rw [boxLBounds_fst]
      simp
  · intro result hok
    obtain ⟨hread, hkeep, hselect⟩ := array_getFromTuple_eq args converter sym ba state
    by_cases hyes : CapturedArrays.canReadCapturedBoxValue converter sym = true
    · rw [hread hyes] at hok
      injection hok with hok
      refine ⟨_, by rw [← hok, bindCapturedSymbol_symMap], ?_, ?_⟩
      · intro _
        refine ⟨rfl, ?_⟩
        rw [← hok, bindCapturedSymbol_ops]
        apply List.mem_append_left
        rw [(readBoxValue_form _ _ _).1]
        simp
      · intro hno
        rw [hyes] at hno
        cases hno
    · have hno : CapturedArrays.canReadCapturedBoxValue converter sym = false := by
        simpa using hyes
      by_cases hoptional : IsOptional sym = true
      · cases htype : args.valueInTuple.getType.getBoxEleTy with
        | none =>
          rw [(hselect hno hoptional).1 htype] at hok
          cases hok
        | some eleTy =>
          obtain ⟨selected, after, _, heq⟩ := (hselect hno hoptional).2 eleTy htype
          rw [heq] at hok
          injection hok with hok
          refine ⟨_, by rw [← hok, bindCapturedSymbol_symMap], ?_, ?_⟩
          · intro hyes2
            exact absurd hyes2 hyes
          · intro _
            exact ⟨selected, rfl⟩
      · have hoptional2 : IsOptional sym = false := by simpa using hoptional
        rw [hkeep hno hoptional2] at hok
        injection hok with hok
        refine ⟨_, by rw [← hok, bindCapturedSymbol_symMap], ?_, ?_⟩
        · intro hyes2
          exact absurd hyes2 hyes
        · intro _
          exact ⟨args.valueInTuple, rfl⟩

/-- Witness for C22: no lower bound is recovered for the array `z`, whose
lower bounds are all one; the constant 0 for the static array `s(0:9)`; the
lower bound read from the box for the assumed-shape array `y`. -/
theorem array_lower_bounds_witness :
    CapturedArrays.getLBounds {} Sample.z (BoxAnalyzer.analyze {} Sample.z)
        (.load Sample.slotZ) = ([], {}) ∧
    CapturedArrays.getLBounds {} Sample.s (BoxAnalyzer.analyze {} Sample.s)
        (.load Sample.slotZ) =
      ([.constant .index 0], { ops := [.define (.constant .index 0)] }) ∧
    CapturedArrays.getLBounds {} Sample.y (BoxAnalyzer.analyze {} Sample.y)
        (.load Sample.slotZ) =
      ([.box_dims (.load Sample.slotZ) (.constant .index 0) 0],
        { ops := [.define (.constant .index 0),
                  .define (.box_dims (.load Sample.slotZ) (.constant .index 0) 0)] }) :=
  ⟨(array_lower_bounds { valueInTuple := .load Sample.slotZ, loc := { source := "internal" } }
      Sample.converter Sample.z (BoxAnalyzer.analyze {} Sample.z) {}).1 (Or.inl rfl),
    (array_lower_bounds { valueInTuple := .load Sample.slotZ, loc := { source := "internal" } }
      Sample.converter Sample.s (BoxAnalyzer.analyze {} Sample.s) {}).2.1 rfl rfl rfl,
    ((array_lower_bounds { valueInTuple := .load Sample.slotZ, loc := { source := "internal" } }
      Sample.converter Sample.y (BoxAnalyzer.analyze {} Sample.y) {}).2.2.1 rfl rfl rfl).1⟩

/-- C23. Array marshal in, presence branch. When the host value is a
`BoxValue` and the symbol is optional, `instantiateHostTuple` creates the
presence test of the base of the host value and one `fir.if` on it, whose
first region associates the box of the slot with the host value and whose
second region disassociates the box of the slot, and nothing else: the second
region does not use the host value. In every other case (the symbol is not
optional, or the host value is not a `BoxValue`) it creates the association
alone: no presence test and no `fir.if`. -/
theorem array_presence_branch (args : InstantiateHostTuple) (converter : AbstractConverter)
    (sym : Symbol) (builder : FirOpBuilder) :
    (args.hostValue.isBoxValue = true → IsOptional sym = true →
      CapturedArrays.instantiateHostTuple args converter sym builder =
        .ok { builder with
          ops := builder.ops ++ [
            .define (.is_present (getBase args.hostValue)),
            .fir_if (.is_present (getBase args.hostValue))
              [.associateMutableBox (.MutableBoxValue args.addrInTuple []) args.hostValue []]
              [.disassociateMutableBox (.MutableBoxValue args.addrInTuple [])]] }) ∧
    ((args.hostValue.isBoxValue = false ∨ IsOptional sym = false) →
      CapturedArrays.instantiateHostTuple args converter sym builder =
        .ok { builder with
          ops := builder.ops ++ [
            .associateMutableBox (.MutableBoxValue args.addrInTuple [])
              args.hostValue []] }) := by
  constructor
  · intro hbox hoptional
    simp [CapturedArrays.instantiateHostTuple, hbox, hoptional, IsPresentOp.create,
      FirOpBuilder.genIfThenElse, FirOpBuilder.create, associateMutableBox,
      disassociateMutableBox]
  · intro hnot
    have hcond : (args.hostValue.isBoxValue && IsOptional sym) = false := by
      rcases hnot with h | h <;> simp [h]
    simp [CapturedArrays.instantiateHostTuple, hcond, FirOpBuilder.create,
      associateMutableBox]

/-- Witness for C23: for the optional array `w`, whose host value is a box,
the association is made under the presence test; for the array `z`, which is
not optional, the association is made alone. -/
theorem array_presence_branch_witness :
    CapturedArrays.instantiateHostTuple
        { hostValue := Sample.hostW, addrInTuple := Sample.slotW, loc := { source := "host" } }
        Sample.converter Sample.w {} =
      .ok { ops := [
        .define (.is_present (getBase Sample.hostW)),
        .fir_if (.is_present (getBase Sample.hostW))
          [.associateMutableBox (.MutableBoxValue Sample.slotW []) Sample.hostW []]
          [.disassociateMutableBox (.MutableBoxValue Sample.slotW [])]] } ∧
    CapturedArrays.instantiateHostTuple
        { hostValue := Sample.hostZ, addrInTuple := Sample.slotZ, loc := { source := "host" } }
        Sample.converter Sample.z {} =
      .ok { ops := [.associateMutableBox (.MutableBoxValue Sample.slotZ []) Sample.hostZ []] } :=
  ⟨(array_presence_branch
      { hostValue := Sample.hostW, addrInTuple := Sample.slotW, loc := { source := "host" } }
      Sample.converter Sample.w {}).1 rfl rfl,
    (array_presence_branch
      { hostValue := Sample.hostZ, addrInTuple := Sample.slotZ, loc := { source := "host" } }
      Sample.converter Sample.z {}).2 (Or.inl rfl)⟩

end Arrays

/-! ## Theorems: the marshal out of allocatables and pointers -/

section AllocatableAndPointer

/-- C24. Allocatable and pointer marshal out, length recovery. The symbol is
bound to the `MutableBoxValue` of the value of the tuple element (the address
that the slot holds) with a list of non deferred length parameters that is:
the index constant of the length, which is created, when the shape analysis
reports a character with a constant length; otherwise the length read at run
time from the box, by `getAssumedCharAllocatableOrPointerLen`, when it reports
a character and the symbol is an assumed length character or the length is
given by an expression; empty, with no operation created, when it reports a
character of deferred length, and when it does not report a character and the
symbol has no derived type length parameters (with such parameters nothing is
bound: the member stops with the "not yet implemented" exit). The list of a
value that is bound never has more than one entry. -/
theorem allocatable_pointer_length_recovery (args : GetFromTuple)
    (converter : AbstractConverter) (sym : Symbol) (ba : BoxAnalyzer)
    (state : LoweringState) :
    (ba.isChar = true → ∀ len, ba.getCharLenConst = some len →
      CapturedAllocatableAndPointer.getFromTuple args converter sym ba state =
        .ok (bindCapturedSymbol sym
          (.MutableBoxValue args.valueInTuple [.constant .index len]) converter
          { state with
            builder := state.builder.create (.define (.constant .index len)) })) ∧
    (ba.isChar = true → ba.getCharLenConst = none →
      (IsAssumedLengthCharacter sym = true ∨ ba.getCharLenExpr = true) →
      CapturedAllocatableAndPointer.getFromTuple args converter sym ba state =
        .ok (bindCapturedSymbol sym
          (.MutableBoxValue args.valueInTuple [.assumedCharLen sym args.valueInTuple])
          converter
          { state with
            builder := state.builder.create
              (.define (.assumedCharLen sym args.valueInTuple)) })) ∧
    (ba.isChar = true → ba.getCharLenConst = none →
      IsAssumedLengthCharacter sym = false → ba.getCharLenExpr = false →
      CapturedAllocatableAndPointer.getFromTuple args converter sym ba state =
        .ok (bindCapturedSymbol sym (.MutableBoxValue args.valueInTuple []) converter
          state)) ∧
    (ba.isChar = false → isDerivedWithLenParameters sym = false →
      CapturedAllocatableAndPointer.getFromTuple args converter sym ba state =
        .ok (bindCapturedSymbol sym (.MutableBoxValue args.valueInTuple []) converter
          state)) ∧
    (ba.isChar = false → isDerivedWithLenParameters sym = true →
      CapturedAllocatableAndPointer.getFromTuple args converter sym ba state =
        .error (.todo args.loc
          "host associated derived type allocatable or pointer with length parameters")) ∧
    (∀ result,
      CapturedAllocatableAndPointer.getFromTuple args converter sym ba state = .ok result →
      ∃ nonDeferredLenParams,
        result.symMap =
          state.symMap ++ [(sym, .MutableBoxValue args.valueInTuple nonDeferredLenParams)] ∧
        nonDeferredLenParams.length ≤ 1) := by
  have hconst : ba.isChar = true → ∀ len, ba.getCharLenConst = some len →
      CapturedAllocatableAndPointer.getFromTuple args converter sym ba state =
        .ok (bindCapturedSymbol sym
          (.MutableBoxValue args.valueInTuple [.constant .index len]) converter
          { state with
            builder := state.builder.create (.define (.constant .index len)) }) := by
    intro hchar len hlen
    simp [CapturedAllocatableAndPointer.getFromTuple, hchar, hlen,
      FirOpBuilder.createIntegerConstant]
  have hexpr : ba.isChar = true → ba.getCharLenConst = none →
      (IsAssumedLengthCharacter sym = true ∨ ba.getCharLenExpr = true) →
      CapturedAllocatableAndPointer.getFromTuple args converter sym ba state =
        .ok (bindCapturedSymbol sym
          (.MutableBoxValue args.valueInTuple [.assumedCharLen sym args.valueInTuple])
          converter
          { state with
            builder := state.builder.create
              (.define (.assumedCharLen sym args.valueInTuple)) }) := by
    intro hchar hlen hor
    have hcond : (IsAssumedLengthCharacter sym || ba.getCharLenExpr) = true := by
      rcases hor with h | h <;> simp [h]
    simp [CapturedAllocatableAndPointer.getFromTuple, hchar, hlen, hcond,
      getAssumedCharAllocatableOrPointerLen]
  have hdeferred : ba.isChar = true → ba.getCharLenConst = none →
      IsAssumedLengthCharacter sym = false → ba.getCharLenExpr = false →
      CapturedAllocatableAndPointer.getFromTuple args converter sym ba state =
        .ok (bindCapturedSymbol sym (.MutableBoxValue args.valueInTuple []) converter
          state) := by
    intro hchar hlen hassumed hexpr
    simp [CapturedAllocatableAndPointer.getFromTuple, hchar, hlen, hassumed, hexpr]
  have hother : ba.isChar = false → isDerivedWithLenParameters sym = false →
      CapturedAllocatableAndPointer.getFromTuple args converter sym ba state =
        .ok (bindCapturedSymbol sym (.MutableBoxValue args.valueInTuple []) converter
          state) := by
    intro hchar hlen
    simp [CapturedAllocatableAndPointer.getFromTuple, hchar, hlen]
  have htodo : ba.isChar = false → isDerivedWithLenParameters sym = true →
      CapturedAllocatableAndPointer.getFromTuple args converter sym ba state =
        .error (.todo args.loc
          "host associated derived type allocatable or pointer with length parameters") := by
    intro hchar hlen
    simp [CapturedAllocatableAndPointer.getFromTuple, hchar, hlen]
  refine ⟨hconst, hexpr, hdeferred, hother, htodo, ?_⟩
  intro result hok
  by_cases hchar : ba.isChar = true
  · cases hlen : ba.getCharLenConst with
    | some len =>
      rw [hconst hchar len hlen] at hok
      injection hok with hok
      exact ⟨_, by rw [← hok, bindCapturedSymbol_symMap], by simp⟩
    | none =>
      by_cases hor : IsAssumedLengthCharacter sym = true ∨ ba.getCharLenExpr = true
      · rw [hexpr hchar hlen hor] at hok
        injection hok with hok
        exact ⟨_, by rw [← hok, bindCapturedSymbol_symMap], by simp⟩
      · simp only [not_or, Bool.not_eq_true] at hor
        rw [hdeferred hchar hlen hor.1 hor.2] at hok
        injection hok with hok
        exact ⟨_, by rw [← hok, bindCapturedSymbol_symMap], by simp⟩
  · have hchar2 : ba.isChar = false := by simpa using hchar
    by_cases hlen : isDerivedWithLenParameters sym = true
    · rw [htodo hchar2 hlen] at hok
      cases hok
    · have hlen2 : isDerivedWithLenParameters sym = false := by simpa using hlen
      rw [hother hchar2 hlen2] at hok
      injection hok with hok
      exact ⟨_, by rw [← hok, bindCapturedSymbol_symMap], by simp⟩

/-- Witness for C24: the allocatable character array `a`, of deferred length,
is bound without length parameter; with a shape analysis that reports the
constant length 10 it is bound with the index constant 10. -/
theorem allocatable_pointer_length_recovery_witness :
    CapturedAllocatableAndPointer.getFromTuple
        { valueInTuple := .load Sample.slotX, loc := { source := "internal" } }
        Sample.converter Sample.a (BoxAnalyzer.analyze {} Sample.a) {} =
      .ok { symMap := [(Sample.a, .MutableBoxValue (.load Sample.slotX) [])] } ∧
    CapturedAllocatableAndPointer.getFromTuple
        { valueInTuple := .load Sample.slotX, loc := { source := "internal" } }
        Sample.converter Sample.a { isChar := true, getCharLenConst := some 10 } {} =
      .ok { builder := { ops := [.define (.constant .index 10)] },
            symMap := [(Sample.a,
              .MutableBoxValue (.load Sample.slotX) [.constant .index 10])] } :=
  ⟨(allocatable_pointer_length_recovery
      { valueInTuple := .load Sample.slotX, loc := { source := "internal" } }
      Sample.converter Sample.a (BoxAnalyzer.analyze {} Sample.a) {}).2.2.1 rfl rfl rfl rfl,
    (allocatable_pointer_length_recovery
      { valueInTuple := .load Sample.slotX, loc := { source := "internal" } }
      Sample.converter Sample.a { isChar := true, getCharLenConst := some 10 } {}).1 rfl
      10 rfl⟩

end AllocatableAndPointer

/-! ## Theorems: the length parameter check guards the capture classes -/

section LenParameters

open HostAssociations

/-- The selection of the absent box stops on a failed cast only. -/
theorem selectAbsentBox_error (builder : FirOpBuilder) (box : Value) (failure : Failure)
    (herr : selectAbsentBox builder box = .error failure) :
    ∃ msg, failure = .assertion msg := by
  unfold selectAbsentBox at herr
  simp only at herr
  split at herr
  · injection herr with herr
    exact ⟨_, herr.symm⟩
  · cases herr

/-- The slot type of a class is refused by a failed assertion only. -/
theorem getType_error (category : SymbolCategory) (converter : AbstractConverter)
    (sym : Symbol) (failure : Failure)
    (herr : category.getType converter sym = .error failure) :
    ∃ msg, failure = .assertion msg := by
  cases category
  · cases herr
  · cases herr
  · simp only [SymbolCategory.getType, CapturedCharacterScalars.getType] at herr
    split at herr
    · cases herr
    · injection herr with herr
      exact ⟨_, herr.symm⟩
  · cases herr
  · cases herr
  · simp only [SymbolCategory.getType, CapturedArrays.getType] at herr
    split at herr
    · injection herr with herr
      exact ⟨_, herr.symm⟩
    · split at herr <;> cases herr

/-- The marshal in of a class stops on a failed assertion only. -/
theorem instantiateHostTuple_error (category : SymbolCategory) (args : InstantiateHostTuple)
    (converter : AbstractConverter) (sym : Symbol) (builder : FirOpBuilder)
    (failure : Failure)
    (herr : category.instantiateHostTuple args converter sym builder = .error failure) :
    ∃ msg, failure = .assertion msg := by
  have hstore : ∀ before, storeInTuple args before = .error failure →
      ∃ msg, failure = .assertion msg := by
    intro before hstore
    unfold storeInTuple at hstore
    simp only at hstore
    split at hstore
    · injection hstore with hstore
      exact ⟨_, hstore.symm⟩
    · cases hstore
  cases category
  · exact hstore builder herr
  · exact hstore builder herr
  · simp only [SymbolCategory.instantiateHostTuple,
      CapturedCharacterScalars.instantiateHostTuple] at herr
    split at herr
    · injection herr with herr
      exact ⟨_, herr.symm⟩
    · cases herr
  · simp only [SymbolCategory.instantiateHostTuple,
      CapturedPolymorphicScalar.instantiateHostTuple] at herr
    split at herr
    · injection herr with herr
      exact ⟨_, herr.symm⟩
    · split at herr <;> cases herr
  · simp only [SymbolCategory.instantiateHostTuple,
      CapturedAllocatableAndPointer.instantiateHostTuple] at herr
    split at herr
    · injection herr with herr
      exact ⟨_, herr.symm⟩
    · exact hstore builder herr
  · simp only [SymbolCategory.instantiateHostTuple, CapturedArrays.instantiateHostTuple] at herr
    split at herr <;> cases herr

/-- The marshal out of an allocatable or pointer returns a state when the shape
analysis reports a character, and when the symbol has no length parameters. -/
theorem allocatable_pointer_error_free (args : GetFromTuple) (converter : AbstractConverter)
    (sym : Symbol) (ba : BoxAnalyzer) (state : LoweringState) :
    (ba.isChar = true →
      ∃ result, CapturedAllocatableAndPointer.getFromTuple args converter sym ba state =
        .ok result) ∧
    (ba.isChar = false → isDerivedWithLenParameters sym = false →
      ∃ result, CapturedAllocatableAndPointer.getFromTuple args converter sym ba state =
        .ok result) := by
  constructor
  · intro hchar
    unfold CapturedAllocatableAndPointer.getFromTuple
    simp only [hchar, if_true]
    split
    · exact ⟨_, rfl⟩
    · split <;> exact ⟨_, rfl⟩
  · intro hchar hlen
    unfold CapturedAllocatableAndPointer.getFromTuple
    simp only [hchar, hlen, Bool.false_eq_true, if_false]
    exact ⟨_, rfl⟩

/-- The marshal out of a class, on a symbol without length parameters, stops
on a failed assertion only. -/
theorem getFromTuple_error (category : SymbolCategory) (args : GetFromTuple)
    (converter : AbstractConverter) (sym : Symbol) (ba : BoxAnalyzer)
    (state : LoweringState) (failure : Failure)
    (hlen : isDerivedWithLenParameters sym = false)
    (herr : category.getFromTuple args converter sym ba state = .error failure) :
    ∃ msg, failure = .assertion msg := by
  cases category
  · cases herr
  · cases herr
  · cases herr
  · simp only [SymbolCategory.getFromTuple, CapturedPolymorphicScalar.getFromTuple] at herr
    split at herr
    · split at herr
      · rename_i hselect
        injection herr with herr
        rw [herr] at hselect
        exact selectAbsentBox_error _ _ _ hselect
      · cases herr
    · cases herr
  · by_cases hchar : ba.isChar = true
    · obtain ⟨result, hok⟩ :=
        (allocatable_pointer_error_free args converter sym ba state).1 hchar
      rw [SymbolCategory.getFromTuple, hok] at herr
      cases herr
    · have hchar2 : ba.isChar = false := by simpa using hchar
      obtain ⟨result, hok⟩ :=
        (allocatable_pointer_error_free args converter sym ba state).2 hchar2 hlen
      rw [SymbolCategory.getFromTuple, hok] at herr
      cases herr
  · by_cases hread : CapturedArrays.canReadCapturedBoxValue converter sym = true
    · rw [SymbolCategory.getFromTuple,
        (array_getFromTuple_eq args converter sym ba state).1 hread] at herr
      cases herr
    · have hread2 : CapturedArrays.canReadCapturedBoxValue converter sym = false := by
        simpa using hread
      by_cases hoptional : IsOptional sym = true
      · cases htype : args.valueInTuple.getType.getBoxEleTy with
        | none =>
          rw [SymbolCategory.getFromTuple,
            ((array_getFromTuple_eq args converter sym ba state).2.2 hread2 hoptional).1
              htype] at herr
          injection herr with herr
          exact ⟨_, herr.symm⟩
        | some eleTy =>
          obtain ⟨_, _, _, heq⟩ :=
            ((array_getFromTuple_eq args converter sym ba state).2.2 hread2 hoptional).2
              eleTy htype
          rw [SymbolCategory.getFromTuple, heq] at herr
          cases herr
      · have hoptional2 : IsOptional sym = false := by simpa using hoptional
        rw [SymbolCategory.getFromTuple,
          (array_getFromTuple_eq args converter sym ba state).2.1 hread2 hoptional2] at herr
        cases herr

/-- A failed assertion is not the exit of the marshal out of allocatables and
pointers. -/
theorem assertion_not_todo (failure : Failure) (h : ∃ msg, failure = .assertion msg) :
    failure.isAllocatableOrPointerTodo = false := by
  obtain ⟨msg, rfl⟩ := h
  rfl

/-- When the dispatcher stops, it has stopped on its own length parameter
check, or the visit of a class has stopped on a symbol without length
parameters. -/
theorem walk_error_cases {T : Type} [CapturedSymbols T] (visitor : T)
    (converter : AbstractConverter) (sym : Symbol) (failure : Failure)
    (herr : walkCaptureCategories visitor converter sym = .error failure) :
    failure = .todo (converter.genLocation sym.name)
        "host associated derived type with length parameters" ∨
      (isDerivedWithLenParameters sym = false ∧
        ∃ category ba, CapturedSymbols.visit category visitor converter sym ba =
          .error failure) := by
  by_cases hlen : isDerivedWithLenParameters sym = true
  · rw [walk_lenParameters visitor converter sym hlen] at herr
    injection herr with herr
    exact Or.inl herr.symm
  · have hlen2 : isDerivedWithLenParameters sym = false := by simpa using hlen
    refine Or.inr ⟨hlen2, ?_⟩
    by_cases hproc : IsProcedure sym = true
    · rw [walk_procedure visitor converter sym hlen2 hproc] at herr
      exact ⟨_, _, herr⟩
    · have hproc2 : IsProcedure sym = false := by simpa using hproc
      rw [walk_object visitor converter sym hlen2 hproc2] at herr
      exact ⟨_, _, herr⟩

/-- When a loop stops, a run of its body has stopped in the same way. -/
theorem forEach_error {σ α : Type} (body : σ → α → Except Failure σ) (l : List α)
    (state : σ) (failure : Failure) (herr : forEach body l state = .error failure) :
    ∃ before x, x ∈ l ∧ body before x = .error failure := by
  induction l generalizing state with
  | nil =>
    unfold forEach at herr
    cases herr
  | cons x rest ih =>
    unfold forEach at herr
    cases hx : body state x with
    | error first =>
      rw [hx] at herr
      injection herr with herr
      exact ⟨state, x, List.mem_cons_self _ _, by rw [hx, herr]⟩
    | ok next =>
      rw [hx] at herr
      obtain ⟨before, y, hy, hbody⟩ := ih next herr
      exact ⟨before, y, List.mem_cons_of_mem _ hy, hbody⟩

/-- The dispatcher never stops on the exit of the marshal out of allocatables
and pointers when it builds a slot type or marshals in. -/
theorem walk_getType_error (converter : AbstractConverter) (sym : Symbol)
    (failure : Failure)
    (herr : walkCaptureCategories GetTypeInTuple.mk converter sym = .error failure) :
    failure.isAllocatableOrPointerTodo = false := by
  rcases walk_error_cases _ converter sym failure herr with h | ⟨_, category, ba, hvisit⟩
  · rw [h]
    rfl
  · exact assertion_not_todo _ (getType_error category converter sym failure hvisit)

/-- The loop of getArgumentType never stops on the exit of the marshal out of
allocatables and pointers. -/
theorem getArgumentType_walk_not_todo (converter : AbstractConverter)
    (symbols : List Symbol) (tupleTys : List MlirType) (walked : List Symbol)
    (failure : Failure)
    (herr : getArgumentType.walk converter symbols tupleTys walked = .error failure) :
    failure.isAllocatableOrPointerTodo = false := by
  induction symbols generalizing tupleTys walked with
  | nil =>
    unfold getArgumentType.walk at herr
    cases herr
  | cons sym rest ih =>
    unfold getArgumentType.walk at herr
    cases hwalk : walkCaptureCategories GetTypeInTuple.mk converter sym with
    | error first =>
      rw [hwalk] at herr
      injection herr with herr
      rw [← herr]
      exact walk_getType_error converter sym first hwalk
    | ok ty =>
      rw [hwalk] at herr
      exact ih _ _ herr

/-- The member getArgumentType never stops on the exit of the marshal out of
allocatables and pointers. -/
theorem getArgumentType_not_todo (self : HostAssociations) (converter : AbstractConverter)
    (failure : Failure) (herr : self.getArgumentType converter = .error failure) :
    failure.isAllocatableOrPointerTodo = false := by
  unfold getArgumentType at herr
  split at herr
  · cases herr
  · split at herr
    · cases herr
    · split at herr
      · rename_i first hwalk
        injection herr with herr
        rw [← herr]
        exact getArgumentType_walk_not_todo converter _ _ _ first hwalk
      · cases herr

/-- The unwrapping of the tuple type stops on a failed cast only. -/
theorem unwrapTupleTy_error (t : MlirType) (failure : Failure)
    (herr : unwrapTupleTy t = .error failure) : ∃ msg, failure = .assertion msg := by
  unfold unwrapTupleTy at herr
  split at herr
  · cases herr
  · injection herr with herr
    exact ⟨_, herr.symm⟩

/-- The field type of a tuple is refused by a failed assertion only. -/
theorem tuple_getType_error (tupTy : TypeList) (index : Nat) (failure : Failure)
    (herr : tupTy.getType index = .error failure) : ∃ msg, failure = .assertion msg := by
  induction index generalizing tupTy with
  | zero =>
    cases tupTy with
    | nil =>
      unfold TypeList.getType at herr
      injection herr with herr
      exact ⟨_, herr.symm⟩
    | cons head tail =>
      unfold TypeList.getType at herr
      cases herr
  | succ index ih =>
    cases tupTy with
    | nil =>
      unfold TypeList.getType at herr
      injection herr with herr
      exact ⟨_, herr.symm⟩
    | cons head tail =>
      unfold TypeList.getType at herr
      exact ih tail herr

/-- A run of the body of the loop of hostProcedureBindings never stops on the
exit of the marshal out of allocatables and pointers. -/
theorem host_body_not_todo (converter : AbstractConverter) (symMap : SymMap)
    (tupTy : TypeList) (hostTuple : Value) (loc : Location) (builder : FirOpBuilder)
    (s : Nat × Symbol) (failure : Failure)
    (herr : hostProcedureBindings.body converter symMap tupTy hostTuple loc builder s =
      .error failure) :
    failure.isAllocatableOrPointerTodo = false := by
  unfold hostProcedureBindings.body at herr
  cases hvisitor : hostProcedureBindings.visitor converter symMap tupTy hostTuple loc
      builder s.1 s.2 with
  | error first =>
    rw [hvisitor] at herr
    injection herr with herr
    unfold hostProcedureBindings.visitor at hvisitor
    simp only at hvisitor
    split at hvisitor
    · rename_i hty
      injection hvisitor with hvisitor
      rw [← herr, ← hvisitor]
      exact assertion_not_todo _ (tuple_getType_error _ _ _ hty)
    · cases hvisitor
  | ok pair =>
    obtain ⟨args, after⟩ := pair
    rw [hvisitor] at herr
    simp only at herr
    cases hwalk : walkCaptureCategories args converter s.2 with
    | error first =>
      rw [hwalk] at herr
      injection herr with herr
      rw [← herr]
      rcases walk_error_cases args converter s.2 first hwalk with h | ⟨_, _, _, hvisit⟩
      · rw [h]
        rfl
      · simp only [CapturedSymbols.visit] at hvisit
        cases hvisit
    | ok instantiate =>
      rw [hwalk] at herr
      simp only at herr
      obtain ⟨_, category, ba, hvisit⟩ := walk_ok_visit args converter s.2 instantiate hwalk
      simp only [CapturedSymbols.visit] at hvisit
      injection hvisit with hvisit
      rw [← hvisit] at herr
      exact assertion_not_todo _
        (instantiateHostTuple_error category args converter s.2 after failure herr)

/-- A run of the body of the second loop of internalProcedureBindings never
stops on the exit of the marshal out of allocatables and pointers: the
dispatcher has checked the length parameters before the marshal out. -/
theorem internal_body_not_todo (converter : AbstractConverter) (tupTy : TypeList)
    (tupleArg : Value) (loc : Location) (state : LoweringState) (s : Nat × Symbol)
    (failure : Failure)
    (herr : internalProcedureBindings.body converter tupTy tupleArg loc state s =
      .error failure) :
    failure.isAllocatableOrPointerTodo = false := by
  unfold internalProcedureBindings.body at herr
  cases hvisitor : internalProcedureBindings.visitor tupTy tupleArg loc state.builder s.1 with
  | error first =>
    rw [hvisitor] at herr
    injection herr with herr
    unfold internalProcedureBindings.visitor at hvisitor
    simp only at hvisitor
    split at hvisitor
    · rename_i hty
      injection hvisitor with hvisitor
      rw [← herr, ← hvisitor]
      exact assertion_not_todo _ (tuple_getType_error _ _ _ hty)
    · cases hvisitor
  | ok pair =>
    obtain ⟨args, after⟩ := pair
    rw [hvisitor] at herr
    simp only at herr
    cases hwalk : walkCaptureCategories args converter s.2 with
    | error first =>
      rw [hwalk] at herr
      injection herr with herr
      rw [← herr]
      rcases walk_error_cases args converter s.2 first hwalk with h | ⟨_, _, _, hvisit⟩
      · rw [h]
        rfl
      · simp only [CapturedSymbols.visit] at hvisit
        cases hvisit
    | ok bind =>
      rw [hwalk] at herr
      simp only at herr
      obtain ⟨hlen, category, ba, hvisit⟩ := walk_ok_visit args converter s.2 bind hwalk
      simp only [CapturedSymbols.visit] at hvisit
      injection hvisit with hvisit
      rw [← hvisit] at herr
      exact assertion_not_todo _
        (getFromTuple_error category args converter s.2 ba _ failure hlen herr)

/-- The member hostProcedureBindings never stops on the exit of the marshal
out of allocatables and pointers. -/
theorem hostProcedureBindings_not_todo (self : HostAssociations)
    (converter : AbstractConverter) (state : LoweringState) (failure : Failure)
    (herr : self.hostProcedureBindings converter state = .error failure) :
    failure.isAllocatableOrPointerTodo = false := by
  unfold hostProcedureBindings at herr
  split at herr
  · cases herr
  · split at herr
    · rename_i first hty
      injection herr with herr
      rw [← herr]
      exact getArgumentType_not_todo self converter first hty
    · split at herr
      · rename_i first hunwrap
        injection herr with herr
        rw [← herr]
        exact assertion_not_todo _ (unwrapTupleTy_error _ _ hunwrap)
      · simp only at herr
        split at herr
        · rename_i first hloop
          injection herr with herr
          rw [← herr]
          obtain ⟨before, x, _, hbody⟩ := forEach_error _ _ _ first hloop
          exact host_body_not_todo _ _ _ _ _ before x first hbody
        · cases herr

/-- The member internalProcedureBindings never stops on the exit of the marshal
out of allocatables and pointers. -/
theorem internalProcedureBindings_not_todo (self : HostAssociations)
    (converter : AbstractConverter) (state : LoweringState) (failure : Failure)
    (herr : self.internalProcedureBindings converter state = .error failure) :
    failure.isAllocatableOrPointerTodo = false := by
  unfold internalProcedureBindings at herr
  split at herr
  · rename_i first hglobals
    injection herr with herr
    rw [← herr]
    unfold internalProcedureBindings.globals at hglobals
    split at hglobals
    · split at hglobals
      · injection hglobals with hglobals
        rw [← hglobals]
        rfl
      · cases hglobals
    · cases hglobals
  · simp only at herr
    split at herr
    · cases herr
    · split at herr
      · rename_i first hty
        injection herr with herr
        rw [← herr]
        exact getArgumentType_not_todo self converter first hty
      · split at herr
        · rename_i first hunwrap
          injection herr with herr
          rw [← herr]
          exact assertion_not_todo _ (unwrapTupleTy_error _ _ hunwrap)
        · split at herr
          · injection herr with herr
            rw [← herr]
            rfl
          · split at herr
            · rename_i first hloop
              injection herr with herr
              rw [← herr]
              obtain ⟨before, x, _, hbody⟩ := forEach_error _ _ _ first hloop
              exact internal_body_not_todo _ _ _ _ before x first hbody
            · cases herr

/-- C25. The length parameter check guards the capture classes. For every
visitor, walkCaptureCategories on a symbol with derived type length parameters
stops on its own "not yet implemented" exit and visits no class, and on a
symbol without them it is the visit of the class that the dispatch probe
reports: a member of a class is reached only on a symbol without length
parameters. The "not yet implemented" exit of
`CapturedAllocatableAndPointer::getFromTuple` is the only way in which that
member stops, and it is taken on a symbol with length parameters only; so the
marshal out that the dispatcher returns never stops on it, and neither
hostProcedureBindings nor internalProcedureBindings nor getArgumentType does.
When the dispatcher returns for a symbol, the length parameter conjunct of
`canReadCapturedBoxValue` is true: the array is read into simpler values
exactly when it has rank 0 or is simply contiguous, is not polymorphic and is
not of assumed rank. -/
theorem len_parameters_guard (converter : AbstractConverter) :
    (∀ (T : Type) [CapturedSymbols T] (visitor : T) (sym : Symbol),
      (isDerivedWithLenParameters sym = true →
        walkCaptureCategories visitor converter sym =
          .error (.todo (converter.genLocation sym.name)
            "host associated derived type with length parameters")) ∧
      (isDerivedWithLenParameters sym = false →
        ∃ category ba,
          walkCaptureCategories DispatchProbe.mk converter sym = .ok (category, ba) ∧
          walkCaptureCategories visitor converter sym =
            CapturedSymbols.visit category visitor converter sym ba) ∧
      (∀ result, walkCaptureCategories visitor converter sym = .ok result →
        isDerivedWithLenParameters sym = false ∧
        CapturedArrays.canReadCapturedBoxValue converter sym =
          ((sym.Rank == 0 || IsSimplyContiguous sym) && !IsPolymorphic sym &&
            !IsAssumedRank sym))) ∧
    (∀ (args : GetFromTuple) (sym : Symbol) (ba : BoxAnalyzer) (state : LoweringState)
        (failure : Failure),
      CapturedAllocatableAndPointer.getFromTuple args converter sym ba state =
        .error failure →
      failure.isAllocatableOrPointerTodo = true ∧ isDerivedWithLenParameters sym = true) ∧
    (∀ (args : GetFromTuple) (sym : Symbol)
        (bind : LoweringState → Except Failure LoweringState) (state : LoweringState)
        (failure : Failure),
      walkCaptureCategories args converter sym = .ok bind →
      bind state = .error failure → failure.isAllocatableOrPointerTodo = false) ∧
    (∀ (self : HostAssociations) (state : LoweringState) (failure : Failure),
      self.hostProcedureBindings converter state = .error failure →
      failure.isAllocatableOrPointerTodo = false) ∧
    (∀ (self : HostAssociations) (state : LoweringState) (failure : Failure),
      self.internalProcedureBindings converter state = .error failure →
      failure.isAllocatableOrPointerTodo = false) ∧
    (∀ (self : HostAssociations) (failure : Failure),
      self.getArgumentType converter = .error failure →
      failure.isAllocatableOrPointerTodo = false) := by
  refine ⟨?_, ?_, ?_, fun self => hostProcedureBindings_not_todo self converter,
    fun self => internalProcedureBindings_not_todo self converter,
    fun self => getArgumentType_not_todo self converter⟩
  · intro T _ visitor sym
    refine ⟨walk_lenParameters visitor converter sym, ?_, ?_⟩
    · intro hlen
      by_cases hproc : IsProcedure sym = true
      · exact ⟨.CapturedProcedure, {}, by
          rw [walk_procedure DispatchProbe.mk converter sym hlen hproc]; rfl,
          walk_procedure visitor converter sym hlen hproc⟩
      · have hproc2 : IsProcedure sym = false := by simpa using hproc
        exact ⟨specDecisionOrder sym, BoxAnalyzer.analyze {} sym, by
          rw [walk_object DispatchProbe.mk converter sym hlen hproc2]; rfl,
          walk_object visitor converter sym hlen hproc2⟩
    · intro result hok
      obtain ⟨hlen, _⟩ := walk_ok_visit visitor converter sym result hok
      exact ⟨hlen, by simp [CapturedArrays.canReadCapturedBoxValue, hlen]⟩
  · intro args sym ba state failure herr
    by_cases hchar : ba.isChar = true
    · obtain ⟨result, hok⟩ :=
        (allocatable_pointer_error_free args converter sym ba state).1 hchar
      rw [hok] at herr
      cases herr
    · have hchar2 : ba.isChar = false := by simpa using hchar
      by_cases hlen : isDerivedWithLenParameters sym = true
      · simp only [CapturedAllocatableAndPointer.getFromTuple, hchar2, hlen,
          Bool.false_eq_true, if_false, if_true] at herr
        injection herr with herr
        rw [← herr]
        exact ⟨rfl, hlen⟩
      · have hlen2 : isDerivedWithLenParameters sym = false := by simpa using hlen
        obtain ⟨result, hok⟩ :=
          (allocatable_pointer_error_free args converter sym ba state).2 hchar2 hlen2
        rw [hok] at herr
        cases herr
  · intro args sym bind state failure hwalk herr
    obtain ⟨hlen, category, ba, hvisit⟩ := walk_ok_visit args converter sym bind hwalk
    simp only [CapturedSymbols.visit] at hvisit
    injection hvisit with hvisit
    rw [← hvisit] at herr
    exact assertion_not_todo _
      (getFromTuple_error category args converter sym ba state failure hlen herr)

/-- Witness for C25: the entity `d`, which has a length parameter, stops the
dispatcher for the marshal out; the allocatable `a` does not have one; and
internalProcedureBindings on the tupled set `x`, in a function without tuple
argument, stops on a fatal error that is not the exit of the marshal out of
allocatables and pointers. -/
theorem len_parameters_guard_witness :
    walkCaptureCategories
        ({ valueInTuple := .load Sample.slotX, loc := { source := "internal" } } : GetFromTuple)
        Sample.converter Sample.d =
      .error (.todo { source := "d" }
        "host associated derived type with length parameters") ∧
    (isDerivedWithLenParameters Sample.a = false ∧
      CapturedArrays.canReadCapturedBoxValue Sample.converter Sample.a =
        ((Sample.a.Rank == 0 || IsSimplyContiguous Sample.a) && !IsPolymorphic Sample.a &&
          !IsAssumedRank Sample.a)) ∧
    (Failure.fatalError { source := "host" }
      "no host association argument found").isAllocatableOrPointerTodo = false :=
  ⟨((len_parameters_guard Sample.converter).1 GetFromTuple
      { valueInTuple := .load Sample.slotX, loc := { source := "internal" } } Sample.d).1 rfl,
    ((len_parameters_guard Sample.converter).1 GetFromTuple
      { valueInTuple := .load Sample.slotX, loc := { source := "internal" } } Sample.a).2.2
      (CapturedAllocatableAndPointer.getFromTuple
        { valueInTuple := .load Sample.slotX, loc := { source := "internal" } }
        Sample.converter Sample.a (BoxAnalyzer.analyze {} Sample.a)) rfl,
    (len_parameters_guard Sample.converter).2.2.2.2.1 { tupleSymbols := [Sample.x] } {}
      (.fatalError { source := "host" } "no host association argument found") rfl⟩

end LenParameters

end Flang

namespace ArmSVE

/-! ## Theorems: the lowering of `vector.create_mask` -/

section CreateMask

/-- The size test of the pattern: a size from 2 to 16 whose `uint32_t` value
is a power of two is one of 2, 4, 8, 16. -/
theorem predicate_sized_iff (maskBaseSize : Int) :
    (decide (maskBaseSize < 2) || decide (maskBaseSize > 16) ||
        !isPowerOf2_32 (toUInt32 maskBaseSize)) = false ↔
      maskBaseSize = 2 ∨ maskBaseSize = 4 ∨ maskBaseSize = 8 ∨ maskBaseSize = 16 := by
  constructor
  · intro h
    simp only [Bool.or_eq_false_iff, decide_eq_false_iff_not, not_lt, gt_iff_lt,
      Bool.not_eq_false'] at h
    obtain ⟨⟨h2, h16⟩, hpow⟩ := h
    interval_cases maskBaseSize <;> (revert hpow; decide)
  · rintro (h | h | h | h) <;> subst h <;> decide

/-- C18. Mask size gating. CreateMaskOpLowering matches a `vector.create_mask`
(with its converted operands, of which there is at least one) exactly when the
mask type has rank 1, is scalable, and has a base size among 2, 4, 8, 16; so
it declines for the base sizes 1, 3, 32 and every other size, for a rank that
is not 1 and for a vector that is not scalable. When it declines, the
rewriter is as it was: no operation is created and the operation is in
place. When it matches, it creates a zero of type `i64` and the `whilelt`
intrinsic of the mask type on this zero and the first converted operand, and
replaces the operation by the intrinsic. -/
theorem createMask_gating (createMaskOp : CreateMaskOp) (operand : Value)
    (operands : List Value) (rewriter : ConversionPatternRewriter) :
    ((createMaskOp.getVectorType.getRank = 1 ∧
        createMaskOp.getVectorType.isScalable = true ∧
        (createMaskOp.getVectorType.getDimSize 0 = 2 ∨
          createMaskOp.getVectorType.getDimSize 0 = 4 ∨
          createMaskOp.getVectorType.getDimSize 0 = 8 ∨
          createMaskOp.getVectorType.getDimSize 0 = 16)) →
      CreateMaskOpLowering.matchAndRewrite createMaskOp (operand :: operands) rewriter =
        .ok (.success,
          { created := rewriter.created ++
              [.zero (.scalar "i64"),
               .whilelt createMaskOp.getVectorType (.zero (.scalar "i64")) operand],
            replaced := some
              (.whilelt createMaskOp.getVectorType (.zero (.scalar "i64")) operand) })) ∧
    (¬ (createMaskOp.getVectorType.getRank = 1 ∧
        createMaskOp.getVectorType.isScalable = true ∧
        (createMaskOp.getVectorType.getDimSize 0 = 2 ∨
          createMaskOp.getVectorType.getDimSize 0 = 4 ∨
          createMaskOp.getVectorType.getDimSize 0 = 8 ∨
          createMaskOp.getVectorType.getDimSize 0 = 16)) →
      CreateMaskOpLowering.matchAndRewrite createMaskOp (operand :: operands) rewriter =
        .ok (.failure, rewriter)) := by
  constructor
  · rintro ⟨hrank, hscalable, hsize⟩
    have hsized := (predicate_sized_iff _).mpr hsize
    simp [CreateMaskOpLowering.matchAndRewrite, hrank, hscalable, hsized,
      ConversionPatternRewriter.create, ConversionPatternRewriter.replaceOp]
  · intro hnot
    unfold CreateMaskOpLowering.matchAndRewrite
    by_cases hshape : (createMaskOp.getVectorType.getRank != 1 ||
        !createMaskOp.getVectorType.isScalable) = true
    · simp only [hshape, if_true]
    · have hshape2 : (createMaskOp.getVectorType.getRank != 1 ||
          !createMaskOp.getVectorType.isScalable) = false := by simpa using hshape
      have hrank : createMaskOp.getVectorType.getRank = 1 := by
        simp only [Bool.or_eq_false_iff, bne_eq_false_iff_eq] at hshape2
        exact hshape2.1
      have hscalable : createMaskOp.getVectorType.isScalable = true := by
        simp only [Bool.or_eq_false_iff, Bool.not_eq_false'] at hshape2
        exact hshape2.2
      have hsized : (decide (createMaskOp.getVectorType.getDimSize 0 < 2) ||
          decide (createMaskOp.getVectorType.getDimSize 0 > 16) ||
          !isPowerOf2_32 (toUInt32 (createMaskOp.getVectorType.getDimSize 0))) = true := by
        rw [← Bool.not_eq_false, predicate_sized_iff]
        exact fun hsize => hnot ⟨hrank, hscalable, hsize⟩
      simp only [hshape2, Bool.false_eq_true, if_false, hsized, if_true]

/-- Witness for C18: the pattern matches the mask type `vector<[4]xi1>` and
declines `vector<[3]xi1>`, `vector<[32]xi1>` and the fixed size `vector<4xi1>`. -/
theorem createMask_gating_witness :
    CreateMaskOpLowering.matchAndRewrite
        { getVectorType := { shape := [4], scalableDims := [true] } }
        [.operand "n" (.scalar "i64")] {} =
      .ok (.success,
        { created := [.zero (.scalar "i64"),
            .whilelt { shape := [4], scalableDims := [true] } (.zero (.scalar "i64"))
              (.operand "n" (.scalar "i64"))],
          replaced := some
            (.whilelt { shape := [4], scalableDims := [true] } (.zero (.scalar "i64"))
              (.operand "n" (.scalar "i64"))) }) ∧
    CreateMaskOpLowering.matchAndRewrite
        { getVectorType := { shape := [3], scalableDims := [true] } }
        [.operand "n" (.scalar "i64")] {} = .ok (.failure, {}) ∧
    CreateMaskOpLowering.matchAndRewrite
        { getVectorType := { shape := [32], scalableDims := [true] } }
        [.operand "n" (.scalar "i64")] {} = .ok (.failure, {}) ∧
    CreateMaskOpLowering.matchAndRewrite
        { getVectorType := { shape := [4], scalableDims := [false] } }
        [.operand "n" (.scalar "i64")] {} = .ok (.failure, {}) :=
  ⟨(createMask_gating { getVectorType := { shape := [4], scalableDims := [true] } }
      (.operand "n" (.scalar "i64")) [] {}).1 ⟨rfl, rfl, Or.inr (Or.inl rfl)⟩,
    (createMask_gating { getVectorType := { shape := [3], scalableDims := [true] } }
      (.operand "n" (.scalar "i64")) [] {}).2 (by decide),
    (createMask_gating { getVectorType := { shape := [32], scalableDims := [true] } }
      (.operand "n" (.scalar "i64")) [] {}).2 (by decide),
    (createMask_gating { getVectorType := { shape := [4], scalableDims := [false] } }
      (.operand "n" (.scalar "i64")) [] {}).2 (by decide)⟩

end CreateMask

/-! ## Theorems: the unrolling of the conversions to and from `svbool` -/

section SvboolConversion

/-- One run of the body of the loop, for a tile offset whose position is
shorter than the rank of the source. -/
theorem body_eq (IntrOp : SvboolIntrOp) (source : Value) (sourceType resultType : VectorType)
    (hsource : source.getType = .vector sourceType)
    (result : Value) (rewriter : ConversionPatternRewriter) (index : List Int)
    (hindex : index.dropLast.length < sourceType.getRank) :
    SvboolConversionOpLowering.body IntrOp source resultType (result, rewriter) index =
      .ok (.insert (convertedSlice IntrOp source sourceType resultType index.dropLast) result
            index.dropLast,
        { created := rewriter.created ++
            [.extract source index.dropLast,
             convertedSlice IntrOp source sourceType resultType index.dropLast,
             .insert (convertedSlice IntrOp source sourceType resultType index.dropLast)
               result index.dropLast],
          replaced := rewriter.replaced }) := by
  have hindex2 : index.length - 1 < sourceType.getRank := by simpa using hindex
  simp [SvboolConversionOpLowering.body, Value.getType, hsource, extractType, hindex2,
    convertedSlice, sliceType, ConversionPatternRewriter.create]

/-- The loop of the pattern over tile offsets whose positions are shorter than
the rank of the source: it returns, the result keeps its type, and the
operations added are, for each offset in order, the extraction of the slice,
its intrinsic conversion and the insertion of the converted slice. -/
theorem loop_eq (IntrOp : SvboolIntrOp) (source : Value) (sourceType resultType : VectorType)
    (hsource : source.getType = .vector sourceType) (indices : List (List Int))
    (hindices : ∀ index ∈ indices, index.dropLast.length < sourceType.getRank)
    (result : Value) (rewriter : ConversionPatternRewriter) :
    ∃ final emitted,
      forEach (SvboolConversionOpLowering.body IntrOp source resultType) indices
          (result, rewriter) =
        .ok (final, { created := rewriter.created ++ emitted,
                      replaced := rewriter.replaced }) ∧
      final.getType = result.getType ∧
      emitted.filterMap Value.convertedPosition? = indices.map List.dropLast ∧
      (emitted.filter Value.isIntrinsicConversion).length = indices.length ∧
      (∀ index ∈ indices,
        Value.extract source index.dropLast ∈ emitted ∧
        convertedSlice IntrOp source sourceType resultType index.dropLast ∈ emitted ∧
        ∃ dest, Value.insert
          (convertedSlice IntrOp source sourceType resultType index.dropLast) dest
          index.dropLast ∈ emitted) ∧
      emitted = unrolledSlices IntrOp source sourceType resultType
        (indices.map List.dropLast) result ∧
      final = reassembled IntrOp source sourceType resultType
        (indices.map List.dropLast) result := by
  induction indices generalizing result rewriter with
  | nil =>
    exact ⟨result, [], by simp [forEach], rfl, rfl, rfl, by simp, rfl, rfl⟩
  | cons index rest ih =>
    have hhead := body_eq IntrOp source sourceType resultType hsource result rewriter index
      (hindices index (List.mem_cons_self _ _))
    obtain ⟨final, emitted, hloop, htype, hpos, hcount, hall, hemitted, hfinal⟩ :=
      ih (fun idx hidx => hindices idx (List.mem_cons_of_mem _ hidx))
        (.insert (convertedSlice IntrOp source sourceType resultType index.dropLast) result
          index.dropLast)
        { created := rewriter.created ++
            [.extract source index.dropLast,
             convertedSlice IntrOp source sourceType resultType index.dropLast,
             .insert (convertedSlice IntrOp source sourceType resultType index.dropLast)
               result index.dropLast],
          replaced := rewriter.replaced }
    refine ⟨final,
      [.extract source index.dropLast,
       convertedSlice IntrOp source sourceType resultType index.dropLast,
       .insert (convertedSlice IntrOp source sourceType resultType index.dropLast)
         result index.dropLast] ++ emitted, ?_, ?_, ?_, ?_, ?_, ?_, ?_⟩
    · unfold forEach
      rw [hhead]
      simp only
      rw [hloop]
      simp
    · rw [htype]; rfl
    · rw [List.filterMap_append, hpos]
      simp [Value.convertedPosition?, convertedSlice]
    · rw [List.filter_append, List.length_append, hcount]
      simp [Value.isIntrinsicConversion, convertedSlice, Nat.add_comm]
    · intro idx hidx
      rcases List.mem_cons.mp hidx with heq | hrest
      · subst heq
        exact ⟨by simp, by simp, result, by simp⟩
      · obtain ⟨h1, h2, dest, h3⟩ := hall idx hrest
        exact ⟨List.mem_append_right _ h1, List.mem_append_right _ h2, dest,
          List.mem_append_right _ h3⟩
    · rw [hemitted]
      rfl
    · rw [hfinal]
      rfl

/-- The tile shape of the pattern for a source of sizes `leading` followed by
`last`: one in the leading dimensions and `last` in the trailing one. -/
theorem tileShape_eq (leading : List Int) (last : Int) :
    (List.replicate (leading ++ [last]).length (1 : Int)).set
        ((leading ++ [last]).length - 1) ((leading ++ [last]).getLastD 0) =
      List.replicate leading.length 1 ++ [last] := by
  have hlast : (leading ++ [last]).getLastD 0 = last := by
    simp [List.getLastD_eq_getLast?]
  have hset : ∀ n : Nat,
      (List.replicate (n + 1) (1 : Int)).set n last = List.replicate n 1 ++ [last] := by
    intro n
    induction n with
    | zero => rfl
    | succ n ih =>
      rw [List.replicate_succ, List.set_cons_succ, ih]
      rfl
  rw [hlast]
  simp only [List.length_append, List.length_singleton, Nat.add_sub_cancel]
  exact hset leading.length

/-- The tile offsets of the pattern have an index for every dimension, and
their positions are the coordinates of the leading dimensions in
lexicographic order. -/
theorem tileOffsets_eq (leading : List Int) (last : Int) (hlast : 0 < last) :
    (∀ index ∈ StaticTileOffsetRange (leading ++ [last])
        (List.replicate leading.length 1 ++ [last]), index.length = leading.length + 1) ∧
    (StaticTileOffsetRange (leading ++ [last])
        (List.replicate leading.length 1 ++ [last])).map List.dropLast =
      leadingCoordinates leading := by
  induction leading with
  | nil =>
    have hdiv : (divideCeil last last).toNat = 1 := by
      have : divideCeil last last = 1 := by
        unfold divideCeil
        have h1 : last + last - 1 = last * 1 + (last - 1) := by ring
        rw [h1, Int.add_comm, Int.add_mul_ediv_left _ _ (by omega),
          Int.ediv_eq_zero_of_lt (by omega) (by omega)]
        rfl
      rw [this]; rfl
    have hrange : List.range 1 = [0] := rfl
    constructor
    · intro index hindex
      simp only [List.nil_append, List.length_nil, List.replicate_zero,
        StaticTileOffsetRange, hdiv, hrange, List.flatMap_cons, List.map_cons,
        List.map_nil, List.flatMap_nil, List.append_nil, List.mem_singleton] at hindex
      rw [hindex]; rfl
    · simp [StaticTileOffsetRange, hdiv, hrange, leadingCoordinates]
  | cons size rest ih =>
    obtain ⟨hlen, hmap⟩ := ih
    have hdiv : divideCeil size 1 = size := by simp [divideCeil]
    constructor
    · intro index hindex
      simp only [List.cons_append, List.length_cons, List.replicate_succ,
        StaticTileOffsetRange, List.mem_flatMap, List.mem_map] at hindex
      obtain ⟨k, _, tail, htail, hidx⟩ := hindex
      rw [← hidx, List.length_cons, hlen tail htail]
      simp
    · simp only [List.cons_append, List.length_cons, List.replicate_succ,
        StaticTileOffsetRange, hdiv, leadingCoordinates, List.map_flatMap, List.map_map]
      congr 1
      funext k
      rw [← hmap, List.map_map]
      apply List.map_congr_left
      intro tail htail
      have hne : tail ≠ [] := by
        intro hnil
        have := hlen tail htail
        rw [hnil] at this
        simp at this
      simp only [Function.comp, Int.mul_one]
      cases tail with
      | nil => exact absurd rfl hne
      | cons a t => rfl

/-- The number of coordinates is the product of the sizes. -/
theorem leadingCoordinates_length (sizes : List Int) :
    (leadingCoordinates sizes).length = (sizes.map Int.toNat).prod := by
  induction sizes with
  | nil => rfl
  | cons size rest ih =>
    have hblocks : ∀ (n : Nat) (f : Nat → List (List Int)) (m : Nat),
        (∀ k, (f k).length = m) → ((List.range n).flatMap f).length = n * m := by
      intro n f m hf
      induction n with
      | zero => simp
      | succ n ihn =>
        rw [List.range_succ, List.flatMap_append, List.length_append, ihn]
        simp [hf, Nat.succ_mul]
    simp only [leadingCoordinates, List.map_cons, List.prod_cons]
    rw [hblocks _ _ (leadingCoordinates rest).length (fun k => by simp), ih]

/-- The coordinates are the tuples with an index from zero to below the size
in each dimension. -/
theorem mem_leadingCoordinates (sizes : List Int) (coordinate : List Int) :
    coordinate ∈ leadingCoordinates sizes ↔
      List.Forall₂ (fun index size => 0 ≤ index ∧ index < size) coordinate sizes := by
  induction sizes generalizing coordinate with
  | nil =>
    simp only [leadingCoordinates, List.mem_singleton]
    constructor
    · rintro rfl
      exact List.Forall₂.nil
    · intro h
      cases h
      rfl
  | cons size rest ih =>
    simp only [leadingCoordinates, List.mem_flatMap, List.mem_range, List.mem_map]
    constructor
    · rintro ⟨k, hk, tail, htail, rfl⟩
      refine List.Forall₂.cons ⟨by omega, by omega⟩ ((ih tail).mp htail)
    · intro h
      cases h with
      | cons hhead htail =>
        rename_i index tail
        refine ⟨index.toNat, by omega, tail, (ih tail).mpr htail, ?_⟩
        rw [Int.toNat_of_nonneg hhead.1]

/-- The coordinates are listed in strictly increasing lexicographic order. -/
theorem leadingCoordinates_pairwise (sizes : List Int) :
    (leadingCoordinates sizes).Pairwise (List.Lex (· < ·)) := by
  induction sizes with
  | nil => simp [leadingCoordinates]
  | cons size rest ih =>
    simp only [leadingCoordinates]
    rw [List.pairwise_flatMap]
    constructor
    · intro k _
      rw [List.pairwise_map]
      exact ih.imp (fun h => List.Lex.cons h)
    · apply (List.pairwise_lt_range size.toNat).imp
      intro k₁ k₂ hlt x hx y hy
      simp only [List.mem_map] at hx hy
      obtain ⟨_, _, rfl⟩ := hx
      obtain ⟨_, _, rfl⟩ := hy
      exact List.Lex.rel (by exact_mod_cast hlt)

/-- The product of positive sizes, counted in natural numbers. -/
theorem prod_toNat (sizes : List Int) (hpos : ∀ size ∈ sizes, 0 < size) :
    (((sizes.map Int.toNat).prod : Nat) : Int) = sizes.prod := by
  induction sizes with
  | nil => rfl
  | cons size rest ih =>
    simp only [List.map_cons, List.prod_cons, Nat.cast_mul]
    rw [ih (fun d hd => hpos d (List.mem_cons_of_mem _ hd)),
      Int.toNat_of_nonneg (le_of_lt (hpos size (List.mem_cons_self _ _)))]

/-- The insertion at a coordinate is created with, as destination, the result
reassembled from the coordinates before it. -/
theorem unrolledSlices_insert (IntrOp : SvboolIntrOp) (source : Value)
    (sourceType resultType : VectorType) (before after : List (List Int))
    (coordinate : List Int) (result : Value) :
    Value.insert (convertedSlice IntrOp source sourceType resultType coordinate)
        (reassembled IntrOp source sourceType resultType before result) coordinate ∈
      unrolledSlices IntrOp source sourceType resultType (before ++ coordinate :: after)
        result := by
  induction before generalizing result with
  | nil => simp [unrolledSlices, reassembled]
  | cons first rest ih =>
    simp only [List.cons_append, unrolledSlices, reassembled]
    exact List.mem_cons_of_mem _ (List.mem_cons_of_mem _ (List.mem_cons_of_mem _ (ih _)))

/-- The rewrite of a conversion whose source has the shape `leading ++ [last]`
with a positive last size: it succeeds, creates the zero constant of the result
type and then, for each coordinate of the leading dimensions in order, the
extraction of the slice, its intrinsic conversion and the insertion in the
result, which keeps the result type of the operation. -/
theorem rewrite_unrolled (IntrOp : SvboolIntrOp) (convertOp : SvboolConversionOp)
    (rewriter : ConversionPatternRewriter) (sourceType : VectorType)
    (leading : List Int) (last : Int)
    (hsource : convertOp.getSource.getType = .vector sourceType)
    (hshape : sourceType.shape = leading ++ [last])
    (hlast : 0 < last) :
    ∃ result emitted,
      SvboolConversionOpLowering.matchAndRewrite IntrOp convertOp rewriter =
        .ok (.success,
          { created := rewriter.created ++ Value.constant convertOp.getResultType :: emitted,
            replaced := some result }) ∧
      result.getType = .vector convertOp.getResultType ∧
      (emitted.filter Value.isIntrinsicConversion).length =
        (leading.map Int.toNat).prod ∧
      emitted.filterMap Value.convertedPosition? = leadingCoordinates leading ∧
      (∀ coordinate ∈ leadingCoordinates leading,
        (Value.extract convertOp.getSource coordinate).getType =
          .vector { shape := [last],
                    scalableDims := sourceType.scalableDims.drop leading.length,
                    elementType := sourceType.elementType } ∧
        Value.extract convertOp.getSource coordinate ∈ emitted ∧
        convertedSlice IntrOp convertOp.getSource sourceType convertOp.getResultType
          coordinate ∈ emitted ∧
        ∃ dest, Value.insert
          (convertedSlice IntrOp convertOp.getSource sourceType convertOp.getResultType
            coordinate) dest coordinate ∈ emitted) ∧
      emitted = unrolledSlices IntrOp convertOp.getSource sourceType convertOp.getResultType
        (leadingCoordinates leading) (Value.constant convertOp.getResultType) ∧
      result = reassembled IntrOp convertOp.getSource sourceType convertOp.getResultType
        (leadingCoordinates leading) (Value.constant convertOp.getResultType) := by
  have hrank : sourceType.getRank = leading.length + 1 := by
    simp [VectorType.getRank, hshape]
  obtain ⟨hlen, hmap⟩ := tileOffsets_eq leading last hlast
  have htile : (List.replicate sourceType.getRank (1 : Int)).set (sourceType.getRank - 1)
      (sourceType.shape.getLastD 0) = List.replicate leading.length 1 ++ [last] := by
    have := tileShape_eq leading last
    rw [VectorType.getRank, hshape]
    exact this
  have hindices : ∀ index ∈ StaticTileOffsetRange (leading ++ [last])
      (List.replicate leading.length 1 ++ [last]),
      index.dropLast.length < sourceType.getRank := by
    intro index hindex
    rw [List.length_dropLast, hlen index hindex, hrank]
    omega
  obtain ⟨final, emitted, hloop, htype, hpositions, hcount, hall, hemitted, hfinal⟩ :=
    loop_eq IntrOp convertOp.getSource sourceType convertOp.getResultType hsource _ hindices
      (Value.constant convertOp.getResultType)
      (rewriter.create (Value.constant convertOp.getResultType))
  refine ⟨final, emitted, ?_, ?_, ?_, ?_, ?_, by rw [hemitted, hmap],
    by rw [hfinal, hmap]⟩
  · have hlastD : (leading ++ [last]).getLastD 0 = last := by simp
    rw [hshape, hlastD] at htile
    simp only [SvboolConversionOpLowering.matchAndRewrite, hsource, hshape, hlastD, htile,
      hloop]
    simp [ConversionPatternRewriter.create, ConversionPatternRewriter.replaceOp]
  · rw [htype]
    rfl
  · rw [hcount, ← List.length_map (StaticTileOffsetRange (leading ++ [last])
      (List.replicate leading.length 1 ++ [last])) List.dropLast, hmap,
      leadingCoordinates_length]
  · rw [hpositions, hmap]
  · intro coordinate hcoordinate
    have hcoordLen : coordinate.length = leading.length :=
      ((mem_leadingCoordinates leading coordinate).mp hcoordinate).length_eq
    rw [← hmap, List.mem_map] at hcoordinate
    obtain ⟨index, hindex, hdrop⟩ := hcoordinate
    obtain ⟨h1, h2, h3⟩ := hall index hindex
    rw [hdrop] at h1 h2 h3
    refine ⟨?_, h1, h2, h3⟩
    simp [Value.getType, hsource, extractType, hcoordLen, hrank, hshape]

/-- C19. Rank unrolling count. For a conversion whose source has the static
shape d0, ..., dN-1 of positive sizes (N >= 2: the leading sizes d0, ..., dN-2
followed by dN-1; the statement holds for N = 1 as well), the rewrite
succeeds. After the zero constant of the result type, the operations it
creates are exactly, for each coordinate of the leading dimensions in order,
the extraction of the slice of the source at the coordinate, the intrinsic
conversion of that slice, and the insertion of the converted slice at the same
coordinate in the result reassembled so far (the zero constant for the first
coordinate); the value that replaces the operation is the result of the last
insertion. So it creates exactly d0 * ... * dN-2 intrinsic conversions, the
positions of the slices they convert are the coordinates of the leading
dimensions, each once, in strictly increasing lexicographic order, and each
slice extracted is 1-D of extent dN-1. -/
theorem svbool_unrolling_count (IntrOp : SvboolIntrOp) (convertOp : SvboolConversionOp)
    (rewriter : ConversionPatternRewriter) (sourceType : VectorType)
    (leading : List Int) (last : Int)
    (hsource : convertOp.getSource.getType = .vector sourceType)
    (hshape : sourceType.shape = leading ++ [last])
    (hpos : ∀ size ∈ sourceType.shape, 0 < size) :
    SvboolConversionOpLowering.matchAndRewrite IntrOp convertOp rewriter =
      .ok (.success,
        { created := rewriter.created ++ Value.constant convertOp.getResultType ::
            unrolledSlices IntrOp convertOp.getSource sourceType convertOp.getResultType
              (leadingCoordinates leading) (Value.constant convertOp.getResultType),
          replaced := some
            (reassembled IntrOp convertOp.getSource sourceType convertOp.getResultType
              (leadingCoordinates leading) (Value.constant convertOp.getResultType)) }) ∧
    ((((unrolledSlices IntrOp convertOp.getSource sourceType convertOp.getResultType
        (leadingCoordinates leading) (Value.constant convertOp.getResultType)).filter
          Value.isIntrinsicConversion).length : Nat) : Int) = leading.prod ∧
    (unrolledSlices IntrOp convertOp.getSource sourceType convertOp.getResultType
      (leadingCoordinates leading) (Value.constant convertOp.getResultType)).filterMap
        Value.convertedPosition? = leadingCoordinates leading ∧
    (leadingCoordinates leading).Pairwise (List.Lex (· < ·)) ∧
    (∀ coordinate, coordinate ∈ leadingCoordinates leading ↔
      List.Forall₂ (fun index size => 0 ≤ index ∧ index < size) coordinate leading) ∧
    (∀ coordinate ∈ leadingCoordinates leading,
      (Value.extract convertOp.getSource coordinate).getType =
        .vector { shape := [last],
                  scalableDims := sourceType.scalableDims.drop leading.length,
                  elementType := sourceType.elementType }) ∧
    (∀ (before after : List (List Int)) (coordinate : List Int),
      leadingCoordinates leading = before ++ coordinate :: after →
      Value.insert
        (convertedSlice IntrOp convertOp.getSource sourceType convertOp.getResultType
          coordinate)
        (reassembled IntrOp convertOp.getSource sourceType convertOp.getResultType before
          (Value.constant convertOp.getResultType))
        coordinate ∈
        unrolledSlices IntrOp convertOp.getSource sourceType convertOp.getResultType
          (leadingCoordinates leading) (Value.constant convertOp.getResultType)) := by
  have hlast : 0 < last := hpos last (by rw [hshape]; simp)
  have hleading : ∀ size ∈ leading, 0 < size := fun size hsize =>
    hpos size (by rw [hshape]; exact List.mem_append_left _ hsize)
  obtain ⟨result, emitted, hok, _, hcount, hpositions, hall, hemitted, hresult⟩ :=
    rewrite_unrolled IntrOp convertOp rewriter sourceType leading last hsource hshape hlast
  subst hemitted
  subst hresult
  refine ⟨hok, by rw [hcount, prod_toNat leading hleading], hpositions,
    leadingCoordinates_pairwise leading, mem_leadingCoordinates leading,
    fun coordinate hcoordinate => (hall coordinate hcoordinate).1, ?_⟩
  intro before after coordinate hsplit
  rw [hsplit]
  exact unrolledSlices_insert IntrOp convertOp.getSource sourceType convertOp.getResultType
    before after coordinate (Value.constant convertOp.getResultType)

/-- Witness for C19: the conversion of the documentation, of a source of type
`vector<2x[4]xi1>`, creates after the zero constant the extraction, the
intrinsic conversion and the insertion of the slice at the coordinate 0, then
those of the slice at the coordinate 1, inserted in the result of the first
insertion; the operation is replaced by the result of the second insertion. -/
theorem svbool_unrolling_count_witness :
    SvboolConversionOpLowering.matchAndRewrite .ConvertToSvboolIntrOp Sample.convertOp {} =
      .ok (.success,
        { created := [
            .constant { shape := [2, 16], scalableDims := [false, true] },
            .extract Sample.convertOp.getSource [0],
            .convert .ConvertToSvboolIntrOp { shape := [16], scalableDims := [true] }
              (.extract Sample.convertOp.getSource [0]),
            .insert
              (.convert .ConvertToSvboolIntrOp { shape := [16], scalableDims := [true] }
                (.extract Sample.convertOp.getSource [0]))
              (.constant { shape := [2, 16], scalableDims := [false, true] }) [0],
            .extract Sample.convertOp.getSource [1],
            .convert .ConvertToSvboolIntrOp { shape := [16], scalableDims := [true] }
              (.extract Sample.convertOp.getSource [1]),
            .insert
              (.convert .ConvertToSvboolIntrOp { shape := [16], scalableDims := [true] }
                (.extract Sample.convertOp.getSource [1]))
              (.insert
                (.convert .ConvertToSvboolIntrOp { shape := [16], scalableDims := [true] }
                  (.extract Sample.convertOp.getSource [0]))
                (.constant { shape := [2, 16], scalableDims := [false, true] }) [0]) [1]],
          replaced := some
            (.insert
              (.convert .ConvertToSvboolIntrOp { shape := [16], scalableDims := [true] }
                (.extract Sample.convertOp.getSource [1]))
              (.insert
                (.convert .ConvertToSvboolIntrOp { shape := [16], scalableDims := [true] }
                  (.extract Sample.convertOp.getSource [0]))
                (.constant { shape := [2, 16], scalableDims := [false, true] }) [0]) [1]) }) :=
  (svbool_unrolling_count .ConvertToSvboolIntrOp Sample.convertOp {}
    { shape := [2, 4], scalableDims := [false, true] } [2] 4 rfl rfl (by decide)).1

/-- C20, as stated, fails: the conversion of the documentation has a source of
shape 2 x 4 and is replaced by a result of shape 2 x 16. -/
theorem svbool_result_shape_counterexample :
    Sample.convertOp.getSource.getType =
        .vector { shape := [2, 4], scalableDims := [false, true] } ∧
    ∃ rewritten result,
      SvboolConversionOpLowering.matchAndRewrite .ConvertToSvboolIntrOp Sample.convertOp {} =
        .ok (.success, rewritten) ∧
      rewritten.replaced = some result ∧
      result.getType = .vector { shape := [2, 16], scalableDims := [false, true] } :=
  ⟨rfl, _, _, rfl, rfl, rfl⟩

/-- C20, amended. For a conversion whose source has the static shape
d0, ..., dN-1 of positive sizes (the leading sizes followed by dN-1), the
rewrite succeeds and the reassembled result that replaces the operation has
the result type of the operation, hence the shape of that type: it has the
shape of the source exactly when the result type of the operation has it (in
the documentation the source `vector<2x[4]xi1>` gives the result
`vector<2x[16]xi1>`). -/
theorem svbool_result_type (IntrOp : SvboolIntrOp) (convertOp : SvboolConversionOp)
    (rewriter : ConversionPatternRewriter) (sourceType : VectorType)
    (leading : List Int) (last : Int)
    (hsource : convertOp.getSource.getType = .vector sourceType)
    (hshape : sourceType.shape = leading ++ [last])
    (hpos : ∀ size ∈ sourceType.shape, 0 < size) :
    ∃ result rewritten,
      SvboolConversionOpLowering.matchAndRewrite IntrOp convertOp rewriter =
        .ok (.success, rewritten) ∧
      rewritten.replaced = some result ∧
      result.getType = .vector convertOp.getResultType ∧
      (result.getType = .vector { convertOp.getResultType with shape := sourceType.shape } ↔
        convertOp.getResultType.shape = sourceType.shape) := by
  have hlast : 0 < last := hpos last (by rw [hshape]; simp)
  obtain ⟨result, emitted, hok, htype, _⟩ :=
    rewrite_unrolled IntrOp convertOp rewriter sourceType leading last hsource hshape hlast
  refine ⟨result, _, hok, rfl, htype, ?_⟩
  rw [htype]
  constructor
  · intro h
    injection h with h
    have hsame := congrArg VectorType.shape h
    exact hsame
  · intro h
    rw [← h]

/-- Witness for C20: the result of the conversion of the documentation, whose
source has the shape 2 x 4, has the result type `vector<2x[16]xi1>` of the
operation. -/
theorem svbool_result_type_witness :
    ∃ result rewritten,
      SvboolConversionOpLowering.matchAndRewrite .ConvertToSvboolIntrOp Sample.convertOp {} =
        .ok (.success, rewritten) ∧
      rewritten.replaced = some result ∧
      result.getType = .vector { shape := [2, 16], scalableDims := [false, true] } := by
  obtain ⟨result, rewritten, hok, hreplaced, htype, _⟩ :=
    svbool_result_type .ConvertToSvboolIntrOp Sample.convertOp {}
      { shape := [2, 4], scalableDims := [false, true] } [2] 4 rfl rfl (by decide)
  exact ⟨result, rewritten, hok, hreplaced, htype⟩

end SvboolConversion

/-! ## Theorems: the coverage of the legalization -/

section Coverage

/-- The operations that the lowering of `vector.create_mask` creates are an
`LLVM::ZeroOp` and a `WhileLTIntrOp`, the operations listed for the pattern. -/
theorem createMask_creates (createMaskOp : ArmSVE.CreateMaskOp) (adaptorOperands : List Value)
    (rewriter rewritten : ConversionPatternRewriter) (outcome : LogicalResult)
    (hok : CreateMaskOpLowering.matchAndRewrite createMaskOp adaptorOperands rewriter =
      .ok (outcome, rewritten)) :
    ∀ value ∈ rewritten.created, value ∈ rewriter.created ∨
      ∃ name ∈ CreateMaskOpLowering.creates, value.getOperationName = some name := by
  unfold CreateMaskOpLowering.matchAndRewrite at hok
  simp only at hok
  split at hok
  · injection hok with hok
    injection hok with _ hok
    rw [← hok]
    exact fun value hvalue => Or.inl hvalue
  · split at hok
    · injection hok with hok
      injection hok with _ hok
      rw [← hok]
      exact fun value hvalue => Or.inl hvalue
    · split at hok
      · cases hok
      · injection hok with hok
        injection hok with _ hok
        rw [← hok]
        intro value hvalue
        simp only [ConversionPatternRewriter.create, ConversionPatternRewriter.replaceOp,
          List.mem_append, List.mem_singleton] at hvalue
        rcases hvalue with (hvalue | hvalue) | hvalue
        · exact Or.inl hvalue
        · exact Or.inr ⟨.ZeroOp, by decide, by rw [hvalue]; rfl⟩
        · exact Or.inr ⟨.WhileLTIntrOp, by decide, by rw [hvalue]; rfl⟩

/-- The operations that the loop of the unrolling creates are `vector.extract`,
the intrinsic and `vector.insert`. -/
theorem loop_creates (IntrOp : SvboolIntrOp) (source : Value) (resultType : VectorType)
    (indices : List (List Int)) (result final : Value)
    (rewriter rewritten : ConversionPatternRewriter)
    (hok : forEach (SvboolConversionOpLowering.body IntrOp source resultType) indices
      (result, rewriter) = .ok (final, rewritten)) :
    ∀ value ∈ rewritten.created, value ∈ rewriter.created ∨
      value.getOperationName = some .ExtractOp ∨
      value.getOperationName = some IntrOp.getOperationName ∨
      value.getOperationName = some .InsertOp := by
  induction indices generalizing result rewriter with
  | nil =>
    unfold forEach at hok
    injection hok with hok
    injection hok with _ hok
    rw [← hok]
    exact fun value hvalue => Or.inl hvalue
  | cons index rest ih =>
    unfold forEach at hok
    cases hbody : SvboolConversionOpLowering.body IntrOp source resultType
        (result, rewriter) index with
    | error failure => rw [hbody] at hok; cases hok
    | ok next =>
      obtain ⟨nextResult, nextRewriter⟩ := next
      rw [hbody] at hok
      intro value hvalue
      rcases ih nextResult nextRewriter hok value hvalue with hprev | hnew
      · unfold SvboolConversionOpLowering.body at hbody
        simp only at hbody
        split at hbody
        · cases hbody
        · injection hbody with hbody
          injection hbody with _ hbody
          rw [← hbody] at hprev
          simp only [ConversionPatternRewriter.create, List.mem_append,
            List.mem_singleton] at hprev
          rcases hprev with ((hprev | hprev) | hprev) | hprev
          · exact Or.inl hprev
          · exact Or.inr (Or.inl (by rw [hprev]; rfl))
          · exact Or.inr (Or.inr (Or.inl (by rw [hprev]; rfl)))
          · exact Or.inr (Or.inr (Or.inr (by rw [hprev]; rfl)))
      · exact Or.inr hnew

/-- The operations that the unrolling of a conversion creates are the
operations listed for the pattern. -/
theorem svbool_creates (name : String) (Op : OperationName) (IntrOp : SvboolIntrOp)
    (convertOp : SvboolConversionOp) (rewriter rewritten : ConversionPatternRewriter)
    (outcome : LogicalResult)
    (hok : SvboolConversionOpLowering.matchAndRewrite IntrOp convertOp rewriter =
      .ok (outcome, rewritten)) :
    ∀ value ∈ rewritten.created, value ∈ rewriter.created ∨
      ∃ created ∈ (SvboolConversionOpLowering name Op IntrOp).creates,
        value.getOperationName = some created := by
  unfold SvboolConversionOpLowering.matchAndRewrite at hok
  simp only at hok
  split at hok
  · cases hok
  · split at hok
    · cases hok
    · rename_i final last hloop
      injection hok with hok
      injection hok with _ hok
      rw [← hok]
      intro value hvalue
      simp only [ConversionPatternRewriter.replaceOp] at hvalue
      rcases loop_creates IntrOp _ _ _ _ _ _ _ hloop value hvalue with h | h | h | h
      · simp only [ConversionPatternRewriter.create, List.mem_append,
          List.mem_singleton] at h
        rcases h with h | h
        · exact Or.inl h
        · exact Or.inr ⟨.ConstantOp, by simp [SvboolConversionOpLowering], by rw [h]; rfl⟩
      · exact Or.inr ⟨.ExtractOp, by simp [SvboolConversionOpLowering], h⟩
      · exact Or.inr ⟨IntrOp.getOperationName, by simp [SvboolConversionOpLowering], h⟩
      · exact Or.inr ⟨.InsertOp, by simp [SvboolConversionOpLowering], h⟩

/-- The action of a target on an operation after more actions were set: the
last of the new actions on the operation, or else the action set before. -/
theorem getOpAction_append (actions added : List (OperationName × LegalizationAction))
    (op : OperationName) :
    ({ actions := actions ++ added } : LLVMConversionTarget).getOpAction op =
      (({ actions := added } : LLVMConversionTarget).getOpAction op).orElse
        (fun _ => ({ actions := actions } : LLVMConversionTarget).getOpAction op) := by
  simp only [LLVMConversionTarget.getOpAction, List.reverse_append, List.find?_append]
  cases List.find? (fun entry => decide (entry.1 = op)) added.reverse <;> rfl

/-- C26. Legalization coverage. The operations that
configureArmSVELegalizeForExportTarget marks illegal are exactly the
operations matched by a pattern that
populateArmSVELegalizeForLLVMExportPatterns registers, `vector.create_mask`
apart, on which the target sets no action: 20 operations, each matched by one
pattern. Every intrinsic operation that a registered pattern creates is marked
legal. The patterns registered are 21, and CreateMaskOpLowering, with the
benefit 4096, is the only one registered with a benefit. On a set and on a
target that are not empty the two functions add the same patterns and set the
same actions after the ones there. The operations listed for the lowering of
`vector.create_mask` and for the unrolling of the conversions are the ones
that their `matchAndRewrite` creates. -/
theorem legalization_coverage :
    (∀ op : OperationName,
      (configureArmSVELegalizeForExportTarget {}).getOpAction op = some .Illegal ↔
        op ≠ .CreateMaskOp ∧
          ∃ registered ∈ populateArmSVELegalizeForLLVMExportPatterns [],
            registered.pattern.root = op) ∧
    (Finset.univ.filter (fun op : OperationName =>
      (configureArmSVELegalizeForExportTarget {}).getOpAction op = some .Illegal)).card =
      20 ∧
    (configureArmSVELegalizeForExportTarget {}).getOpAction .CreateMaskOp = none ∧
    (∀ registered ∈ populateArmSVELegalizeForLLVMExportPatterns [],
      ∀ op ∈ registered.pattern.creates, op.isIntrOp = true →
        (configureArmSVELegalizeForExportTarget {}).getOpAction op = some .Legal) ∧
    (populateArmSVELegalizeForLLVMExportPatterns []).length = 21 ∧
    ((populateArmSVELegalizeForLLVMExportPatterns []).map
      (fun registered => registered.pattern.root)).Nodup ∧
    (∀ registered ∈ populateArmSVELegalizeForLLVMExportPatterns [],
      (registered.benefit ≠ none ↔ registered.pattern = CreateMaskOpLowering) ∧
      (registered.pattern = CreateMaskOpLowering → registered.benefit = some 4096)) ∧
    ({ pattern := CreateMaskOpLowering, benefit := some 4096 } : RegisteredPattern) ∈
      populateArmSVELegalizeForLLVMExportPatterns [] ∧
    (∀ patterns : RewritePatternSet,
      populateArmSVELegalizeForLLVMExportPatterns patterns =
        patterns ++ populateArmSVELegalizeForLLVMExportPatterns []) ∧
    (∀ (target : LLVMConversionTarget) (op : OperationName),
      (configureArmSVELegalizeForExportTarget target).getOpAction op =
        ((configureArmSVELegalizeForExportTarget {}).getOpAction op).orElse
          (fun _ => target.getOpAction op)) ∧
    (∀ (createMaskOp : ArmSVE.CreateMaskOp) (adaptorOperands : List Value)
        (rewriter rewritten : ConversionPatternRewriter) (outcome : LogicalResult),
      CreateMaskOpLowering.matchAndRewrite createMaskOp adaptorOperands rewriter =
        .ok (outcome, rewritten) →
      ∀ value ∈ rewritten.created, value ∈ rewriter.created ∨
        ∃ name ∈ CreateMaskOpLowering.creates, value.getOperationName = some name) ∧
    (∀ (name : String) (Op : OperationName) (IntrOp : SvboolIntrOp)
        (convertOp : SvboolConversionOp) (rewriter rewritten : ConversionPatternRewriter)
        (outcome : LogicalResult),
      SvboolConversionOpLowering.matchAndRewrite IntrOp convertOp rewriter =
        .ok (outcome, rewritten) →
      ∀ value ∈ rewritten.created, value ∈ rewriter.created ∨
        ∃ created ∈ (SvboolConversionOpLowering name Op IntrOp).creates,
          value.getOperationName = some created) := by
  refine ⟨by decide, by decide, by decide, by decide, by decide, by decide, by decide,
    by decide, ?_, ?_, ?_, ?_⟩
  · intro patterns
    simp [populateArmSVELegalizeForLLVMExportPatterns, RewritePatternSet.add]
  · intro target op
    have happend := getOpAction_append target.actions
      (configureArmSVELegalizeForExportTarget {}).actions op
    have hactions : (configureArmSVELegalizeForExportTarget target).actions =
        target.actions ++ (configureArmSVELegalizeForExportTarget {}).actions := by
      simp [configureArmSVELegalizeForExportTarget, LLVMConversionTarget.addLegalOp,
        LLVMConversionTarget.addIllegalOp]
    have htarget : configureArmSVELegalizeForExportTarget target =
        { actions := target.actions ++ (configureArmSVELegalizeForExportTarget {}).actions } := by
      rw [← hactions]
    rw [htarget, happend]
  · exact createMask_creates
  · exact svbool_creates

/-- Witness for C26: the intrinsic `WhileLTIntrOp`, which CreateMaskOpLowering
creates, is marked legal. -/
theorem legalization_coverage_witness :
    (configureArmSVELegalizeForExportTarget {}).getOpAction .WhileLTIntrOp = some .Legal :=
  legalization_coverage.2.2.2.1 { pattern := CreateMaskOpLowering, benefit := some 4096 }
    (by decide) .WhileLTIntrOp (by decide) rfl

end Coverage

end ArmSVE
